import Mathlib

/-!
# ColourCrafts: the FlowDraw drawing engine

A shallow embedding of `src/components/FlowDraw.jsx`: the element model, the
bounding-box and resize geometry, hit-testing and the undo/redo history.

Conventions of the embedding.

* A JavaScript number is a `JSNum`: a finite value is an exact rational, and the
  three non-finite values `Infinity`, `-Infinity` and `NaN` are kept, so that a
  division by zero and `Math.min()` of an empty list behave as they do in the
  source. Rounding of finite results and the sign of zero are not modelled
  (a zero is `+0`).
* A React state variable is a field of `State`; a handler is a function
  `State → State`, and a functional updater `setX(prev => ...)` is applied to the
  field it updates.
* An element object is one of four shapes of record: a point list, a segment
  with two endpoints, a text, or an object of an unrecognised type with none of
  those fields.
* A `points` array is never empty in the source: it is created holding the
  pointer-down position and afterwards only grows or is mapped. The embedding
  keeps its first entry apart from the rest.
* The literal `0.6` is the rational `3/5`, and `text.length` is the number of
  UTF-16 code units of the string (`jsLength`).
* `Math.hypot` returns the exact square root, kept as a `Surd` by its radicand;
  a comparison of two such values is decided exactly on the rationals
  (`rootLe`, whose meaning over the real numbers is `rootLe_iff`).
* An event is handled on the state left by the event before it: `step` applies
  the handler of the event, `run` a sequence of events from a state.
* The controller is embedded twice. `State` holds the element objects by value.
  `ByRef.State` holds them in a heap and the arrays hold addresses, so that a
  write to a field of an object that several arrays share is seen through all of
  them; `ByRef.State.view` reads the values back. The two agree on every event
  other than the move of a drag (`byRef_step_view`), the one place where the
  source writes to an element object after it has been put in an array.
-/

namespace FlowDraw

/-! ## Numbers -/

/-- JavaScript number: an exact rational, or one of the three non-finite values. -/
inductive JSNum where
  | fin (q : ℚ)
  | posInf
  | negInf
  | nan
  deriving DecidableEq, Repr

namespace JSNum

instance : Inhabited JSNum := ⟨fin 0⟩

instance : OfNat JSNum n := ⟨fin n⟩

/-- Whether the number is neither `NaN` nor an infinity (`Number.isFinite`). -/
def isFinite : JSNum → Bool
  | fin _ => true
  | _ => false

/-- Unary minus. -/
def neg : JSNum → JSNum
  | fin q => fin (-q)
  | posInf => negInf
  | negInf => posInf
  | nan => nan

/-- The operator `+` on numbers. -/
def add : JSNum → JSNum → JSNum
  | fin a, fin b => fin (a + b)
  | nan, _ => nan
  | _, nan => nan
  | posInf, negInf => nan
  | negInf, posInf => nan
  | posInf, _ => posInf
  | negInf, _ => negInf
  | fin _, posInf => posInf
  | fin _, negInf => negInf

/-- The operator `-` on numbers. -/
def sub (a b : JSNum) : JSNum := add a (neg b)

/-- An infinity of the sign of `q`, and `NaN` when `q` is zero: the value of
`q * Infinity`, and of `q / 0`. -/
def signedInf (q : ℚ) : JSNum :=
  if 0 < q then posInf else if q < 0 then negInf else nan

/-- The operator `*` on numbers. -/
def mul : JSNum → JSNum → JSNum
  | fin a, fin b => fin (a * b)
  | nan, _ => nan
  | _, nan => nan
  | fin a, posInf => signedInf a
  | fin a, negInf => signedInf (-a)
  | posInf, fin b => signedInf b
  | negInf, fin b => signedInf (-b)
  | posInf, posInf => posInf
  | posInf, negInf => negInf
  | negInf, posInf => negInf
  | negInf, negInf => posInf

/-- The operator `/` on numbers. A finite number divided by zero is an infinity
of its sign, and `0 / 0` is `NaN`. -/
def div : JSNum → JSNum → JSNum
  | fin a, fin b => if b = 0 then signedInf a else fin (a / b)
  | nan, _ => nan
  | _, nan => nan
  | fin _, posInf => fin 0
  | fin _, negInf => fin 0
  | posInf, fin b => if 0 ≤ b then posInf else negInf
  | negInf, fin b => if 0 ≤ b then negInf else posInf
  | posInf, posInf => nan
  | posInf, negInf => nan
  | negInf, posInf => nan
  | negInf, negInf => nan

/-- The function `Math.abs`. -/
def abs : JSNum → JSNum
  | fin q => fin |q|
  | posInf => posInf
  | negInf => posInf
  | nan => nan

/-- The operator `<` on numbers; every comparison with `NaN` is false. -/
def lt : JSNum → JSNum → Bool
  | fin a, fin b => decide (a < b)
  | nan, _ => false
  | _, nan => false
  | negInf, negInf => false
  | negInf, _ => true
  | _, negInf => false
  | posInf, _ => false
  | fin _, posInf => true

/-- The operator `<=` on numbers; every comparison with `NaN` is false. -/
def le : JSNum → JSNum → Bool
  | fin a, fin b => decide (a ≤ b)
  | nan, _ => false
  | _, nan => false
  | negInf, _ => true
  | _, posInf => true
  | posInf, _ => false
  | fin _, negInf => false

/-- The operator `>=` on numbers. -/
def ge (a b : JSNum) : Bool := le b a

/-- Truthiness of a number: `0` and `NaN` are falsy. -/
def truthy : JSNum → Bool
  | fin q => decide (q ≠ 0)
  | nan => false
  | _ => true

/-- The expression `a || b` on numbers. -/
def orElse (a b : JSNum) : JSNum := if a.truthy then a else b

/-- The function `Math.min` on two arguments, left to right. -/
def min2 (a b : JSNum) : JSNum :=
  match a, b with
  | nan, _ => nan
  | _, nan => nan
  | a, b => if lt b a then b else a

/-- The function `Math.max` on two arguments, left to right. -/
def max2 (a b : JSNum) : JSNum :=
  match a, b with
  | nan, _ => nan
  | _, nan => nan
  | a, b => if lt a b then b else a

/-- The call `Math.min(...xs)`: `Infinity` on no argument, `NaN` when an argument is `NaN`. -/
def mathMin (xs : List JSNum) : JSNum := xs.foldl min2 posInf

/-- The call `Math.max(...xs)`: `-Infinity` on no argument, `NaN` when an argument is `NaN`. -/
def mathMax (xs : List JSNum) : JSNum := xs.foldl max2 negInf

end JSNum

/-- A value of `Math.hypot`, or the sum of one with a number: `base + √radicand`
with `base` and `radicand` rational and `radicand` not negative, or a non-finite
value. The square root of a rational number is a real number that need not be
rational, so it is kept by its radicand, and the comparison `Surd.le` is decided
exactly. Rounding is not modelled, as for `JSNum`. -/
inductive Surd where
  | fin (base radicand : ℚ)
  | posInf
  | negInf
  | nan
  deriving DecidableEq, Repr

/-- Whether `√a ≤ √b + t` for `a` and `b` not negative, decided on the rationals
by squaring both sides. With `t` not negative the inequality is
`a - b - t² ≤ 2 t √b`; with `t` negative it is `2 |t| √a ≤ b - a - t²`. -/
def rootLe (a b t : ℚ) : Bool :=
  if 0 ≤ t then decide (a - b - t * t ≤ 0 ∨ (a - b - t * t) ^ 2 ≤ 4 * (t * t) * b)
  else decide (0 ≤ b - a - t * t ∧ 4 * (t * t) * a ≤ (b - a - t * t) ^ 2)

namespace Surd

/-- The operator `+` with a number on the right. -/
def add : Surd → JSNum → Surd
  | fin base radicand, JSNum.fin t => fin (base + t) radicand
  | nan, _ => nan
  | _, JSNum.nan => nan
  | posInf, JSNum.negInf => nan
  | negInf, JSNum.posInf => nan
  | posInf, _ => posInf
  | negInf, _ => negInf
  | fin _ _, JSNum.posInf => posInf
  | fin _ _, JSNum.negInf => negInf

/-- The operator `<=`; every comparison with `NaN` is false. -/
def le : Surd → Surd → Bool
  | fin base1 a, fin base2 b => rootLe a b (base2 - base1)
  | nan, _ => false
  | _, nan => false
  | negInf, _ => true
  | _, posInf => true
  | posInf, _ => false
  | fin _ _, negInf => false

end Surd

/-- The function `Math.hypot` on two arguments: `Infinity` when an argument is
infinite, else `NaN` when one is `NaN`, else the square root of the sum of the
squares. -/
def JSNum.hypot : JSNum → JSNum → Surd
  | .fin a, .fin b => .fin 0 (a * a + b * b)
  | .posInf, _ => .posInf
  | .negInf, _ => .posInf
  | _, .posInf => .posInf
  | _, .negInf => .posInf
  | .nan, .fin _ => .nan
  | .nan, .nan => .nan
  | .fin _, .nan => .nan

/-- The rational number that is not negative and whose square is `q`, when there
is one. -/
def exactRoot? (q : ℚ) : Option ℚ :=
  if Rat.sqrt q * Rat.sqrt q = q then some (Rat.sqrt q) else none

/-- The surd as a number, when it is one: when its root is rational. -/
def Surd.toNum? : Surd → Option JSNum
  | .fin base radicand => (exactRoot? radicand).map fun r => JSNum.fin (base + r)
  | .posInf => some .posInf
  | .negInf => some .negInf
  | .nan => some .nan


/-- The property `length` of a string: the number of its UTF-16 code units, one for
a character of the Basic Multilingual Plane and two for any other. A `String` is a
sequence of Unicode scalar values; a JavaScript string with an unpaired surrogate
has no counterpart here. -/
def jsLength (s : String) : Nat :=
  (s.toList.map fun c => if c.toNat < 65536 then 1 else 2).sum

/-! ## Data model -/

/-- A point object with fields `x` and `y`. -/
structure Point where
  x : JSNum
  y : JSNum
  deriving DecidableEq, Repr

/-- The value of `type` of an element that carries a `points` array. -/
inductive ShapeKind where
  | rectangle
  | circle
  | freehand
  | roundedRectangle
  | triangle
  deriving DecidableEq, Repr

/-- The value of `type` of an element that carries `x1, y1, x2, y2`. -/
inductive LineKind where
  | arrow
  | line
  deriving DecidableEq, Repr

/-- An element object of the scene. `other` is an object whose `type` is none of
the recognised tags and which has no `points` field. -/
inductive Element where
  | shape (type : ShapeKind) (first : Point) (rest : List Point) (color : String)
      (strokeWidth : JSNum)
  | segment (type : LineKind) (x1 y1 x2 y2 : JSNum) (color : String) (strokeWidth : JSNum)
  | text (x y : JSNum) (text : String) (color : String) (fontSize : JSNum)
  | other (type : String)
  deriving DecidableEq, Repr

/-- The `points` array of an element, when it has one. -/
def Element.points? : Element → Option (List Point)
  | .shape _ first rest _ _ => some (first :: rest)
  | _ => none

/-- The array `elements`: later elements are painted on top. -/
abbrev Scene := List Element

/-- The object returned by `computeBoundingBox`. -/
structure BBox where
  minX : JSNum
  minY : JSNum
  maxX : JSNum
  maxY : JSNum
  deriving DecidableEq, Repr

/-- The four keys of `handles` in `checkForResizeHandle`. -/
inductive Handle where
  | topLeft
  | topRight
  | bottomLeft
  | bottomRight
  deriving DecidableEq, Repr

/-- The state variable `history`. -/
structure History where
  past : List Scene
  present : Scene
  future : List Scene
  deriving DecidableEq, Repr

/-- The tool identifiers passed to `setTool`. -/
inductive Tool where
  | select
  | rectangle
  | circle
  | freehand
  | arrow
  | line
  | roundedRectangle
  | triangle
  | text
  | eraser
  deriving DecidableEq, Repr

/-- The state variable `editingText`. -/
structure EditingText where
  visible : Bool
  x : JSNum
  y : JSNum
  text : String
  fontSize : JSNum
  deriving DecidableEq, Repr

/-- The state variable `resizeData`. -/
structure ResizeData where
  resizing : Bool
  handle : Option Handle
  startX : JSNum
  startY : JSNum
  originalElement : Option Element
  originalBBox : Option BBox
  deriving DecidableEq, Repr

/-- The state variables of the component `FlowDraw`. -/
structure State where
  tool : Tool
  elements : Scene
  isDrawing : Bool
  isDragging : Bool
  currentElement : Option Element
  selectedIndex : Option Nat
  dragStart : Point
  color : String
  strokeWidth : JSNum
  zoomLevel : JSNum
  history : History
  editingText : EditingText
  resizeData : ResizeData
  deriving DecidableEq, Repr

/-- The initial values given to `useState`. -/
def State.initial : State where
  tool := Tool.select
  elements := []
  isDrawing := false
  isDragging := false
  currentElement := none
  selectedIndex := none
  dragStart := ⟨0, 0⟩
  color := "#000000"
  strokeWidth := 2
  zoomLevel := 1
  history := ⟨[], [], []⟩
  editingText := ⟨false, 0, 0, "", 16⟩
  resizeData := ⟨false, none, 0, 0, none, none⟩

/-! ## History -/

/-- The function `finalizeAction`: the updater of `setHistory`, then `setElements(newElements)`. -/
def finalizeAction (newElements : Scene) (s : State) : State :=
  { s with
    history :=
      { past := s.history.past ++ [s.history.present]
        present := newElements
        future := [] }
    elements := newElements }

/-- The function `undo`: the updater of `setHistory` returns `prev` when `past`
is empty, and otherwise also calls `setElements(newPresent)`. -/
def undo (s : State) : State :=
  let prev := s.history
  if h : prev.past = [] then s
  else
    let newFuture := prev.present :: prev.future
    let newPresent := prev.past.getLast h
    let newPast := prev.past.dropLast
    { s with
      history := { past := newPast, present := newPresent, future := newFuture }
      elements := newPresent }

/-- The function `redo`: the updater of `setHistory` returns `prev` when `future`
is empty, and otherwise also calls `setElements(newPresent)`. -/
def redo (s : State) : State :=
  let prev := s.history
  match prev.future with
  | [] => s
  | newPresent :: newFuture =>
    let newPast := prev.past ++ [prev.present]
    { s with
      history := { past := newPast, present := newPresent, future := newFuture }
      elements := newPresent }

/-! ## Geometry -/

/-- The function `computeBoundingBox`; `none` is its `null`. -/
def computeBoundingBox : Element → Option BBox
  | .text x y text _ fontSize0 =>
    let fontSize := fontSize0.orElse 16
    let approxWidth := ((JSNum.fin (jsLength text)).mul fontSize).mul (JSNum.fin (3 / 5))
    some { minX := x, minY := y.sub fontSize, maxX := x.add approxWidth, maxY := y }
  | .shape _ first rest _ _ =>
    let points := first :: rest
    let xs := points.map fun p => p.x
    let ys := points.map fun p => p.y
    some { minX := JSNum.mathMin xs, minY := JSNum.mathMin ys,
           maxX := JSNum.mathMax xs, maxY := JSNum.mathMax ys }
  | .segment _ x1 y1 x2 y2 _ _ =>
    some { minX := JSNum.mathMin [x1, x2], minY := JSNum.mathMin [y1, y2],
           maxX := JSNum.mathMax [x1, x2], maxY := JSNum.mathMax [y1, y2] }
  | .other _ => none

/-- The corner `fixedCorner` of `scaleElement`: the one opposite the dragged handle. -/
def fixedCornerOf (originalBBox : BBox) : Handle → Point
  | .topLeft => { x := originalBBox.maxX, y := originalBBox.maxY }
  | .topRight => { x := originalBBox.minX, y := originalBBox.maxY }
  | .bottomLeft => { x := originalBBox.maxX, y := originalBBox.minY }
  | .bottomRight => { x := originalBBox.minX, y := originalBBox.minY }

/-- The function `scaleElement`. -/
def scaleElement (originalElement : Element) (originalBBox : BBox) (handle : Handle)
    (newCorner : Point) : Element :=
  let fixedCorner := fixedCornerOf originalBBox handle
  let oldWidth := originalBBox.maxX.sub originalBBox.minX
  let oldHeight := originalBBox.maxY.sub originalBBox.minY
  let newWidth := (newCorner.x.sub fixedCorner.x).abs
  let newHeight := (newCorner.y.sub fixedCorner.y).abs
  let scaleX := newWidth.div oldWidth
  let scaleY := newHeight.div oldHeight
  let sx := fun (v : JSNum) => fixedCorner.x.add ((v.sub fixedCorner.x).mul scaleX)
  let sy := fun (v : JSNum) => fixedCorner.y.add ((v.sub fixedCorner.y).mul scaleY)
  match originalElement with
  | .shape type first rest color strokeWidth =>
    .shape type { x := sx first.x, y := sy first.y }
      (rest.map fun p => { x := sx p.x, y := sy p.y }) color strokeWidth
  | .segment type x1 y1 x2 y2 color strokeWidth =>
    .segment type (sx x1) (sy y1) (sx x2) (sy y2) color strokeWidth
  | .text x y text color fontSize =>
    .text (sx x) (sy y) text color (fontSize.mul ((scaleX.add scaleY).div 2))
  | .other type => .other type

/-! ## Hit-testing -/

/-- The constant `tolerance` of `getElementAtPosition`. -/
def tolerance : JSNum := 5

/-- The test `x >= minX && x <= maxX && y >= minY && y <= maxY`. -/
def inBounds (x y minX maxX minY maxY : JSNum) : Bool :=
  x.ge minX && x.le maxX && y.ge minY && y.le maxY

/-- The body of the loop of `getElementAtPosition` for the element `el`: whether
its branch reaches `return i`. -/
def hitElement (el : Element) (x y : JSNum) : Bool :=
  match el with
  | .shape .rectangle first rest _ _ | .shape .freehand first rest _ _
  | .shape .triangle first rest _ _ =>
    let points := first :: rest
    let xs := points.map fun p => p.x
    let ys := points.map fun p => p.y
    let minX := (JSNum.mathMin xs).sub tolerance
    let maxX := (JSNum.mathMax xs).add tolerance
    let minY := (JSNum.mathMin ys).sub tolerance
    let maxY := (JSNum.mathMax ys).add tolerance
    inBounds x y minX maxX minY maxY
  | .shape .circle first rest _ _ =>
    let center := first
    let last := (first :: rest).getLast (List.cons_ne_nil first rest)
    let radius := JSNum.hypot (last.x.sub center.x) (last.y.sub center.y)
    (JSNum.hypot (x.sub center.x) (y.sub center.y)).le (radius.add tolerance)
  | .segment _ x1 y1 x2 y2 _ _ =>
    let minX := (JSNum.mathMin [x1, x2]).sub tolerance
    let maxX := (JSNum.mathMax [x1, x2]).add tolerance
    let minY := (JSNum.mathMin [y1, y2]).sub tolerance
    let maxY := (JSNum.mathMax [y1, y2]).add tolerance
    inBounds x y minX maxX minY maxY
  | .shape .roundedRectangle first rest _ _ =>
    let p0 := first
    let pl := (first :: rest).getLast (List.cons_ne_nil first rest)
    let minX := (JSNum.mathMin [p0.x, pl.x]).sub tolerance
    let maxX := (JSNum.mathMax [p0.x, pl.x]).add tolerance
    let minY := (JSNum.mathMin [p0.y, pl.y]).sub tolerance
    let maxY := (JSNum.mathMax [p0.y, pl.y]).add tolerance
    inBounds x y minX maxX minY maxY
  | .text ex ey text _ fontSize0 =>
    let fontSize := fontSize0.orElse 16
    let approxWidth := ((JSNum.fin (jsLength text)).mul fontSize).mul (JSNum.fin (3 / 5))
    x.ge ex && x.le (ex.add approxWidth) && y.ge (ey.sub fontSize) && y.le ey
  | .other _ => false

/-- The loop `for (let i = n - 1; i >= 0; i--)` of `getElementAtPosition`, with
`n` the number of indices still to visit. -/
def getElementAtPosition.loop (elements : Scene) (x y : JSNum) : Nat → Option Nat
  | 0 => none
  | i + 1 =>
    match elements[i]? with
    | some el => if hitElement el x y then some i else loop elements x y i
    | none => loop elements x y i

/-- The function `getElementAtPosition` over the array `elements`; `none` is its `null`. -/
def getElementAtPosition (elements : Scene) (x y : JSNum) : Option Nat :=
  getElementAtPosition.loop elements x y elements.length

/-! ## Regions and boxes in the words of the specification -/

/-- Whether the point lies in the box `b` expanded by `pad` on every side. -/
def BBox.containsPadded (b : BBox) (pad x y : JSNum) : Bool :=
  x.ge (b.minX.sub pad) && x.le (b.maxX.add pad) && y.ge (b.minY.sub pad) && y.le (b.maxY.add pad)

/-- Whether the point lies in the closed box `b`, with no pad. -/
def BBox.contains (b : BBox) (x y : JSNum) : Bool :=
  x.ge b.minX && x.le b.maxX && y.ge b.minY && y.le b.maxY

/-- The hit region of an element as the specification words it: the bounding
box padded by 5 units for the box-like and line-like kinds, the disc of radius
`distance(center, rim) + 5` for a circle, the unpadded bounding box for a text. -/
def specHitRegion (el : Element) (x y : JSNum) : Bool :=
  match el with
  | .shape .circle center rest _ _ =>
    let rim := (center :: rest).getLast (List.cons_ne_nil center rest)
    (JSNum.hypot (x.sub center.x) (y.sub center.y)).le
      ((JSNum.hypot (rim.x.sub center.x) (rim.y.sub center.y)).add 5)
  | .text _ _ _ _ _ =>
    match computeBoundingBox el with
    | some b => b.contains x y
    | none => false
  | .other _ => false
  | _ =>
    match computeBoundingBox el with
    | some b => b.containsPadded 5 x y
    | none => false

/-- The box spanned by two points, the one a rectangle is drawn in. -/
def spanBox (p q : Point) : BBox :=
  { minX := JSNum.min2 p.x q.x, minY := JSNum.min2 p.y q.y,
    maxX := JSNum.max2 p.x q.x, maxY := JSNum.max2 p.y q.y }

/-- The hit region with the one change the source forces: a rounded rectangle is
hit in the padded box spanned by its first and its last point only. -/
def hitRegion (el : Element) (x y : JSNum) : Bool :=
  match el with
  | .shape .roundedRectangle first rest _ _ =>
    let last := (first :: rest).getLast (List.cons_ne_nil first rest)
    (spanBox first last).containsPadded 5 x y
  | _ => specHitRegion el x y

/-- The box of the full disc of a circle, as the specification words it: the
centre plus and minus the radius on both axes, the radius being the distance from
the centre to the rim point. When the radius is not rational the sides of the box
are no `JSNum` and the result is `none`. -/
def discBox (center rim : Point) : Option BBox :=
  (JSNum.hypot (rim.x.sub center.x) (rim.y.sub center.y)).toNum?.map fun radius =>
    { minX := center.x.sub radius, minY := center.y.sub radius,
      maxX := center.x.add radius, maxY := center.y.add radius }

/-- The box of a text in the words of the specification, for the font size
`fontSize`: `{x, y - fontSize, x + text.length * fontSize * 0.6, y}`. -/
def specTextBox (x y : JSNum) (text : String) (fontSize : JSNum) : BBox :=
  { minX := x, minY := y.sub fontSize,
    maxX := x.add (((JSNum.fin (jsLength text)).mul fontSize).mul (JSNum.fin (3 / 5))),
    maxY := y }

/-- The disc of a circle in the words of the specification, read over the real
numbers: `distance(p, center) <= radius + 5` with `radius = distance(center, rim)`. -/
def inDisc (center rim p : ℚ × ℚ) : Prop :=
  Real.sqrt ((((p.1 - center.1) ^ 2 + (p.2 - center.2) ^ 2 : ℚ) : ℝ)) ≤
    Real.sqrt ((((rim.1 - center.1) ^ 2 + (rim.2 - center.2) ^ 2 : ℚ) : ℝ)) + 5

/-- Whether every coordinate of the point is finite. -/
def Point.isFinite (p : Point) : Bool := p.x.isFinite && p.y.isFinite

/-- Whether every coordinate of the element (and the font size of a text) is finite. -/
def Element.isFinite : Element → Bool
  | .shape _ first rest _ _ => first.isFinite && rest.all Point.isFinite
  | .segment _ x1 y1 x2 y2 _ _ => x1.isFinite && y1.isFinite && x2.isFinite && y2.isFinite
  | .text x y _ _ fontSize => x.isFinite && y.isFinite && fontSize.isFinite
  | .other _ => true

/-- The point with the finite coordinates `p`. -/
def Point.ofRat (p : ℚ × ℚ) : Point := { x := .fin p.1, y := .fin p.2 }

/-- The two factors `scaleX` and `scaleY` that `scaleElement` computes. -/
def scaleFactors (originalBBox : BBox) (handle : Handle) (newCorner : Point) : JSNum × JSNum :=
  let fixedCorner := fixedCornerOf originalBBox handle
  let oldWidth := originalBBox.maxX.sub originalBBox.minX
  let oldHeight := originalBBox.maxY.sub originalBBox.minY
  let newWidth := (newCorner.x.sub fixedCorner.x).abs
  let newHeight := (newCorner.y.sub fixedCorner.y).abs
  (newWidth.div oldWidth, newHeight.div oldHeight)

/-! ## Interaction controller

A handler that reads `elements`, `tool` and the other state variables reads the
fields of the state it is applied to. Where the source would raise a
`TypeError` before any setter has run, the handler returns the state as it was. -/

/-- The branches of `updateElementPosition` for one element, followed by the copy
`{ ...el }`: every point, both endpoints, or the anchor of a text is shifted. -/
def translateElement (el : Element) (dx dy : JSNum) : Element :=
  match el with
  | .shape type first rest color strokeWidth =>
    .shape type { x := first.x.add dx, y := first.y.add dy }
      (rest.map fun p => { x := p.x.add dx, y := p.y.add dy }) color strokeWidth
  | .segment type x1 y1 x2 y2 color strokeWidth =>
    .segment type (x1.add dx) (y1.add dy) (x2.add dx) (y2.add dy) color strokeWidth
  | .text x y text color fontSize => .text (x.add dx) (y.add dy) text color fontSize
  | .other type => .other type

/-- The updater that `updateElementPosition` passes to `setElements`: the array it
returns. With no element at `index` the read `el.type` raises a `TypeError`. The
source writes the shifted coordinates into the element object before copying it;
the embedding is by value and keeps only the returned array. The writes themselves
are embedded in `ByRef.updateElementPosition`. -/
def updateElementPosition (index : Nat) (dx dy : JSNum) (prev : Scene) : Scene :=
  match prev[index]? with
  | some el => prev.set index (translateElement el dx dy)
  | none => prev

/-- The call `elements.filter((_, i) => i !== index)`, the callback running on
the indices `start, start + 1, ...`. -/
def filterIndexNe (index : Nat) : Nat → Scene → Scene
  | _, [] => []
  | i, el :: rest =>
    if i != index then el :: filterIndexNe index (i + 1) rest
    else filterIndexNe index (i + 1) rest

/-- The function `selectElement` at the pointer position. -/
def selectElement (offsetX offsetY : JSNum) (s : State) : State :=
  match getElementAtPosition s.elements offsetX offsetY with
  | some index =>
    { s with selectedIndex := some index, dragStart := { x := offsetX, y := offsetY },
             isDragging := true }
  | none => s

/-- The function `handleEraser` at the pointer position. -/
def handleEraser (offsetX offsetY : JSNum) (s : State) : State :=
  match getElementAtPosition s.elements offsetX offsetY with
  | some index => finalizeAction (filterIndexNe index 0 s.elements) s
  | none => s

/-- A number after `JSON.parse(JSON.stringify(_))`: a non-finite number comes
back as `null`, which every arithmetic operator reads as zero. -/
def jsonNumber (v : JSNum) : JSNum := if v.isFinite then v else 0

/-- The deep copy `JSON.parse(JSON.stringify(element))`. -/
def jsonCopy : Element → Element
  | .shape type first rest color strokeWidth =>
    .shape type { x := jsonNumber first.x, y := jsonNumber first.y }
      (rest.map fun p => { x := jsonNumber p.x, y := jsonNumber p.y }) color
      (jsonNumber strokeWidth)
  | .segment type x1 y1 x2 y2 color strokeWidth =>
    .segment type (jsonNumber x1) (jsonNumber y1) (jsonNumber x2) (jsonNumber y2) color
      (jsonNumber strokeWidth)
  | .text x y text color fontSize =>
    .text (jsonNumber x) (jsonNumber y) text color (jsonNumber fontSize)
  | .other type => .other type

/-- The outcome of `checkForResizeHandle`: `true` after `setResizeData(data)`,
`false`, or a `TypeError` on a missing element or a `null` bounding box. -/
inductive HandleCheck where
  | found (data : ResizeData)
  | notFound
  | typeError
  deriving DecidableEq, Repr

/-- The object `handles` of `checkForResizeHandle`, in the order of its keys. -/
def handlePositions (bbox : BBox) : List (Handle × Point) :=
  [(.topLeft, { x := bbox.minX, y := bbox.minY }),
   (.topRight, { x := bbox.maxX, y := bbox.minY }),
   (.bottomLeft, { x := bbox.minX, y := bbox.maxY }),
   (.bottomRight, { x := bbox.maxX, y := bbox.maxY })]

/-- The constant `threshold` of `checkForResizeHandle`. -/
def threshold : JSNum := 8

/-- The function `checkForResizeHandle` at the pointer position. -/
def checkForResizeHandle (offsetX offsetY : JSNum) (s : State) : HandleCheck :=
  match s.selectedIndex with
  | none => .notFound
  | some selectedIndex =>
    match s.elements[selectedIndex]? with
    | none => .typeError
    | some element =>
      match computeBoundingBox element with
      | none => .typeError
      | some bbox =>
        match (handlePositions bbox).find? fun hp =>
            ((offsetX.sub hp.2.x).abs.lt threshold) && ((offsetY.sub hp.2.y).abs.lt threshold) with
        | some hp =>
          .found { resizing := true, handle := some hp.1, startX := offsetX, startY := offsetY,
                   originalElement := some (jsonCopy element), originalBBox := some bbox }
        | none => .notFound

/-- The function `handleSelectMove` at the pointer position. -/
def handleSelectMove (offsetX offsetY : JSNum) (s : State) : State :=
  if !s.isDragging then s
  else
    let dx := offsetX.sub s.dragStart.x
    let dy := offsetY.sub s.dragStart.y
    match s.selectedIndex with
    | some selectedIndex =>
      { s with elements := updateElementPosition selectedIndex dx dy s.elements,
               dragStart := { x := offsetX, y := offsetY } }
    | none => s

/-- The function `endSelect`. -/
def endSelect (s : State) : State :=
  { s with isDragging := false, selectedIndex := none }

/-- The element that `handleMouseDown` gives to `setCurrentElement` for the tool,
if it gives one. -/
def newElementFor (tool : Tool) (offsetX offsetY : JSNum) (color : String)
    (strokeWidth : JSNum) : Option Element :=
  match tool with
  | .arrow => some (.segment .arrow offsetX offsetY offsetX offsetY color strokeWidth)
  | .rectangle => some (.shape .rectangle { x := offsetX, y := offsetY } [] color strokeWidth)
  | .circle => some (.shape .circle { x := offsetX, y := offsetY } [] color strokeWidth)
  | .freehand => some (.shape .freehand { x := offsetX, y := offsetY } [] color strokeWidth)
  | .roundedRectangle =>
    some (.shape .roundedRectangle { x := offsetX, y := offsetY } [] color strokeWidth)
  | .triangle => some (.shape .triangle { x := offsetX, y := offsetY } [] color strokeWidth)
  | .line => some (.segment .line offsetX offsetY offsetX offsetY color strokeWidth)
  | _ => none

/-- The function `handleMouseDown` at the pointer position. -/
def handleMouseDown (offsetX offsetY : JSNum) (s : State) : State :=
  match newElementFor s.tool offsetX offsetY s.color s.strokeWidth with
  | some el => { s with currentElement := some el, isDrawing := true }
  | none => { s with isDrawing := true }

/-- The assignment `newEls[selectedIndex] = newElement` on a copy of the array.
With `selectedIndex` being `null` the array keeps its elements. An index equal to
the length appends; a larger one would leave holes, which a `Scene` cannot hold,
and the array is kept as it is. -/
def assignAt (prev : Scene) (selectedIndex : Option Nat) (newElement : Element) : Scene :=
  match selectedIndex with
  | none => prev
  | some i =>
    if i < prev.length then prev.set i newElement
    else if i = prev.length then prev ++ [newElement]
    else prev

/-- The updater that `handleMouseMove` passes to `setCurrentElement` for the line
and arrow tools, `{ ...prev, x2, y2 }`. On an element of another shape the two
fields are added and never read; on `null` the result has no `type`. -/
def withSecondEndpoint (prev : Option Element) (offsetX offsetY : JSNum) : Option Element :=
  match prev with
  | some (.segment type x1 y1 _ _ color strokeWidth) =>
    some (.segment type x1 y1 offsetX offsetY color strokeWidth)
  | some el => some el
  | none => some (.other "")

/-- The function `handleMouseMove` at the pointer position. The inner
`setElements(els => els.map(el => el === prev ? updatedElement : el))` compares
object identities; the live element is not an entry of `elements`, so the array
is unchanged. Reading `prev.points` of an element without points raises a
`TypeError`. -/
def handleMouseMove (offsetX offsetY : JSNum) (s : State) : State :=
  if s.resizeData.resizing then
    match s.resizeData.originalElement, s.resizeData.originalBBox, s.resizeData.handle with
    | some originalElement, some originalBBox, some handle =>
      let newCorner : Point := { x := offsetX, y := offsetY }
      let newElement := scaleElement originalElement originalBBox handle newCorner
      { s with elements := assignAt s.elements s.selectedIndex newElement }
    | _, _, _ => s
  else if !s.isDrawing then s
  else
    match s.tool with
    | .arrow | .line =>
      { s with currentElement := withSecondEndpoint s.currentElement offsetX offsetY }
    | .rectangle | .circle | .freehand | .roundedRectangle | .triangle =>
      match s.currentElement with
      | none => s
      | some (.shape type first rest color strokeWidth) =>
        let points := rest ++ [{ x := offsetX, y := offsetY }]
        { s with currentElement := some (.shape type first points color strokeWidth) }
      | some _ => s
    | _ => s

/-- The initial and reset value of `resizeData`. -/
def ResizeData.idle : ResizeData :=
  { resizing := false, handle := none, startX := 0, startY := 0, originalElement := none,
    originalBBox := none }

/-- The function `handleMouseUp`. While `isDrawing` holds `currentElement` is set
(it is `null` only after a pointer-up, which also clears `isDrawing`); were it
`null`, the array would receive a `null` entry, which a `Scene` cannot hold, and
nothing is appended. -/
def handleMouseUp (s : State) : State :=
  if s.resizeData.resizing then
    { (finalizeAction s.elements s) with resizeData := ResizeData.idle }
  else if !s.isDrawing then s
  else if s.tool != Tool.text then
    let newElements := s.elements ++ s.currentElement.toList
    { (finalizeAction newElements s) with currentElement := none, isDrawing := false }
  else { s with isDrawing := false }

/-- The function `handleCanvasMouseDown` at the pointer position. -/
def handleCanvasMouseDown (offsetX offsetY : JSNum) (s : State) : State :=
  match s.tool with
  | .eraser => handleEraser offsetX offsetY s
  | .select =>
    match checkForResizeHandle offsetX offsetY s with
    | .found data => { s with resizeData := data }
    | .typeError => s
    | .notFound => selectElement offsetX offsetY s
  | .text =>
    { s with editingText :=
        { visible := true, x := offsetX, y := offsetY, text := "", fontSize := 16 } }
  | _ => handleMouseDown offsetX offsetY s

/-- The function `handleCanvasMouseMove` at the pointer position. -/
def handleCanvasMouseMove (offsetX offsetY : JSNum) (s : State) : State :=
  if s.tool == Tool.select && s.isDragging then handleSelectMove offsetX offsetY s
  else handleMouseMove offsetX offsetY s

/-- The function `handleCanvasMouseUp`, also the handler of `onMouseLeave`. -/
def handleCanvasMouseUp (s : State) : State :=
  if s.tool == Tool.select then endSelect s else handleMouseUp s

/-- The reset value of `editingText`. -/
def EditingText.hidden : EditingText :=
  { visible := false, x := 0, y := 0, text := "", fontSize := 16 }

/-- The function `handleTextChange` with the value of the input. -/
def handleTextChange (value : String) (s : State) : State :=
  { s with editingText := { s.editingText with text := value } }

/-- The commit of the text entry, shared by the `Enter` key and `onBlur`. -/
def commitText (s : State) : State :=
  let newTextElement : Element :=
    .text s.editingText.x s.editingText.y s.editingText.text s.color s.editingText.fontSize
  { (finalizeAction (s.elements ++ [newTextElement]) s) with
    editingText := EditingText.hidden }

/-- The function `handleTextKeyDown` with the key of the event. -/
def handleTextKeyDown (key : String) (s : State) : State :=
  if key = "Enter" then commitText s
  else if key = "Escape" then { s with editingText := EditingText.hidden }
  else s

/-- The function `clearCanvas`. -/
def clearCanvas (s : State) : State :=
  { s with elements := [], history := { past := [], present := [], future := [] } }

/-- The function `zoomIn`. -/
def zoomIn (s : State) : State :=
  { s with zoomLevel := JSNum.mathMin [s.zoomLevel.add (.fin (1 / 10)), 2] }

/-- The function `zoomOut`. -/
def zoomOut (s : State) : State :=
  { s with zoomLevel := JSNum.mathMax [s.zoomLevel.sub (.fin (1 / 10)), .fin (1 / 2)] }

/-- The events the component handles. The text events reach the component only
while the text input is rendered, that is while `editingText.visible` holds. -/
inductive Event where
  | setTool (tool : Tool)
  | setColor (color : String)
  | setStrokeWidth (strokeWidth : JSNum)
  | pointerDown (offsetX offsetY : JSNum)
  | pointerMove (offsetX offsetY : JSNum)
  | pointerUp
  | textChange (value : String)
  | textKeyDown (key : String)
  | textBlur
  | undo
  | redo
  | clearCanvas
  | zoomIn
  | zoomOut
  deriving DecidableEq, Repr

/-- The state after the component has handled one event. -/
def step (s : State) : Event → State
  | .setTool tool => { s with tool := tool }
  | .setColor color => { s with color := color }
  | .setStrokeWidth strokeWidth => { s with strokeWidth := strokeWidth }
  | .pointerDown offsetX offsetY => handleCanvasMouseDown offsetX offsetY s
  | .pointerMove offsetX offsetY => handleCanvasMouseMove offsetX offsetY s
  | .pointerUp => handleCanvasMouseUp s
  | .textChange value => if s.editingText.visible then handleTextChange value s else s
  | .textKeyDown key => if s.editingText.visible then handleTextKeyDown key s else s
  | .textBlur => if s.editingText.visible then commitText s else s
  | .undo => undo s
  | .redo => redo s
  | .clearCanvas => clearCanvas s
  | .zoomIn => zoomIn s
  | .zoomOut => zoomOut s

/-- The state after a sequence of events. -/
def run (s : State) (events : List Event) : State := events.foldl step s

/-- A draw gesture: the tool is chosen, the pointer goes down, moves through the
sampled positions and goes up. -/
structure Gesture where
  tool : Tool
  down : Point
  moves : List Point
  deriving DecidableEq, Repr

/-- The events of a gesture. -/
def Gesture.events (g : Gesture) : List Event :=
  [.setTool g.tool, .pointerDown g.down.x g.down.y] ++
    g.moves.map (fun p => Event.pointerMove p.x p.y) ++ [.pointerUp]

/-- The state after the gesture. -/
def runGesture (s : State) (g : Gesture) : State := run s g.events

/-- The state after the gestures, one after the other. -/
def runGestures (s : State) (gs : List Gesture) : State := gs.foldl runGesture s

/-- The kind of point list a tool draws: the tools whose pointer-move appends a point. -/
def Tool.shapeKind? : Tool → Option ShapeKind
  | .rectangle => some .rectangle
  | .circle => some .circle
  | .freehand => some .freehand
  | .roundedRectangle => some .roundedRectangle
  | .triangle => some .triangle
  | _ => none

/-- The kind of segment a tool draws: the tools whose pointer-move sets `x2, y2`. -/
def Tool.lineKind? : Tool → Option LineKind
  | .arrow => some .arrow
  | .line => some .line
  | _ => none

/-- Whether the tool draws an element: the seven tools other than select, text and eraser. -/
def Tool.isDraw : Tool → Bool
  | .select | .text | .eraser => false
  | _ => true

/-- The kind of point list a box-like tool draws. -/
def Tool.boxKind? : Tool → Option ShapeKind
  | .rectangle => some .rectangle
  | .roundedRectangle => some .roundedRectangle
  | .circle => some .circle
  | .triangle => some .triangle
  | _ => none

/-- The last entry of a non-empty sequence of positions given by its first entry
and the rest. -/
def lastPoint (first : Point) (rest : List Point) : Point :=
  (first :: rest).getLast (List.cons_ne_nil first rest)

/-- The element a draw gesture is to leave in the scene, in the style current at
pointer-down: the point list of the down position and every move position, or the
segment from the down position to the last position. -/
def Gesture.drawn (g : Gesture) (color : String) (strokeWidth : JSNum) : Option Element :=
  match g.tool with
  | .rectangle => some (.shape .rectangle g.down g.moves color strokeWidth)
  | .circle => some (.shape .circle g.down g.moves color strokeWidth)
  | .freehand => some (.shape .freehand g.down g.moves color strokeWidth)
  | .roundedRectangle => some (.shape .roundedRectangle g.down g.moves color strokeWidth)
  | .triangle => some (.shape .triangle g.down g.moves color strokeWidth)
  | .arrow =>
    some (.segment .arrow g.down.x g.down.y (lastPoint g.down g.moves).x
      (lastPoint g.down g.moves).y color strokeWidth)
  | .line =>
    some (.segment .line g.down.x g.down.y (lastPoint g.down g.moves).x
      (lastPoint g.down g.moves).y color strokeWidth)
  | _ => none

/-- The box `b` moved by `(dx, dy)`. -/
def BBox.shift (b : BBox) (dx dy : JSNum) : BBox :=
  { minX := b.minX.add dx, minY := b.minY.add dy, maxX := b.maxX.add dx, maxY := b.maxY.add dy }

/-- Whether the point lies inside `boundingBox(element)` expanded by 5 units on
every side, in the words of the specification. -/
def inPaddedBoundingBox (el : Element) (x y : JSNum) : Bool :=
  match computeBoundingBox el with
  | some b => b.containsPadded 5 x y
  | none => false

/-- Whether the events are well bracketed, `inGesture` telling whether a
pointer-down is still waiting for its pointer-up: no pointer-down and no change
of tool comes between a pointer-down and the next pointer-up. -/
def wellBracketed : Bool → List Event → Bool
  | _, [] => true
  | inGesture, .pointerDown _ _ :: rest => !inGesture && wellBracketed true rest
  | _, .pointerUp :: rest => wellBracketed false rest
  | inGesture, .setTool _ :: rest => !inGesture && wellBracketed false rest
  | inGesture, _ :: rest => wellBracketed inGesture rest

/-- Whether a pointer-down is waiting for its pointer-up after the events. -/
def gestureOpenAfter : Bool → List Event → Bool
  | inGesture, [] => inGesture
  | _, .pointerDown _ _ :: rest => gestureOpenAfter true rest
  | _, .pointerUp :: rest => gestureOpenAfter false rest
  | inGesture, _ :: rest => gestureOpenAfter inGesture rest

/-- The corner of the box a handle sits on: the entry of the object `handles`
of `checkForResizeHandle` for its key. -/
def handleCornerOf (bbox : BBox) : Handle → Point
  | .topLeft => { x := bbox.minX, y := bbox.minY }
  | .topRight => { x := bbox.maxX, y := bbox.minY }
  | .bottomLeft => { x := bbox.minX, y := bbox.maxY }
  | .bottomRight => { x := bbox.maxX, y := bbox.maxY }

/-- Whether the new corner `c` lies on the side of the anchor on which the handle
corner lies: to the left of it for a left handle, above it for a top handle. -/
def sameSide (handle : Handle) (anchor c : Point) : Bool :=
  match handle with
  | .topLeft => c.x.le anchor.x && c.y.le anchor.y
  | .topRight => c.x.ge anchor.x && c.y.le anchor.y
  | .bottomLeft => c.x.le anchor.x && c.y.ge anchor.y
  | .bottomRight => c.x.ge anchor.x && c.y.ge anchor.y

/-- The box that keeps the corner of `b` opposite the handle and reaches from it,
on the side where `b` lies, over the width `|c.x - anchor.x|` and the height
`|c.y - anchor.y|`. -/
def resizedBox (b : BBox) (handle : Handle) (c : Point) : BBox :=
  match handle with
  | .topLeft =>
    { minX := b.maxX.sub (c.x.sub b.maxX).abs, minY := b.maxY.sub (c.y.sub b.maxY).abs,
      maxX := b.maxX, maxY := b.maxY }
  | .topRight =>
    { minX := b.minX, minY := b.maxY.sub (c.y.sub b.maxY).abs,
      maxX := b.minX.add (c.x.sub b.minX).abs, maxY := b.maxY }
  | .bottomLeft =>
    { minX := b.maxX.sub (c.x.sub b.maxX).abs, minY := b.minY,
      maxX := b.maxX, maxY := b.minY.add (c.y.sub b.minY).abs }
  | .bottomRight =>
    { minX := b.minX, minY := b.minY,
      maxX := b.minX.add (c.x.sub b.minX).abs, maxY := b.minY.add (c.y.sub b.minY).abs }

/-- The field `type` of an element. -/
def Element.type : Element → String
  | .shape .rectangle _ _ _ _ => "rectangle"
  | .shape .circle _ _ _ _ => "circle"
  | .shape .freehand _ _ _ _ => "freehand"
  | .shape .roundedRectangle _ _ _ _ => "roundedRectangle"
  | .shape .triangle _ _ _ _ => "triangle"
  | .segment .arrow _ _ _ _ _ _ => "arrow"
  | .segment .line _ _ _ _ _ _ => "line"
  | .text _ _ _ _ _ => "text"
  | .other type => type

/-- The length of the `points` array of an element; zero when it has none. -/
def Element.pointCount : Element → Nat
  | .shape _ _ rest _ _ => rest.length + 1
  | _ => 0

/-- The field `color` of an element, when it has one. -/
def Element.color? : Element → Option String
  | .shape _ _ _ color _ => some color
  | .segment _ _ _ _ _ color _ => some color
  | .text _ _ _ color _ => some color
  | .other _ => none

/-- The field `strokeWidth` of an element, when it has one. -/
def Element.strokeWidth? : Element → Option JSNum
  | .shape _ _ _ _ strokeWidth => some strokeWidth
  | .segment _ _ _ _ _ _ strokeWidth => some strokeWidth
  | _ => none

/-- Whether the element is a point list or a line or an arrow. -/
def Element.isPointListOrSegment : Element → Bool
  | .shape _ _ _ _ _ => true
  | .segment _ _ _ _ _ _ _ => true
  | _ => false

/-! ## The controller with element objects held by reference

The arrays `elements`, `history.present` and the entries of `history.past` and
`history.future` hold references to element objects, and one object can be an
entry of several arrays: `finalizeAction(newElements)` stores the array it is
given, and `[...elements, currentElement]`, `elements.filter(...)` and `[...prev]`
copy references. Here the element objects live in a heap, an array holds the
addresses of its entries, and a write to a field of an object is a write to the
heap. The arrays themselves are never written to after they are built, and are
held by value. -/

namespace ByRef

/-- An array of element objects: the addresses of its entries. -/
abbrev RefScene := List Nat

/-- The state variable `history`, its arrays holding addresses. -/
structure History where
  past : List RefScene
  present : RefScene
  future : List RefScene
  deriving DecidableEq, Repr

/-- The state variables of the component `FlowDraw` and the heap of the element
objects that have been entries of an array. The live element `currentElement` and
the copy `resizeData.originalElement` are entries of no array and are held by
value. -/
structure State where
  heap : List Element
  tool : Tool
  elements : RefScene
  isDrawing : Bool
  isDragging : Bool
  currentElement : Option Element
  selectedIndex : Option Nat
  dragStart : Point
  color : String
  strokeWidth : JSNum
  zoomLevel : JSNum
  history : History
  editingText : EditingText
  resizeData : ResizeData
  deriving DecidableEq, Repr

/-- The initial values given to `useState`, with no object allocated. -/
def State.initial : State where
  heap := []
  tool := Tool.select
  elements := []
  isDrawing := false
  isDragging := false
  currentElement := none
  selectedIndex := none
  dragStart := ⟨0, 0⟩
  color := "#000000"
  strokeWidth := 2
  zoomLevel := 1
  history := ⟨[], [], []⟩
  editingText := ⟨false, 0, 0, "", 16⟩
  resizeData := ⟨false, none, 0, 0, none, none⟩

/-- The object at an address. Every address an array holds has been allocated; an
address that has not reads as an object without fields. -/
def load (heap : List Element) (ref : Nat) : Element := heap.getD ref (.other "")

/-- The element values an array holds at the moment. -/
def deref (heap : List Element) (refs : RefScene) : Scene := refs.map (load heap)

/-- The values the state variables hold at the moment, as a reader of the fields
of the element objects sees them. -/
def State.view (s : State) : FlowDraw.State where
  tool := s.tool
  elements := deref s.heap s.elements
  isDrawing := s.isDrawing
  isDragging := s.isDragging
  currentElement := s.currentElement
  selectedIndex := s.selectedIndex
  dragStart := s.dragStart
  color := s.color
  strokeWidth := s.strokeWidth
  zoomLevel := s.zoomLevel
  history :=
    { past := s.history.past.map (deref s.heap)
      present := deref s.heap s.history.present
      future := s.history.future.map (deref s.heap) }
  editingText := s.editingText
  resizeData := s.resizeData

/-- The function `finalizeAction`: the array `newElements` itself becomes
`history.present` and `elements`. -/
def finalizeAction (newElements : RefScene) (s : State) : State :=
  { s with
    history :=
      { past := s.history.past ++ [s.history.present]
        present := newElements
        future := [] }
    elements := newElements }

/-- The function `undo`. -/
def undo (s : State) : State :=
  let prev := s.history
  if h : prev.past = [] then s
  else
    let newFuture := prev.present :: prev.future
    let newPresent := prev.past.getLast h
    let newPast := prev.past.dropLast
    { s with
      history := { past := newPast, present := newPresent, future := newFuture }
      elements := newPresent }

/-- The function `redo`. -/
def redo (s : State) : State :=
  let prev := s.history
  match prev.future with
  | [] => s
  | newPresent :: newFuture =>
    let newPast := prev.past ++ [prev.present]
    { s with
      history := { past := newPast, present := newPresent, future := newFuture }
      elements := newPresent }

/-- The function `updateElementPosition`. The copy `[...prev]` holds the addresses
of `prev`, so `el` is the object that `prev[index]` and every array sharing it
hold. The branches write the shifted coordinates into that object; then
`{ ...el }` allocates a new object with the fields of `el`, and only the copied
array receives its address. With no element at `index` the read `el.type` raises
a `TypeError`. -/
def updateElementPosition (index : Nat) (dx dy : JSNum) (s : State) : State :=
  match s.elements[index]? with
  | none => s
  | some el =>
    let written := s.heap.set el (translateElement (load s.heap el) dx dy)
    let copy := load written el
    { s with heap := written ++ [copy], elements := s.elements.set index written.length }

/-- The call `elements.filter((_, i) => i !== index)` on an array of addresses,
the callback running on the indices `start, start + 1, ...`. -/
def filterIndexNe (index : Nat) : Nat → RefScene → RefScene
  | _, [] => []
  | i, el :: rest =>
    if i != index then el :: filterIndexNe index (i + 1) rest
    else filterIndexNe index (i + 1) rest

/-- The function `selectElement` at the pointer position; `getElementAtPosition`
reads the fields of the objects of `elements`. -/
def selectElement (offsetX offsetY : JSNum) (s : State) : State :=
  match getElementAtPosition (deref s.heap s.elements) offsetX offsetY with
  | some index =>
    { s with selectedIndex := some index, dragStart := { x := offsetX, y := offsetY },
             isDragging := true }
  | none => s

/-- The function `handleEraser` at the pointer position. -/
def handleEraser (offsetX offsetY : JSNum) (s : State) : State :=
  match getElementAtPosition (deref s.heap s.elements) offsetX offsetY with
  | some index => finalizeAction (filterIndexNe index 0 s.elements) s
  | none => s

/-- The function `handleSelectMove` at the pointer position. -/
def handleSelectMove (offsetX offsetY : JSNum) (s : State) : State :=
  if !s.isDragging then s
  else
    let dx := offsetX.sub s.dragStart.x
    let dy := offsetY.sub s.dragStart.y
    match s.selectedIndex with
    | some selectedIndex =>
      { (updateElementPosition selectedIndex dx dy s) with
        dragStart := { x := offsetX, y := offsetY } }
    | none => s

/-- The function `endSelect`. -/
def endSelect (s : State) : State :=
  { s with isDragging := false, selectedIndex := none }

/-- The function `handleMouseDown` at the pointer position. -/
def handleMouseDown (offsetX offsetY : JSNum) (s : State) : State :=
  match newElementFor s.tool offsetX offsetY s.color s.strokeWidth with
  | some el => { s with currentElement := some el, isDrawing := true }
  | none => { s with isDrawing := true }

/-- The assignment `newEls[selectedIndex] = newElement` on a copy of the array of
addresses, as `FlowDraw.assignAt` does it on values. -/
def assignAt (prev : RefScene) (selectedIndex : Option Nat) (newElement : Nat) : RefScene :=
  match selectedIndex with
  | none => prev
  | some i =>
    if i < prev.length then prev.set i newElement
    else if i = prev.length then prev ++ [newElement]
    else prev

/-- The function `handleMouseMove` at the pointer position. The object that
`scaleElement` returns is new; the live element is an entry of no array. -/
def handleMouseMove (offsetX offsetY : JSNum) (s : State) : State :=
  if s.resizeData.resizing then
    match s.resizeData.originalElement, s.resizeData.originalBBox, s.resizeData.handle with
    | some originalElement, some originalBBox, some handle =>
      let newCorner : Point := { x := offsetX, y := offsetY }
      let newElement := scaleElement originalElement originalBBox handle newCorner
      { s with heap := s.heap ++ [newElement],
               elements := assignAt s.elements s.selectedIndex s.heap.length }
    | _, _, _ => s
  else if !s.isDrawing then s
  else
    match s.tool with
    | .arrow | .line =>
      { s with currentElement := withSecondEndpoint s.currentElement offsetX offsetY }
    | .rectangle | .circle | .freehand | .roundedRectangle | .triangle =>
      match s.currentElement with
      | none => s
      | some (.shape type first rest color strokeWidth) =>
        let points := rest ++ [{ x := offsetX, y := offsetY }]
        { s with currentElement := some (.shape type first points color strokeWidth) }
      | some _ => s
    | _ => s

/-- The function `handleMouseUp`. The live element becomes an entry of the new
array, and from then on it is an object of the heap. -/
def handleMouseUp (s : State) : State :=
  if s.resizeData.resizing then
    { (finalizeAction s.elements s) with resizeData := ResizeData.idle }
  else if !s.isDrawing then s
  else if s.tool != Tool.text then
    match s.currentElement with
    | some el =>
      { (finalizeAction (s.elements ++ [s.heap.length]) s) with
        heap := s.heap ++ [el], currentElement := none, isDrawing := false }
    | none => { (finalizeAction s.elements s) with currentElement := none, isDrawing := false }
  else { s with isDrawing := false }

/-- The function `handleCanvasMouseDown` at the pointer position;
`checkForResizeHandle` reads the fields of the selected object. -/
def handleCanvasMouseDown (offsetX offsetY : JSNum) (s : State) : State :=
  match s.tool with
  | .eraser => handleEraser offsetX offsetY s
  | .select =>
    match checkForResizeHandle offsetX offsetY s.view with
    | .found data => { s with resizeData := data }
    | .typeError => s
    | .notFound => selectElement offsetX offsetY s
  | .text =>
    { s with editingText :=
        { visible := true, x := offsetX, y := offsetY, text := "", fontSize := 16 } }
  | _ => handleMouseDown offsetX offsetY s

/-- The function `handleCanvasMouseMove` at the pointer position. -/
def handleCanvasMouseMove (offsetX offsetY : JSNum) (s : State) : State :=
  if s.tool == Tool.select && s.isDragging then handleSelectMove offsetX offsetY s
  else handleMouseMove offsetX offsetY s

/-- The function `handleCanvasMouseUp`, also the handler of `onMouseLeave`. -/
def handleCanvasMouseUp (s : State) : State :=
  if s.tool == Tool.select then endSelect s else handleMouseUp s

/-- The function `handleTextChange` with the value of the input. -/
def handleTextChange (value : String) (s : State) : State :=
  { s with editingText := { s.editingText with text := value } }

/-- The commit of the text entry, shared by the `Enter` key and `onBlur`; the new
text object is allocated. -/
def commitText (s : State) : State :=
  let newTextElement : Element :=
    .text s.editingText.x s.editingText.y s.editingText.text s.color s.editingText.fontSize
  { (finalizeAction (s.elements ++ [s.heap.length]) s) with
    heap := s.heap ++ [newTextElement], editingText := EditingText.hidden }

/-- The function `handleTextKeyDown` with the key of the event. -/
def handleTextKeyDown (key : String) (s : State) : State :=
  if key = "Enter" then commitText s
  else if key = "Escape" then { s with editingText := EditingText.hidden }
  else s

/-- The function `clearCanvas`. -/
def clearCanvas (s : State) : State :=
  { s with elements := [], history := { past := [], present := [], future := [] } }

/-- The function `zoomIn`. -/
def zoomIn (s : State) : State :=
  { s with zoomLevel := JSNum.mathMin [s.zoomLevel.add (.fin (1 / 10)), 2] }

/-- The function `zoomOut`. -/
def zoomOut (s : State) : State :=
  { s with zoomLevel := JSNum.mathMax [s.zoomLevel.sub (.fin (1 / 10)), .fin (1 / 2)] }

/-- The state after the component has handled one event. -/
def step (s : State) : Event → State
  | .setTool tool => { s with tool := tool }
  | .setColor color => { s with color := color }
  | .setStrokeWidth strokeWidth => { s with strokeWidth := strokeWidth }
  | .pointerDown offsetX offsetY => handleCanvasMouseDown offsetX offsetY s
  | .pointerMove offsetX offsetY => handleCanvasMouseMove offsetX offsetY s
  | .pointerUp => handleCanvasMouseUp s
  | .textChange value => if s.editingText.visible then handleTextChange value s else s
  | .textKeyDown key => if s.editingText.visible then handleTextKeyDown key s else s
  | .textBlur => if s.editingText.visible then commitText s else s
  | .undo => undo s
  | .redo => redo s
  | .clearCanvas => clearCanvas s
  | .zoomIn => zoomIn s
  | .zoomOut => zoomOut s

/-- The state after a sequence of events. -/
def run (s : State) (events : List Event) : State := events.foldl step s

/-- Whether every address held by `elements` and by the arrays of `history` has
been allocated. -/
def State.wellFormed (s : State) : Bool :=
  s.elements.all (· < s.heap.length) &&
    s.history.past.all (fun refs => refs.all (· < s.heap.length)) &&
    s.history.present.all (· < s.heap.length) &&
    s.history.future.all (fun refs => refs.all (· < s.heap.length))

/-- Whether the event is a pointer-move that `handleCanvasMouseMove` passes to
`handleSelectMove`: the select tool is chosen and a drag has begun. -/
def isDragMove (s : State) : Event → Bool
  | .pointerMove _ _ => s.tool == Tool.select && s.isDragging
  | _ => false

end ByRef

/-! ## Concrete elements and states used as examples -/

/-- The line from (10,10) to (100,100) drawn with the default style. -/
def exampleLine : Element := .segment .line 10 10 100 100 "#000000" 2

/-- The horizontal line from (10,10) to (100,10): its bounding box has height zero. -/
def exampleFlatLine : Element := .segment .line 10 10 100 10 "#000000" 2

/-- The circle with centre (50,50) and rim point (80,50). -/
def exampleCircle : Element := .shape .circle ⟨50, 50⟩ [⟨80, 50⟩] "#000000" 2

/-- The text "ab" of font size 10 with its baseline anchored at (0,20). -/
def exampleText : Element := .text 0 20 "ab" "#000000" 10

/-- The text "ab" anchored at (0,20) with font size 0, as a text is left with when
it has been scaled by the factors 0 and 0. -/
def exampleZeroText : Element := .text 0 20 "ab" "#000000" 0

/-- A rounded rectangle whose pointer went out to (100,100) and came back to (10,10). -/
def exampleRounded : Element :=
  .shape .roundedRectangle ⟨0, 0⟩ [⟨100, 100⟩, ⟨10, 10⟩] "#000000" 2

/-- The rectangle drawn from (0,0) to (40,30). -/
def exampleRectangle : Element := .shape .rectangle ⟨0, 0⟩ [⟨40, 30⟩] "#000000" 2

/-- A rectangle whose pointer went out to (100,100) and came back to (10,10). -/
def exampleRectangleBack : Element :=
  .shape .rectangle ⟨0, 0⟩ [⟨100, 100⟩, ⟨10, 10⟩] "#000000" 2

/-- The gesture that draws the line from (10,10) to (100,100). -/
def exampleLineGesture : Gesture := { tool := .line, down := ⟨10, 10⟩, moves := [⟨100, 100⟩] }

/-- A rectangle gesture whose pointer goes out to (100,100) and comes back to (10,10). -/
def exampleRectangleGesture : Gesture :=
  { tool := .rectangle, down := ⟨0, 0⟩, moves := [⟨100, 100⟩, ⟨10, 10⟩] }

/-- A freehand gesture through three positions. -/
def exampleFreehandGesture : Gesture :=
  { tool := .freehand, down := ⟨0, 0⟩, moves := [⟨5, 8⟩, ⟨9, 3⟩] }

/-- The events that draw the line, select it at its corner (10,10) and press there
a second time with no pointer-up in between, which grabs the top-left resize handle. -/
def exampleResizeEvents : List Event :=
  [.setTool .line, .pointerDown 10 10, .pointerMove 100 100, .pointerUp,
   .setTool .select, .pointerDown 10 10, .pointerDown 10 10]

/-- A well-bracketed sequence: a line is drawn, then selected and released. -/
def exampleBracketedEvents : List Event :=
  [.setTool .line, .pointerDown 10 10, .pointerMove 100 100, .pointerUp,
   .setTool .select, .pointerDown 10 10, .pointerMove 20 20, .pointerUp]

/-- The events that draw the line from (10,10) to (100,100), choose the select
tool and press the pointer on the line at (55,55). -/
def exampleGrabEvents : List Event :=
  [.setTool .line, .pointerDown 10 10, .pointerMove 100 100, .pointerUp,
   .setTool .select, .pointerDown 55 55]

/-- The rectangle from (200,200) to (240,230) drawn with the default style. -/
def exampleFarRectangle : Element := .shape .rectangle ⟨200, 200⟩ [⟨240, 230⟩] "#000000" 2

/-- The line from (300,300) to (400,400) drawn with the default style. -/
def exampleFarLine : Element := .segment .line 300 300 400 400 "#000000" 2

/-- The line from (10,10) to (100,100) moved by (10,20). -/
def exampleMovedLine : Element := .segment .line 20 30 110 120 "#000000" 2

/-- The events that draw the line from (10,10) to (100,100), the rectangle from
(200,200) to (240,230) and the line from (300,300) to (400,400), undo the last
of them, choose the select tool and press the pointer on the first line at
(55,55). -/
def exampleDragEvents : List Event :=
  [.setTool .line, .pointerDown 10 10, .pointerMove 100 100, .pointerUp,
   .setTool .rectangle, .pointerDown 200 200, .pointerMove 240 230, .pointerUp,
   .setTool .line, .pointerDown 300 300, .pointerMove 400 400, .pointerUp,
   .undo, .setTool .select, .pointerDown 55 55]

/-- The state after the line has been committed from the initial state. -/
def exampleCommitted : State := finalizeAction [exampleLine] State.initial

/-- The state after that commit has been undone. -/
def exampleUndone : State := undo exampleCommitted

/-! ## History: commit, undo, redo -/

/-- C1. Commit (`finalizeAction`): the old `present` is pushed onto the end of
`past`, the new scene becomes `present`, `future` is cleared, and the live scene
is the new scene. -/
theorem finalizeAction_commits (s : State) (newScene : Scene) :
    (finalizeAction newScene s).history.past = s.history.past ++ [s.history.present] ∧
    (finalizeAction newScene s).history.present = newScene ∧
    (finalizeAction newScene s).history.future = [] ∧
    (finalizeAction newScene s).elements = newScene := by
  simp [finalizeAction]

/-- C2. Undo: with an empty `past` the whole state is returned unchanged;
otherwise, `past` being `init ++ [last]`, the new history has `past = init`,
`present = last`, the old `present` in front of `future`, and the live scene
becomes `last`. -/
theorem undo_spec (s : State) :
    (s.history.past = [] → undo s = s) ∧
    (∀ init last, s.history.past = init ++ [last] →
      (undo s).history.past = s.history.past.dropLast ∧
      (undo s).history.past = init ∧
      (undo s).history.present = last ∧
      (undo s).history.future = s.history.present :: s.history.future ∧
      (undo s).elements = (undo s).history.present) := by
  refine ⟨fun h => by simp [undo, h], fun init last h => ?_⟩
  have hne : s.history.past ≠ [] := by simp [h]
  simp [undo, hne, h]

/-- C3. Redo: with an empty `future` the whole state is returned unchanged;
otherwise, `future` being `next :: later`, the new history has the old `present`
pushed onto the end of `past`, `present = next`, `future = later`, and the live
scene becomes `next`. -/
theorem redo_spec (s : State) :
    (s.history.future = [] → redo s = s) ∧
    (∀ next later, s.history.future = next :: later →
      (redo s).history.past = s.history.past ++ [s.history.present] ∧
      (redo s).history.present = next ∧
      (redo s).history.future = later ∧
      (redo s).history.future = s.history.future.tail ∧
      (redo s).elements = (redo s).history.present) := by
  refine ⟨fun h => by simp [redo, h], fun next later h => ?_⟩
  simp [redo, h]

/-- C4. Redo undoes undo: from the state reached by a commit, an undo followed by
a redo gives back that very state (history and live scene included). -/
theorem redo_undo_commit (s : State) (newScene : Scene) :
    redo (undo (finalizeAction newScene s)) = finalizeAction newScene s := by
  simp [redo, undo, finalizeAction]

/-- Witness of C2 on the state reached by committing one line. -/
theorem undo_spec_witness :
    exampleCommitted.history.past = [] ++ [[]] ∧
    (undo exampleCommitted).history.past = [] ∧
    (undo exampleCommitted).history.present = [] ∧
    (undo exampleCommitted).history.future = [[exampleLine]] ∧
    (undo exampleCommitted).elements = [] := by
  have h := (undo_spec exampleCommitted).2 [] [] rfl
  exact ⟨rfl, h.2.1, h.2.2.1, h.2.2.2.1, by rw [h.2.2.2.2, h.2.2.1]⟩

/-- Witness of C3 on the state reached by one commit and one undo. -/
theorem redo_spec_witness :
    exampleUndone.history.future = [exampleLine] :: [] ∧
    (redo exampleUndone).history.past = [[]] ∧
    (redo exampleUndone).history.present = [exampleLine] ∧
    (redo exampleUndone).history.future = [] ∧
    (redo exampleUndone).elements = [exampleLine] := by
  have h := (redo_spec exampleUndone).2 [exampleLine] [] rfl
  exact ⟨rfl, h.1, h.2.1, h.2.2.1, by rw [h.2.2.2.2, h.2.1]⟩

/-- C5 as stated fails: after committing one line from the initial state, redo is
a no-op (the future is empty) and the undo that follows leaves the empty scene as
`present`, not the committed one. -/
theorem undo_redo_commit_counterexample :
    (undo (redo (finalizeAction [exampleLine] State.initial))).history.present = [] ∧
    (finalizeAction [exampleLine] State.initial).history.present = [exampleLine] ∧
    undo (redo (finalizeAction [exampleLine] State.initial)) ≠
      finalizeAction [exampleLine] State.initial := by
  refine ⟨rfl, rfl, fun h => ?_⟩
  have h2 := congrArg (fun t => t.history.present.length) h
  exact absurd h2 (by decide)

/-- C5 amended. Undo undoes redo wherever redo is effective: when `future` is not
empty, `undo (redo s)` has the history of `s` and the live scene `s.history.present`;
in particular from the state reached by a commit followed by an undo,
`undo (redo _)` gives back that very state. From a state just committed the redo is
a no-op and `undo (redo _)` is the undo of the commit. -/
theorem undo_redo_effective (s : State) :
    (s.history.future ≠ [] →
      (undo (redo s)).history = s.history ∧ (undo (redo s)).elements = s.history.present) ∧
    (∀ newScene, undo (redo (undo (finalizeAction newScene s))) =
      undo (finalizeAction newScene s)) ∧
    (∀ newScene, undo (redo (finalizeAction newScene s)) = undo (finalizeAction newScene s)) := by
  refine ⟨fun h => ?_, fun newScene => ?_, fun newScene => ?_⟩
  · cases hf : s.history.future with
    | nil => exact absurd hf h
    | cons next later =>
      simp [redo, undo, hf]
      cases hs : s.history
      simp_all
  · simp [redo, undo, finalizeAction]
  · simp [redo, undo, finalizeAction]

/-- Witness of the amended C5 on the state reached by one commit and one undo. -/
theorem undo_redo_effective_witness :
    exampleUndone.history.future ≠ [] ∧
    (undo (redo exampleUndone)).history = exampleUndone.history ∧
    (undo (redo exampleUndone)).elements = exampleUndone.history.present :=
  ⟨by simp [exampleUndone, exampleCommitted, undo, finalizeAction, State.initial],
   (undo_redo_effective exampleUndone).1
     (by simp [exampleUndone, exampleCommitted, undo, finalizeAction, State.initial])⟩

/-! ## Arithmetic on finite numbers -/

namespace JSNum

@[simp] theorem ofNat_eq_fin (n : ℕ) : (OfNat.ofNat n : JSNum) = fin (n : ℚ) := rfl

@[simp] theorem add_fin (a b : ℚ) : (fin a).add (fin b) = fin (a + b) := rfl

@[simp] theorem sub_fin (a b : ℚ) : (fin a).sub (fin b) = fin (a - b) := by
  simp [sub, neg, add, sub_eq_add_neg]

@[simp] theorem mul_fin (a b : ℚ) : (fin a).mul (fin b) = fin (a * b) := rfl

@[simp] theorem abs_fin (a : ℚ) : (fin a).abs = fin |a| := rfl

theorem div_fin (a b : ℚ) (hb : b ≠ 0) : (fin a).div (fin b) = fin (a / b) := by
  simp [div, hb]

@[simp] theorem le_fin (a b : ℚ) : (fin a).le (fin b) = decide (a ≤ b) := rfl

@[simp] theorem ge_fin (a b : ℚ) : (fin a).ge (fin b) = decide (b ≤ a) := rfl

@[simp] theorem lt_fin (a b : ℚ) : (fin a).lt (fin b) = decide (a < b) := rfl

@[simp] theorem min2_fin (a b : ℚ) : min2 (fin a) (fin b) = fin (min a b) := by
  by_cases h : b < a
  · simp [min2, h, min_eq_right h.le]
  · simp [min2, h, min_eq_left (not_lt.mp h)]

@[simp] theorem max2_fin (a b : ℚ) : max2 (fin a) (fin b) = fin (max a b) := by
  by_cases h : a < b
  · simp [max2, h, max_eq_right h.le]
  · simp [max2, h, max_eq_left (not_lt.mp h)]

@[simp] theorem min2_posInf_fin (a : ℚ) : min2 posInf (fin a) = fin a := by
  simp [min2, lt]

@[simp] theorem max2_negInf_fin (a : ℚ) : max2 negInf (fin a) = fin a := by
  simp [max2, lt]

theorem foldl_min2_fin (l : List ℚ) (a : ℚ) :
    (l.map fin).foldl min2 (fin a) = fin (l.foldl min a) := by
  induction l generalizing a with
  | nil => rfl
  | cons b l ih => simp [ih]

theorem foldl_max2_fin (l : List ℚ) (a : ℚ) :
    (l.map fin).foldl max2 (fin a) = fin (l.foldl max a) := by
  induction l generalizing a with
  | nil => rfl
  | cons b l ih => simp [ih]

/-- `Math.min` of a non-empty list of finite numbers is the finite least one. -/
theorem mathMin_fin (a : ℚ) (l : List ℚ) :
    mathMin (fin a :: l.map fin) = fin (l.foldl min a) := by
  simp [mathMin, foldl_min2_fin]

/-- `Math.max` of a non-empty list of finite numbers is the finite greatest one. -/
theorem mathMax_fin (a : ℚ) (l : List ℚ) :
    mathMax (fin a :: l.map fin) = fin (l.foldl max a) := by
  simp [mathMax, foldl_max2_fin]

end JSNum

theorem foldl_min_le (l : List ℚ) (a : ℚ) : ∀ x ∈ a :: l, l.foldl min a ≤ x := by
  induction l generalizing a with
  | nil => intro x hx; simp at hx; simp [hx]
  | cons b l ih =>
    intro x hx
    simp only [List.foldl_cons]
    have h1 := ih (min a b)
    rcases List.mem_cons.mp hx with rfl | hx
    · exact le_trans (h1 _ (List.mem_cons_self _ _)) (min_le_left _ _)
    · rcases List.mem_cons.mp hx with rfl | hx
      · exact le_trans (h1 _ (List.mem_cons_self _ _)) (min_le_right _ _)
      · exact h1 _ (List.mem_cons_of_mem _ hx)

theorem foldl_min_mem (l : List ℚ) (a : ℚ) : l.foldl min a ∈ a :: l := by
  induction l generalizing a with
  | nil => simp
  | cons b l ih =>
    simp only [List.foldl_cons]
    rcases List.mem_cons.mp (ih (min a b)) with h | h
    · rw [h]
      rcases min_choice a b with h2 | h2 <;> simp [h2]
    · exact List.mem_cons_of_mem _ (List.mem_cons_of_mem _ h)

theorem le_foldl_max (l : List ℚ) (a : ℚ) : ∀ x ∈ a :: l, x ≤ l.foldl max a := by
  induction l generalizing a with
  | nil => intro x hx; simp at hx; simp [hx]
  | cons b l ih =>
    intro x hx
    simp only [List.foldl_cons]
    have h1 := ih (max a b)
    rcases List.mem_cons.mp hx with rfl | hx
    · exact le_trans (le_max_left _ _) (h1 _ (List.mem_cons_self _ _))
    · rcases List.mem_cons.mp hx with rfl | hx
      · exact le_trans (le_max_right _ _) (h1 _ (List.mem_cons_self _ _))
      · exact h1 _ (List.mem_cons_of_mem _ hx)

theorem foldl_max_mem (l : List ℚ) (a : ℚ) : l.foldl max a ∈ a :: l := by
  induction l generalizing a with
  | nil => simp
  | cons b l ih =>
    simp only [List.foldl_cons]
    rcases List.mem_cons.mp (ih (max a b)) with h | h
    · rw [h]
      rcases max_choice a b with h2 | h2 <;> simp [h2]
    · exact List.mem_cons_of_mem _ (List.mem_cons_of_mem _ h)

/-- The least element of a non-empty list is determined by its two properties. -/
theorem foldl_min_unique (l : List ℚ) (a m : ℚ) (hm : m ∈ a :: l)
    (hle : ∀ x ∈ a :: l, m ≤ x) : l.foldl min a = m :=
  le_antisymm (foldl_min_le l a m hm) (hle _ (foldl_min_mem l a))

/-- The greatest element of a non-empty list is determined by its two properties. -/
theorem foldl_max_unique (l : List ℚ) (a m : ℚ) (hm : m ∈ a :: l)
    (hle : ∀ x ∈ a :: l, x ≤ m) : l.foldl max a = m :=
  le_antisymm (hle _ (foldl_max_mem l a)) (le_foldl_max l a m hm)

/-! ## Bounding boxes -/

theorem map_x_ofRat (l : List (ℚ × ℚ)) :
    (l.map Point.ofRat).map (fun p => p.x) = (l.map Prod.fst).map JSNum.fin := by
  simp [List.map_map, Point.ofRat, Function.comp_def]

theorem map_y_ofRat (l : List (ℚ × ℚ)) :
    (l.map Point.ofRat).map (fun p => p.y) = (l.map Prod.snd).map JSNum.fin := by
  simp [List.map_map, Point.ofRat, Function.comp_def]

/-- The bounding box of a point list with finite coordinates, computed on the rationals. -/
theorem computeBoundingBox_shape_fin (type : ShapeKind) (first : ℚ × ℚ) (rest : List (ℚ × ℚ))
    (color : String) (strokeWidth : JSNum) :
    computeBoundingBox (.shape type (Point.ofRat first) (rest.map Point.ofRat) color strokeWidth) =
      some { minX := .fin ((rest.map Prod.fst).foldl min first.1)
             minY := .fin ((rest.map Prod.snd).foldl min first.2)
             maxX := .fin ((rest.map Prod.fst).foldl max first.1)
             maxY := .fin ((rest.map Prod.snd).foldl max first.2) } := by
  have hx : (Point.ofRat first).x = JSNum.fin first.1 := rfl
  have hy : (Point.ofRat first).y = JSNum.fin first.2 := rfl
  simp only [computeBoundingBox, List.map_cons, map_x_ofRat, map_y_ofRat, hx, hy,
    JSNum.mathMin_fin, JSNum.mathMax_fin]

/-- The bounding box of a segment with finite endpoints, computed on the rationals. -/
theorem computeBoundingBox_segment_fin (type : LineKind) (x1 y1 x2 y2 : ℚ)
    (color : String) (strokeWidth : JSNum) :
    computeBoundingBox (.segment type (.fin x1) (.fin y1) (.fin x2) (.fin y2) color strokeWidth) =
      some { minX := .fin (min x1 x2), minY := .fin (min y1 y2),
             maxX := .fin (max x1 x2), maxY := .fin (max y1 y2) } := by
  simp [computeBoundingBox, JSNum.mathMin, JSNum.mathMax]

/-- The bounding box of a text with finite anchor and font size, computed on the
rationals; `f` is the value of `element.fontSize || 16`. -/
theorem computeBoundingBox_text_fin (x y fontSize : ℚ) (text color : String) :
    computeBoundingBox (.text (.fin x) (.fin y) text color (.fin fontSize)) =
      some { minX := .fin x
             minY := .fin (y - (if fontSize = 0 then 16 else fontSize))
             maxX := .fin (x + jsLength text * (if fontSize = 0 then 16 else fontSize) * (3 / 5))
             maxY := .fin y } := by
  by_cases h : fontSize = 0
  · simp [computeBoundingBox, JSNum.orElse, JSNum.truthy, h]
  · simp [computeBoundingBox, JSNum.orElse, JSNum.truthy, h]

/-- C9 as stated fails on a text whose font size is zero. For the text "ab"
anchored at (0,20) with font size 0 the formula of the claim gives the box
`{0, 20, 0, 20}`; the source measures the text with the fallback size 16 and
returns `{0, 4, 96/5, 20}`. -/
theorem computeBoundingBox_text_zero_counterexample :
    computeBoundingBox exampleZeroText =
      some { minX := .fin 0, minY := .fin 4, maxX := .fin (96 / 5), maxY := .fin 20 } ∧
    specTextBox 0 20 "ab" 0 =
      { minX := .fin 0, minY := .fin 20, maxX := .fin 0, maxY := .fin 20 } ∧
    computeBoundingBox exampleZeroText ≠ some (specTextBox 0 20 "ab" 0) := by
  have hl : jsLength "ab" = 2 := by decide
  have h1 : computeBoundingBox exampleZeroText =
      some { minX := .fin 0, minY := .fin 4, maxX := .fin (96 / 5), maxY := .fin 20 } := by
    have h := computeBoundingBox_text_fin 0 20 0 "ab" "#000000"
    rw [hl] at h
    norm_num at h
    simpa [exampleZeroText] using h
  have h2 : specTextBox 0 20 "ab" 0 =
      { minX := .fin 0, minY := .fin 20, maxX := .fin 0, maxY := .fin 20 } := by
    simp only [specTextBox, hl, JSNum.ofNat_eq_fin, JSNum.sub_fin, JSNum.mul_fin, JSNum.add_fin]
    norm_num
  refine ⟨h1, h2, ?_⟩
  rw [h1, h2]
  intro h
  have h3 := congrArg (fun b => b.map BBox.minY) h
  simp only [Option.map_some', Option.some.injEq, JSNum.fin.injEq] at h3
  norm_num at h3

/-- C9 amended. The function `computeBoundingBox`. For a point list with finite
coordinates (never empty) the box is the componentwise minimum and maximum of the
points: every point lies in it and each of its four sides is attained by a point.
For a line or an arrow with finite endpoints it is the minimum and maximum of the
two endpoints. For a text it is `{x, y - f, x + text.length * f * 0.6, y}`, where
`f` is the font size of the element, or 16 when that font size is zero or `NaN`,
and `text.length` counts UTF-16 code units; with a non-zero font size that is the
box of the specification. For an element of no recognised kind it is `null`. -/
theorem computeBoundingBox_spec :
    (∀ (type : ShapeKind) (first : ℚ × ℚ) (rest : List (ℚ × ℚ)) (color : String)
        (strokeWidth : JSNum),
      ∃ minX minY maxX maxY : ℚ,
        computeBoundingBox
            (.shape type (Point.ofRat first) (rest.map Point.ofRat) color strokeWidth) =
          some { minX := .fin minX, minY := .fin minY, maxX := .fin maxX, maxY := .fin maxY } ∧
        (∀ p ∈ first :: rest, minX ≤ p.1 ∧ p.1 ≤ maxX ∧ minY ≤ p.2 ∧ p.2 ≤ maxY) ∧
        (∃ p ∈ first :: rest, p.1 = minX) ∧ (∃ p ∈ first :: rest, p.1 = maxX) ∧
        (∃ p ∈ first :: rest, p.2 = minY) ∧ (∃ p ∈ first :: rest, p.2 = maxY)) ∧
    (∀ (type : LineKind) (x1 y1 x2 y2 : ℚ) (color : String) (strokeWidth : JSNum),
      computeBoundingBox
          (.segment type (.fin x1) (.fin y1) (.fin x2) (.fin y2) color strokeWidth) =
        some { minX := .fin (min x1 x2), minY := .fin (min y1 y2),
               maxX := .fin (max x1 x2), maxY := .fin (max y1 y2) }) ∧
    (∀ (x y fontSize : ℚ) (text color : String),
      computeBoundingBox (.text (.fin x) (.fin y) text color (.fin fontSize)) =
        some { minX := .fin x
               minY := .fin (y - (if fontSize = 0 then 16 else fontSize))
               maxX := .fin (x + jsLength text * (if fontSize = 0 then 16 else fontSize) * (3 / 5))
               maxY := .fin y }) ∧
    (∀ (x y fontSize : JSNum) (text color : String),
      computeBoundingBox (.text x y text color fontSize) =
        some (specTextBox x y text
          (if fontSize = .fin 0 ∨ fontSize = .nan then 16 else fontSize))) ∧
    (∀ type : String, computeBoundingBox (.other type) = none) := by
  refine ⟨fun type first rest color strokeWidth => ?_, computeBoundingBox_segment_fin,
    computeBoundingBox_text_fin, ?_, fun _ => rfl⟩
  swap
  · intro x y fontSize text color
    cases fontSize with
    | fin q =>
      by_cases hq : q = 0
      · simp [computeBoundingBox, specTextBox, JSNum.orElse, JSNum.truthy, hq]
      · simp [computeBoundingBox, specTextBox, JSNum.orElse, JSNum.truthy, hq]
    | posInf => simp [computeBoundingBox, specTextBox, JSNum.orElse, JSNum.truthy]
    | negInf => simp [computeBoundingBox, specTextBox, JSNum.orElse, JSNum.truthy]
    | nan => simp [computeBoundingBox, specTextBox, JSNum.orElse, JSNum.truthy]
  refine ⟨_, _, _, _, computeBoundingBox_shape_fin type first rest color strokeWidth, ?_, ?_, ?_,
    ?_, ?_⟩
  · intro p hp
    have hx : p.1 ∈ first.1 :: rest.map Prod.fst := by
      rw [← List.map_cons]; exact List.mem_map_of_mem _ hp
    have hy : p.2 ∈ first.2 :: rest.map Prod.snd := by
      rw [← List.map_cons]; exact List.mem_map_of_mem _ hp
    exact ⟨foldl_min_le _ _ _ hx, le_foldl_max _ _ _ hx, foldl_min_le _ _ _ hy,
      le_foldl_max _ _ _ hy⟩
  · have h := foldl_min_mem (rest.map Prod.fst) first.1
    rw [← List.map_cons, List.mem_map] at h
    exact h
  · have h := foldl_max_mem (rest.map Prod.fst) first.1
    rw [← List.map_cons, List.mem_map] at h
    exact h
  · have h := foldl_min_mem (rest.map Prod.snd) first.2
    rw [← List.map_cons, List.mem_map] at h
    exact h
  · have h := foldl_max_mem (rest.map Prod.snd) first.2
    rw [← List.map_cons, List.mem_map] at h
    exact h

/-- The comparison of two roots with a shift that is not negative, by squaring. -/
theorem real_root_le_nonneg (a b t : ℝ) (hb : 0 ≤ b) (ht : 0 ≤ t) :
    Real.sqrt a ≤ Real.sqrt b + t ↔
      a - b - t * t ≤ 0 ∨ (a - b - t * t) ^ 2 ≤ 4 * (t * t) * b := by
  have hsb := Real.sqrt_nonneg b
  have hb2 : Real.sqrt b * Real.sqrt b = b := Real.mul_self_sqrt hb
  rw [Real.sqrt_le_left (by positivity)]
  constructor
  · intro h
    by_cases hD : a - b - t * t ≤ 0
    · exact Or.inl hD
    · right
      push_neg at hD
      have h2 : a - b - t * t ≤ 2 * t * Real.sqrt b := by nlinarith
      have h3 : (a - b - t * t) ^ 2 ≤ (2 * t * Real.sqrt b) ^ 2 :=
        pow_le_pow_left₀ hD.le h2 2
      nlinarith
  · rintro (h | h)
    · nlinarith [mul_nonneg ht hsb]
    · have h0 : 0 ≤ 2 * t * Real.sqrt b := by positivity
      have h3 : (a - b - t * t) ^ 2 ≤ (2 * t * Real.sqrt b) ^ 2 := by nlinarith
      have h4 : a - b - t * t ≤ 2 * t * Real.sqrt b := by
        have := abs_le_of_sq_le_sq' h3 h0
        exact this.2
      nlinarith

/-- The comparison of two roots with a negative shift, by squaring. -/
theorem real_root_le_neg (a b t : ℝ) (ha : 0 ≤ a) (hb : 0 ≤ b) (ht : t < 0) :
    Real.sqrt a ≤ Real.sqrt b + t ↔
      0 ≤ b - a - t * t ∧ 4 * (t * t) * a ≤ (b - a - t * t) ^ 2 := by
  have hsa := Real.sqrt_nonneg a
  have ha2 : Real.sqrt a * Real.sqrt a = a := Real.mul_self_sqrt ha
  have h1 : Real.sqrt a ≤ Real.sqrt b + t ↔ Real.sqrt a - t ≤ Real.sqrt b := by
    constructor <;> intro h <;> linarith
  rw [h1, Real.le_sqrt (by linarith) hb]
  constructor
  · intro h
    have h2 : 2 * (-t) * Real.sqrt a ≤ b - a - t * t := by nlinarith
    have h0 : 0 ≤ 2 * (-t) * Real.sqrt a := by
      have : 0 ≤ -t := by linarith
      positivity
    refine ⟨le_trans h0 h2, ?_⟩
    have h3 : (2 * (-t) * Real.sqrt a) ^ 2 ≤ (b - a - t * t) ^ 2 := pow_le_pow_left₀ h0 h2 2
    nlinarith
  · rintro ⟨hE, h⟩
    have h3 : (2 * (-t) * Real.sqrt a) ^ 2 ≤ (b - a - t * t) ^ 2 := by nlinarith
    have h4 : 2 * (-t) * Real.sqrt a ≤ b - a - t * t := by
      have := abs_le_of_sq_le_sq' h3 hE
      exact this.2
    nlinarith

/-- The meaning of `rootLe` over the real numbers: for `a` and `b` not negative it
decides `√a ≤ √b + t`. -/
theorem rootLe_iff (a b t : ℚ) (ha : 0 ≤ a) (hb : 0 ≤ b) :
    rootLe a b t = true ↔ Real.sqrt (a : ℝ) ≤ Real.sqrt (b : ℝ) + (t : ℝ) := by
  have ha2 : (0 : ℝ) ≤ (a : ℝ) := by exact_mod_cast ha
  have hb2 : (0 : ℝ) ≤ (b : ℝ) := by exact_mod_cast hb
  unfold rootLe
  by_cases ht : 0 ≤ t
  · have ht2 : (0 : ℝ) ≤ (t : ℝ) := by exact_mod_cast ht
    rw [if_pos ht, decide_eq_true_iff, real_root_le_nonneg _ _ _ hb2 ht2]
    constructor
    · rintro (h | h)
      · left; exact_mod_cast h
      · right; exact_mod_cast h
    · rintro (h | h)
      · left; exact_mod_cast h
      · right; exact_mod_cast h
  · have ht2 : (t : ℝ) < 0 := by exact_mod_cast (not_le.mp ht)
    rw [if_neg ht, decide_eq_true_iff, real_root_le_neg _ _ _ ha2 hb2 ht2]
    constructor
    · rintro ⟨h1, h2⟩
      exact ⟨by exact_mod_cast h1, by exact_mod_cast h2⟩
    · rintro ⟨h1, h2⟩
      exact ⟨by exact_mod_cast h1, by exact_mod_cast h2⟩

/-- The root of a square of a number that is not negative is found. -/
theorem exactRoot?_mul_self (r : ℚ) (hr : 0 ≤ r) : exactRoot? (r * r) = some r := by
  simp [exactRoot?, Rat.sqrt_eq, abs_of_nonneg hr]

/-- The result of `exactRoot?` is the root that is not negative, and it is found
whenever there is one. -/
theorem exactRoot?_eq_some_iff (q r : ℚ) : exactRoot? q = some r ↔ 0 ≤ r ∧ r * r = q := by
  constructor
  · intro h
    unfold exactRoot? at h
    split at h
    · cases h
      exact ⟨Rat.sqrt_nonneg q, by assumption⟩
    · cases h
  · rintro ⟨h0, rfl⟩
    exact exactRoot?_mul_self r h0

/-- C10, the source at the input of the claim. For the circle with centre (50,50)
and rim point (80,50) the source returns the box spanned by the two stored points,
`{minX: 50, minY: 50, maxX: 80, maxY: 50}`, which is not the box of the disc
`{minX: 20, minY: 20, maxX: 80, maxY: 80}` of radius 30. -/
theorem computeBoundingBox_circle_not_disc :
    computeBoundingBox exampleCircle =
      some { minX := .fin 50, minY := .fin 50, maxX := .fin 80, maxY := .fin 50 } ∧
    discBox ⟨50, 50⟩ ⟨80, 50⟩ =
      some { minX := .fin 20, minY := .fin 20, maxX := .fin 80, maxY := .fin 80 } ∧
    computeBoundingBox exampleCircle ≠ discBox ⟨50, 50⟩ ⟨80, 50⟩ := by
  have h1 : computeBoundingBox exampleCircle =
      some { minX := .fin 50, minY := .fin 50, maxX := .fin 80, maxY := .fin 50 } := by
    have h := computeBoundingBox_shape_fin .circle (50, 50) [(80, 50)] "#000000" 2
    simp only [Point.ofRat, List.map_cons, List.map_nil, List.foldl_cons, List.foldl_nil] at h
    norm_num at h
    simpa [exampleCircle] using h
  have h2 : discBox ⟨50, 50⟩ ⟨80, 50⟩ =
      some { minX := .fin 20, minY := .fin 20, maxX := .fin 80, maxY := .fin 80 } := by
    have h30 : exactRoot? ((80 - 50) * (80 - 50) + (50 - 50) * (50 - 50)) = some 30 := by
      have h := exactRoot?_mul_self 30 (by norm_num)
      have e : ((80 : ℚ) - 50) * (80 - 50) + (50 - 50) * (50 - 50) = 30 * 30 := by norm_num
      rw [e]; exact h
    simp only [discBox, JSNum.ofNat_eq_fin, JSNum.sub_fin, JSNum.hypot, Surd.toNum?,
      Nat.cast_ofNat, h30, Option.map_some', JSNum.add_fin]
    norm_num
  refine ⟨h1, h2, ?_⟩
  rw [h1, h2]
  intro h
  have h3 := congrArg (fun b => b.map BBox.minX) h
  simp at h3

/-! ## Resizing -/

/-- C8, the source at a degenerate box. The horizontal line from (10,10) to
(100,10) has the bounding box `{10, 10, 100, 10}` of height zero; dragging its
bottom-right handle to (120,30) divides the new height 20 by the old height 0
with no clamp, the factor is `Infinity`, and both `y` coordinates of the
returned line are `NaN`. -/
theorem scaleElement_degenerate_nan :
    computeBoundingBox exampleFlatLine =
      some { minX := .fin 10, minY := .fin 10, maxX := .fin 100, maxY := .fin 10 } ∧
    scaleElement exampleFlatLine
        { minX := .fin 10, minY := .fin 10, maxX := .fin 100, maxY := .fin 10 }
        .bottomRight { x := .fin 120, y := .fin 30 } =
      .segment .line (.fin 10) .nan (.fin 120) .nan "#000000" 2 ∧
    (scaleElement exampleFlatLine
        { minX := .fin 10, minY := .fin 10, maxX := .fin 100, maxY := .fin 10 }
        .bottomRight { x := .fin 120, y := .fin 30 }).isFinite = false := by
  have h1 : computeBoundingBox exampleFlatLine =
      some { minX := .fin 10, minY := .fin 10, maxX := .fin 100, maxY := .fin 10 } := by
    have h := computeBoundingBox_segment_fin .line 10 10 100 10 "#000000" 2
    norm_num at h
    simpa [exampleFlatLine] using h
  have h2 : scaleElement exampleFlatLine
        { minX := .fin 10, minY := .fin 10, maxX := .fin 100, maxY := .fin 10 }
        .bottomRight { x := .fin 120, y := .fin 30 } =
      .segment .line (.fin 10) .nan (.fin 120) .nan "#000000" 2 := by
    simp only [scaleElement, exampleFlatLine, fixedCornerOf, JSNum.ofNat_eq_fin, JSNum.sub_fin,
      JSNum.abs_fin]
    norm_num [JSNum.div, JSNum.signedInf, JSNum.mul, JSNum.add]
  refine ⟨h1, h2, ?_⟩
  rw [h2]
  rfl

/-- Scaling about the greatest element by a factor that is not negative keeps it the greatest. -/
theorem scaled_max_fixed (l : List ℚ) (a s : ℚ) (hs : 0 ≤ s) :
    (l.map fun x => l.foldl max a + (x - l.foldl max a) * s).foldl max
      (l.foldl max a + (a - l.foldl max a) * s) = l.foldl max a := by
  have hmem := foldl_max_mem l a
  have hle := le_foldl_max l a
  apply foldl_max_unique
  · rw [← List.map_cons (fun x => l.foldl max a + (x - l.foldl max a) * s), List.mem_map]
    exact ⟨_, hmem, by simp⟩
  · intro y hy
    rw [← List.map_cons (fun x => l.foldl max a + (x - l.foldl max a) * s), List.mem_map] at hy
    obtain ⟨x, hx, rfl⟩ := hy
    have h1 : x - l.foldl max a ≤ 0 := sub_nonpos.mpr (hle x hx)
    have h2 : (x - l.foldl max a) * s ≤ 0 := mul_nonpos_of_nonpos_of_nonneg h1 hs
    linarith

/-- Scaling about the least element by a factor that is not negative keeps it the least. -/
theorem scaled_min_fixed (l : List ℚ) (a s : ℚ) (hs : 0 ≤ s) :
    (l.map fun x => l.foldl min a + (x - l.foldl min a) * s).foldl min
      (l.foldl min a + (a - l.foldl min a) * s) = l.foldl min a := by
  have hmem := foldl_min_mem l a
  have hle := foldl_min_le l a
  apply foldl_min_unique
  · rw [← List.map_cons (fun x => l.foldl min a + (x - l.foldl min a) * s), List.mem_map]
    exact ⟨_, hmem, by simp⟩
  · intro y hy
    rw [← List.map_cons (fun x => l.foldl min a + (x - l.foldl min a) * s), List.mem_map] at hy
    obtain ⟨x, hx, rfl⟩ := hy
    have h1 : 0 ≤ x - l.foldl min a := sub_nonneg.mpr (hle x hx)
    have h2 : 0 ≤ (x - l.foldl min a) * s := mul_nonneg h1 hs
    linarith

theorem foldl_min_le_foldl_max (l : List ℚ) (a : ℚ) : l.foldl min a ≤ l.foldl max a :=
  le_trans (foldl_min_le l a a (List.mem_cons_self _ _)) (le_foldl_max l a a (List.mem_cons_self _ _))

theorem Point.exists_ofRat (p : Point) (h : p.isFinite = true) : ∃ q, p = Point.ofRat q := by
  obtain ⟨x, y⟩ := p
  cases x <;> cases y <;> simp [Point.isFinite, JSNum.isFinite] at h
  rename_i a b
  exact ⟨(a, b), rfl⟩

theorem exists_map_ofRat (l : List Point) (h : l.all Point.isFinite = true) :
    ∃ qs : List (ℚ × ℚ), l = qs.map Point.ofRat := by
  induction l with
  | nil => exact ⟨[], rfl⟩
  | cons p l ih =>
    simp only [List.all_cons, Bool.and_eq_true] at h
    obtain ⟨q, rfl⟩ := Point.exists_ofRat p h.1
    obtain ⟨qs, rfl⟩ := ih h.2
    exact ⟨q :: qs, rfl⟩

theorem JSNum.exists_fin (v : JSNum) (h : v.isFinite = true) : ∃ q, v = .fin q := by
  cases v <;> simp [JSNum.isFinite] at h
  exact ⟨_, rfl⟩

/-- The function `scaleElement` on a point list with finite coordinates, a finite
box of non-zero width and height and a finite new corner, computed on the rationals. -/
theorem scaleElement_shape_fin (type : ShapeKind) (first : ℚ × ℚ) (rest : List (ℚ × ℚ))
    (color : String) (strokeWidth : JSNum) (b : BBox) (handle : Handle) (c : ℚ × ℚ)
    (fx fy w h : ℚ) (hf : fixedCornerOf b handle = { x := .fin fx, y := .fin fy })
    (hw : b.maxX.sub b.minX = .fin w) (hh : b.maxY.sub b.minY = .fin h)
    (hw0 : w ≠ 0) (hh0 : h ≠ 0) :
    scaleElement (.shape type (Point.ofRat first) (rest.map Point.ofRat) color strokeWidth)
        b handle (Point.ofRat c) =
      .shape type
        (Point.ofRat (fx + (first.1 - fx) * (|c.1 - fx| / w), fy + (first.2 - fy) * (|c.2 - fy| / h)))
        ((rest.map fun q =>
          (fx + (q.1 - fx) * (|c.1 - fx| / w), fy + (q.2 - fy) * (|c.2 - fy| / h))).map Point.ofRat)
        color strokeWidth := by
  simp only [scaleElement, hf, hw, hh, Point.ofRat, JSNum.sub_fin, JSNum.abs_fin,
    JSNum.div_fin _ _ hw0, JSNum.div_fin _ _ hh0, JSNum.mul_fin, JSNum.add_fin, List.map_map,
    Function.comp_def]

/-- The function `scaleElement` on a segment with finite endpoints, computed on the rationals. -/
theorem scaleElement_segment_fin (type : LineKind) (x1 y1 x2 y2 : ℚ)
    (color : String) (strokeWidth : JSNum) (b : BBox) (handle : Handle) (c : ℚ × ℚ)
    (fx fy w h : ℚ) (hf : fixedCornerOf b handle = { x := .fin fx, y := .fin fy })
    (hw : b.maxX.sub b.minX = .fin w) (hh : b.maxY.sub b.minY = .fin h)
    (hw0 : w ≠ 0) (hh0 : h ≠ 0) :
    scaleElement (.segment type (.fin x1) (.fin y1) (.fin x2) (.fin y2) color strokeWidth)
        b handle (Point.ofRat c) =
      .segment type
        (.fin (fx + (x1 - fx) * (|c.1 - fx| / w))) (.fin (fy + (y1 - fy) * (|c.2 - fy| / h)))
        (.fin (fx + (x2 - fx) * (|c.1 - fx| / w))) (.fin (fy + (y2 - fy) * (|c.2 - fy| / h)))
        color strokeWidth := by
  simp only [scaleElement, hf, hw, hh, Point.ofRat, JSNum.sub_fin, JSNum.abs_fin,
    JSNum.div_fin _ _ hw0, JSNum.div_fin _ _ hh0, JSNum.mul_fin, JSNum.add_fin]

/-- The function `scaleElement` on a text with finite anchor and font size, computed on the
rationals. -/
theorem scaleElement_text_fin (x y fontSize : ℚ) (text color : String)
    (b : BBox) (handle : Handle) (c : ℚ × ℚ)
    (fx fy w h : ℚ) (hf : fixedCornerOf b handle = { x := .fin fx, y := .fin fy })
    (hw : b.maxX.sub b.minX = .fin w) (hh : b.maxY.sub b.minY = .fin h)
    (hw0 : w ≠ 0) (hh0 : h ≠ 0) :
    scaleElement (.text (.fin x) (.fin y) text color (.fin fontSize)) b handle (Point.ofRat c) =
      .text (.fin (fx + (x - fx) * (|c.1 - fx| / w))) (.fin (fy + (y - fy) * (|c.2 - fy| / h)))
        text color (.fin (fontSize * ((|c.1 - fx| / w + |c.2 - fy| / h) / 2))) := by
  have h2 : ((2 : ℕ) : ℚ) ≠ 0 := by norm_num
  simp only [scaleElement, hf, hw, hh, Point.ofRat, JSNum.sub_fin, JSNum.abs_fin,
    JSNum.div_fin _ _ hw0, JSNum.div_fin _ _ hh0, JSNum.mul_fin, JSNum.add_fin,
    JSNum.ofNat_eq_fin, JSNum.div_fin _ _ h2]
  norm_num

theorem map_fst_scaled (l : List (ℚ × ℚ)) (gx gy : ℚ → ℚ) :
    (l.map fun q => (gx q.1, gy q.2)).map Prod.fst = (l.map Prod.fst).map gx := by
  simp [List.map_map, Function.comp_def]

theorem map_snd_scaled (l : List (ℚ × ℚ)) (gx gy : ℚ → ℚ) :
    (l.map fun q => (gx q.1, gy q.2)).map Prod.snd = (l.map Prod.snd).map gy := by
  simp [List.map_map, Function.comp_def]

/-- Anchor invariance for a point list with finite coordinates, the sides of its
box being named. -/
theorem scaleElement_shape_anchor_aux (type : ShapeKind) (first : ℚ × ℚ) (rest : List (ℚ × ℚ))
    (color : String) (strokeWidth : JSNum) (handle : Handle) (c : ℚ × ℚ) (mnx mny mxx mxy : ℚ)
    (hmnx : mnx = (rest.map Prod.fst).foldl min first.1)
    (hmny : mny = (rest.map Prod.snd).foldl min first.2)
    (hmxx : mxx = (rest.map Prod.fst).foldl max first.1)
    (hmxy : mxy = (rest.map Prod.snd).foldl max first.2)
    (hw : mxx - mnx ≠ 0) (hh : mxy - mny ≠ 0) :
    ∃ b2, computeBoundingBox (scaleElement
        (.shape type (Point.ofRat first) (rest.map Point.ofRat) color strokeWidth)
        { minX := .fin mnx, minY := .fin mny, maxX := .fin mxx, maxY := .fin mxy }
        handle (Point.ofRat c)) = some b2 ∧
      fixedCornerOf b2 handle =
        fixedCornerOf { minX := .fin mnx, minY := .fin mny, maxX := .fin mxx, maxY := .fin mxy }
          handle := by
  have hwpos : 0 < mxx - mnx := by
    refine lt_of_le_of_ne (sub_nonneg.mpr ?_) (Ne.symm hw)
    rw [hmnx, hmxx]; exact foldl_min_le_foldl_max _ _
  have hhpos : 0 < mxy - mny := by
    refine lt_of_le_of_ne (sub_nonneg.mpr ?_) (Ne.symm hh)
    rw [hmny, hmxy]; exact foldl_min_le_foldl_max _ _
  cases handle
  · rw [scaleElement_shape_fin type first rest color strokeWidth
        { minX := .fin mnx, minY := .fin mny, maxX := .fin mxx, maxY := .fin mxy } .topLeft c
        mxx mxy (mxx - mnx) (mxy - mny) rfl (JSNum.sub_fin _ _) (JSNum.sub_fin _ _) hw hh,
      computeBoundingBox_shape_fin]
    refine ⟨_, rfl, ?_⟩
    have e1 := map_fst_scaled rest (fun v => mxx + (v - mxx) * (|c.1 - mxx| / (mxx - mnx)))
      (fun v => mxy + (v - mxy) * (|c.2 - mxy| / (mxy - mny)))
    have e2 := map_snd_scaled rest (fun v => mxx + (v - mxx) * (|c.1 - mxx| / (mxx - mnx)))
      (fun v => mxy + (v - mxy) * (|c.2 - mxy| / (mxy - mny)))
    beta_reduce at e1 e2
    simp only [fixedCornerOf]
    rw [e1, e2]
    subst hmnx hmny hmxx hmxy
    rw [scaled_max_fixed _ _ _ (div_nonneg (abs_nonneg _) hwpos.le),
      scaled_max_fixed _ _ _ (div_nonneg (abs_nonneg _) hhpos.le)]
  · rw [scaleElement_shape_fin type first rest color strokeWidth
        { minX := .fin mnx, minY := .fin mny, maxX := .fin mxx, maxY := .fin mxy } .topRight c
        mnx mxy (mxx - mnx) (mxy - mny) rfl (JSNum.sub_fin _ _) (JSNum.sub_fin _ _) hw hh,
      computeBoundingBox_shape_fin]
    refine ⟨_, rfl, ?_⟩
    have e1 := map_fst_scaled rest (fun v => mnx + (v - mnx) * (|c.1 - mnx| / (mxx - mnx)))
      (fun v => mxy + (v - mxy) * (|c.2 - mxy| / (mxy - mny)))
    have e2 := map_snd_scaled rest (fun v => mnx + (v - mnx) * (|c.1 - mnx| / (mxx - mnx)))
      (fun v => mxy + (v - mxy) * (|c.2 - mxy| / (mxy - mny)))
    beta_reduce at e1 e2
    simp only [fixedCornerOf]
    rw [e1, e2]
    subst hmnx hmny hmxx hmxy
    rw [scaled_min_fixed _ _ _ (div_nonneg (abs_nonneg _) hwpos.le),
      scaled_max_fixed _ _ _ (div_nonneg (abs_nonneg _) hhpos.le)]
  · rw [scaleElement_shape_fin type first rest color strokeWidth
        { minX := .fin mnx, minY := .fin mny, maxX := .fin mxx, maxY := .fin mxy } .bottomLeft c
        mxx mny (mxx - mnx) (mxy - mny) rfl (JSNum.sub_fin _ _) (JSNum.sub_fin _ _) hw hh,
      computeBoundingBox_shape_fin]
    refine ⟨_, rfl, ?_⟩
    have e1 := map_fst_scaled rest (fun v => mxx + (v - mxx) * (|c.1 - mxx| / (mxx - mnx)))
      (fun v => mny + (v - mny) * (|c.2 - mny| / (mxy - mny)))
    have e2 := map_snd_scaled rest (fun v => mxx + (v - mxx) * (|c.1 - mxx| / (mxx - mnx)))
      (fun v => mny + (v - mny) * (|c.2 - mny| / (mxy - mny)))
    beta_reduce at e1 e2
    simp only [fixedCornerOf]
    rw [e1, e2]
    subst hmnx hmny hmxx hmxy
    rw [scaled_max_fixed _ _ _ (div_nonneg (abs_nonneg _) hwpos.le),
      scaled_min_fixed _ _ _ (div_nonneg (abs_nonneg _) hhpos.le)]
  · rw [scaleElement_shape_fin type first rest color strokeWidth
        { minX := .fin mnx, minY := .fin mny, maxX := .fin mxx, maxY := .fin mxy } .bottomRight c
        mnx mny (mxx - mnx) (mxy - mny) rfl (JSNum.sub_fin _ _) (JSNum.sub_fin _ _) hw hh,
      computeBoundingBox_shape_fin]
    refine ⟨_, rfl, ?_⟩
    have e1 := map_fst_scaled rest (fun v => mnx + (v - mnx) * (|c.1 - mnx| / (mxx - mnx)))
      (fun v => mny + (v - mny) * (|c.2 - mny| / (mxy - mny)))
    have e2 := map_snd_scaled rest (fun v => mnx + (v - mnx) * (|c.1 - mnx| / (mxx - mnx)))
      (fun v => mny + (v - mny) * (|c.2 - mny| / (mxy - mny)))
    beta_reduce at e1 e2
    simp only [fixedCornerOf]
    rw [e1, e2]
    subst hmnx hmny hmxx hmxy
    rw [scaled_min_fixed _ _ _ (div_nonneg (abs_nonneg _) hwpos.le),
      scaled_min_fixed _ _ _ (div_nonneg (abs_nonneg _) hhpos.le)]

/-- Anchor invariance for a point list with finite coordinates whose box has
non-zero width and height. -/
theorem scaleElement_shape_anchor (type : ShapeKind) (first : ℚ × ℚ) (rest : List (ℚ × ℚ))
    (color : String) (strokeWidth : JSNum) (b : BBox) (handle : Handle) (c : ℚ × ℚ)
    (hb : computeBoundingBox
      (.shape type (Point.ofRat first) (rest.map Point.ofRat) color strokeWidth) = some b)
    (hw : b.maxX.sub b.minX ≠ 0) (hh : b.maxY.sub b.minY ≠ 0) :
    ∃ b2, computeBoundingBox (scaleElement
        (.shape type (Point.ofRat first) (rest.map Point.ofRat) color strokeWidth)
        b handle (Point.ofRat c)) = some b2 ∧
      fixedCornerOf b2 handle = fixedCornerOf b handle := by
  rw [computeBoundingBox_shape_fin] at hb
  have hb2 := (Option.some.inj hb).symm
  subst hb2
  simp only [JSNum.sub_fin, JSNum.ofNat_eq_fin, ne_eq, JSNum.fin.injEq, Nat.cast_zero] at hw hh
  exact scaleElement_shape_anchor_aux type first rest color strokeWidth handle c _ _ _ _
    rfl rfl rfl rfl hw hh

theorem scaled_max2_fixed (a b s : ℚ) (hs : 0 ≤ s) :
    max (max a b + (a - max a b) * s) (max a b + (b - max a b) * s) = max a b := by
  simpa using scaled_max_fixed [b] a s hs

theorem scaled_min2_fixed (a b s : ℚ) (hs : 0 ≤ s) :
    min (min a b + (a - min a b) * s) (min a b + (b - min a b) * s) = min a b := by
  simpa using scaled_min_fixed [b] a s hs

/-- Anchor invariance for a line or an arrow with finite endpoints whose box has
non-zero width and height. -/
theorem scaleElement_segment_anchor (type : LineKind) (x1 y1 x2 y2 : ℚ)
    (color : String) (strokeWidth : JSNum) (b : BBox) (handle : Handle) (c : ℚ × ℚ)
    (hb : computeBoundingBox
      (.segment type (.fin x1) (.fin y1) (.fin x2) (.fin y2) color strokeWidth) = some b)
    (hw : b.maxX.sub b.minX ≠ 0) (hh : b.maxY.sub b.minY ≠ 0) :
    ∃ b2, computeBoundingBox (scaleElement
        (.segment type (.fin x1) (.fin y1) (.fin x2) (.fin y2) color strokeWidth)
        b handle (Point.ofRat c)) = some b2 ∧
      fixedCornerOf b2 handle = fixedCornerOf b handle := by
  rw [computeBoundingBox_segment_fin] at hb
  have hb2 := (Option.some.inj hb).symm
  subst hb2
  simp only [JSNum.sub_fin, JSNum.ofNat_eq_fin, ne_eq, JSNum.fin.injEq, Nat.cast_zero] at hw hh
  have hwpos : 0 < max x1 x2 - min x1 x2 :=
    lt_of_le_of_ne (sub_nonneg.mpr min_le_max) (Ne.symm hw)
  have hhpos : 0 < max y1 y2 - min y1 y2 :=
    lt_of_le_of_ne (sub_nonneg.mpr min_le_max) (Ne.symm hh)
  have sx : ∀ v : ℚ, 0 ≤ |v| / (max x1 x2 - min x1 x2) :=
    fun v => div_nonneg (abs_nonneg _) hwpos.le
  have sy : ∀ v : ℚ, 0 ≤ |v| / (max y1 y2 - min y1 y2) :=
    fun v => div_nonneg (abs_nonneg _) hhpos.le
  cases handle
  · rw [scaleElement_segment_fin type x1 y1 x2 y2 color strokeWidth
      { minX := .fin (min x1 x2), minY := .fin (min y1 y2), maxX := .fin (max x1 x2),
        maxY := .fin (max y1 y2) } .topLeft c
      (max x1 x2) (max y1 y2) _ _ rfl (JSNum.sub_fin _ _) (JSNum.sub_fin _ _) hw hh,
      computeBoundingBox_segment_fin]
    refine ⟨_, rfl, ?_⟩
    simp only [fixedCornerOf]
    rw [scaled_max2_fixed _ _ _ (sx _), scaled_max2_fixed _ _ _ (sy _)]
  · rw [scaleElement_segment_fin type x1 y1 x2 y2 color strokeWidth
      { minX := .fin (min x1 x2), minY := .fin (min y1 y2), maxX := .fin (max x1 x2),
        maxY := .fin (max y1 y2) } .topRight c
      (min x1 x2) (max y1 y2) _ _ rfl (JSNum.sub_fin _ _) (JSNum.sub_fin _ _) hw hh,
      computeBoundingBox_segment_fin]
    refine ⟨_, rfl, ?_⟩
    simp only [fixedCornerOf]
    rw [scaled_min2_fixed _ _ _ (sx _), scaled_max2_fixed _ _ _ (sy _)]
  · rw [scaleElement_segment_fin type x1 y1 x2 y2 color strokeWidth
      { minX := .fin (min x1 x2), minY := .fin (min y1 y2), maxX := .fin (max x1 x2),
        maxY := .fin (max y1 y2) } .bottomLeft c
      (max x1 x2) (min y1 y2) _ _ rfl (JSNum.sub_fin _ _) (JSNum.sub_fin _ _) hw hh,
      computeBoundingBox_segment_fin]
    refine ⟨_, rfl, ?_⟩
    simp only [fixedCornerOf]
    rw [scaled_max2_fixed _ _ _ (sx _), scaled_min2_fixed _ _ _ (sy _)]
  · rw [scaleElement_segment_fin type x1 y1 x2 y2 color strokeWidth
      { minX := .fin (min x1 x2), minY := .fin (min y1 y2), maxX := .fin (max x1 x2),
        maxY := .fin (max y1 y2) } .bottomRight c
      (min x1 x2) (min y1 y2) _ _ rfl (JSNum.sub_fin _ _) (JSNum.sub_fin _ _) hw hh,
      computeBoundingBox_segment_fin]
    refine ⟨_, rfl, ?_⟩
    simp only [fixedCornerOf]
    rw [scaled_min2_fixed _ _ _ (sx _), scaled_min2_fixed _ _ _ (sy _)]

/-- The fallback of the font size and the average of two numbers that are not
negative: the result is the first of them exactly when they are equal and not zero. -/
theorem avg_fallback_eq_left (u v : ℚ) (hu : 0 ≤ u) (hv : 0 ≤ v) :
    (if (u + v) / 2 = 0 then (16 : ℚ) else (u + v) / 2) = u ↔ u = v ∧ u ≠ 0 := by
  split_ifs with h
  · have hu0 : u = 0 := by linarith
    constructor
    · intro h2; rw [hu0] at h2; norm_num at h2
    · rintro ⟨_, h2⟩; exact absurd hu0 h2
  · constructor
    · intro h2
      have h3 : u = v := by linarith
      refine ⟨h3, fun h0 => h ?_⟩
      rw [← h3, h0]; norm_num
    · rintro ⟨h1, _⟩; rw [← h1]; ring

/-- The fallback of the font size and the average of two numbers that are not
negative: the result is the second of them exactly when they are equal and not zero. -/
theorem avg_fallback_eq_right (u v : ℚ) (hu : 0 ≤ u) (hv : 0 ≤ v) :
    (if (u + v) / 2 = 0 then (16 : ℚ) else (u + v) / 2) = v ↔ u = v ∧ u ≠ 0 := by
  split_ifs with h
  · have hu0 : u = 0 := by linarith
    have hv0 : v = 0 := by linarith
    constructor
    · intro h2; rw [hv0] at h2; norm_num at h2
    · rintro ⟨_, h2⟩; exact absurd hu0 h2
  · constructor
    · intro h2
      have h3 : u = v := by linarith
      refine ⟨h3, fun h0 => h ?_⟩
      rw [← h3, h0]; norm_num
    · rintro ⟨h1, _⟩; rw [h1]; ring

/-- The two conditions under which the scaled font size of a text with non-zero
font size fits its scaled box: `sx` and `sy` are the scale factors of a box of
width `L * f * 3/5` and height `f` for the distances `A` and `B`. -/
theorem text_scale_core (L f A B : ℚ) (hL : L ≠ 0) (hL0 : 0 ≤ L) (hf : f ≠ 0)
    (hA : 0 ≤ A) (hB : 0 ≤ B) :
    (L * (if f * ((A / (L * f * (3 / 5)) + B / f) / 2) = 0 then 16
          else f * ((A / (L * f * (3 / 5)) + B / f) / 2)) * (3 / 5) =
        L * f * (3 / 5) * (A / (L * f * (3 / 5))) ↔
      A / (L * f * (3 / 5)) = B / f ∧ A / (L * f * (3 / 5)) ≠ 0) ∧
    ((if f * ((A / (L * f * (3 / 5)) + B / f) / 2) = 0 then 16
          else f * ((A / (L * f * (3 / 5)) + B / f) / 2)) = f * (B / f) ↔
      A / (L * f * (3 / 5)) = B / f ∧ A / (L * f * (3 / 5)) ≠ 0) := by
  have hLpos : 0 < L := lt_of_le_of_ne hL0 (Ne.symm hL)
  have hu : f * (A / (L * f * (3 / 5))) = A / (L * (3 / 5)) := by
    field_simp
    ring
  have hv : f * (B / f) = B := by field_simp
  have hu0 : 0 ≤ A / (L * (3 / 5)) := div_nonneg hA (by positivity)
  have havg : f * ((A / (L * f * (3 / 5)) + B / f) / 2) = (A / (L * (3 / 5)) + B) / 2 := by
    have e : f * ((A / (L * f * (3 / 5)) + B / f) / 2) =
        (f * (A / (L * f * (3 / 5))) + f * (B / f)) / 2 := by ring
    rw [e, hu, hv]
  have heq : A / (L * f * (3 / 5)) = B / f ↔ A / (L * (3 / 5)) = B := by
    constructor
    · intro h; rw [← hu, h, hv]
    · intro h
      apply mul_left_cancel₀ hf
      rw [hu, hv, h]
  have hne : A / (L * f * (3 / 5)) ≠ 0 ↔ A / (L * (3 / 5)) ≠ 0 := by
    rw [← hu]
    constructor
    · intro h; exact mul_ne_zero hf h
    · intro h h0; rw [h0, mul_zero] at h; exact h rfl
  rw [havg, heq, hne, hv]
  constructor
  · rw [← avg_fallback_eq_left _ _ hu0 hB]
    have e : L * f * (3 / 5) * (A / (L * f * (3 / 5))) = L * (A / (L * (3 / 5))) * (3 / 5) := by
      field_simp
      ring
    rw [e]
    constructor
    · intro h
      have h2 := mul_right_cancel₀ (by norm_num : (3 / 5 : ℚ) ≠ 0) h
      exact mul_left_cancel₀ hL h2
    · intro h; rw [h]
  · exact avg_fallback_eq_right _ _ hu0 hB


/-- A text scaled by its top-left handle: the anchor is the right end of the baseline. -/
theorem scaleElement_text_topLeft (x y fontSize : ℚ) (text color : String) (b : BBox) (c : ℚ × ℚ)
    (hb : computeBoundingBox (.text (.fin x) (.fin y) text color (.fin fontSize)) = some b)
    (hw : b.maxX.sub b.minX ≠ 0) (hh : b.maxY.sub b.minY ≠ 0) :
    ∃ b2, computeBoundingBox (scaleElement
        (.text (.fin x) (.fin y) text color (.fin fontSize)) b .topLeft (Point.ofRat c)) =
          some b2 ∧
      (fontSize ≠ 0 →
        (fixedCornerOf b2 .topLeft = fixedCornerOf b .topLeft ↔
          (scaleFactors b .topLeft (Point.ofRat c)).1 = (scaleFactors b .topLeft (Point.ofRat c)).2 ∧
            (scaleFactors b .topLeft (Point.ofRat c)).1 ≠ 0)) ∧
      (fontSize = 0 →
        (fixedCornerOf b2 .topLeft = fixedCornerOf b .topLeft ↔
          (scaleFactors b .topLeft (Point.ofRat c)).1 = 1)) := by
  rw [computeBoundingBox_text_fin] at hb
  have hb2 := (Option.some.inj hb).symm
  subst hb2
  simp only [JSNum.sub_fin, JSNum.ofNat_eq_fin, ne_eq, JSNum.fin.injEq, Nat.cast_zero] at hw hh
  have hL0 : (0 : ℚ) ≤ jsLength text := Nat.cast_nonneg _
  by_cases hfs : fontSize = 0
  · subst hfs
    simp only [if_true] at hw hh ⊢
    have hL : (jsLength text : ℚ) ≠ 0 := by
      intro h0; apply hw; rw [h0]; ring
    rw [scaleElement_text_fin x y 0 text color
      { minX := .fin x, minY := .fin (y - 16),
        maxX := .fin (x + jsLength text * 16 * (3 / 5)), maxY := .fin y } .topLeft c
      (x + jsLength text * 16 * (3 / 5)) (y) _ _ rfl (JSNum.sub_fin _ _) (JSNum.sub_fin _ _) hw hh,
      computeBoundingBox_text_fin]
    refine ⟨_, rfl, ?_⟩
    simp only [scaleFactors, fixedCornerOf, Point.ofRat, JSNum.sub_fin, JSNum.abs_fin,
      JSNum.div_fin _ _ hw, JSNum.div_fin _ _ hh, JSNum.fin.injEq, Point.mk.injEq,
      JSNum.ofNat_eq_fin, Nat.cast_zero, Nat.cast_one, ne_eq, zero_mul, if_true,
      not_true_eq_false, false_implies, true_implies, true_and, and_true]
    have hX : x + jsLength text * 16 * (3 / 5) - x = jsLength text * 16 * (3 / 5) := by ring
    have hY : y - (y - 16) = 16 := by ring
    rw [hX] at hw ⊢
    rw [hY]
    generalize |c.1 - (x + jsLength text * 16 * (3 / 5))| = A
    generalize |c.2 - (y)| = B
    have hAW : jsLength text * 16 * (3 / 5) * (A / (jsLength text * 16 * (3 / 5))) = A :=
      mul_div_cancel₀ A hw
    have hB16 : (16 : ℚ) * (B / 16) = B := mul_div_cancel₀ B (by norm_num)
    rw [div_eq_one_iff_eq hw]
    constructor
    · rintro ⟨e1, _⟩; linarith
    · intro e; exact ⟨by linarith, by ring⟩
  · simp only [if_neg hfs] at hw hh ⊢
    have hL : (jsLength text : ℚ) ≠ 0 := by
      intro h0; apply hw; rw [h0]; ring
    rw [scaleElement_text_fin x y fontSize text color
      { minX := .fin x, minY := .fin (y - fontSize),
        maxX := .fin (x + jsLength text * fontSize * (3 / 5)), maxY := .fin y } .topLeft c
      (x + jsLength text * fontSize * (3 / 5)) (y) _ _ rfl (JSNum.sub_fin _ _) (JSNum.sub_fin _ _) hw hh,
      computeBoundingBox_text_fin]
    refine ⟨_, rfl, ?_⟩
    simp only [scaleFactors, fixedCornerOf, Point.ofRat, JSNum.sub_fin, JSNum.abs_fin,
      JSNum.div_fin _ _ hw, JSNum.div_fin _ _ hh, JSNum.fin.injEq, Point.mk.injEq,
      JSNum.ofNat_eq_fin, Nat.cast_zero, Nat.cast_one, ne_eq, hfs, not_false_eq_true,
      false_implies, true_implies, true_and, and_true]
    have hX : x + jsLength text * fontSize * (3 / 5) - x = jsLength text * fontSize * (3 / 5) := by
      ring
    have hY : y - (y - fontSize) = fontSize := by ring
    rw [hX, hY]
    have hA0 : 0 ≤ |c.1 - (x + jsLength text * fontSize * (3 / 5))| := abs_nonneg _
    have hB0 : 0 ≤ |c.2 - (y)| := abs_nonneg _
    generalize |c.1 - (x + jsLength text * fontSize * (3 / 5))| = A at hA0 ⊢
    generalize |c.2 - (y)| = B at hB0 ⊢
    obtain ⟨h1, h2⟩ := text_scale_core (jsLength text) fontSize A B hL hL0 hfs hA0 hB0
    rw [← h1]
    constructor
    · rintro ⟨e1, _⟩; linarith
    · intro e; exact ⟨by linarith, by ring⟩

/-- A text scaled by its top-right handle: the anchor is the anchor point of the text,
which every scaling keeps. -/
theorem scaleElement_text_topRight (x y fontSize : ℚ) (text color : String) (b : BBox) (c : ℚ × ℚ)
    (hb : computeBoundingBox (.text (.fin x) (.fin y) text color (.fin fontSize)) = some b)
    (hw : b.maxX.sub b.minX ≠ 0) (hh : b.maxY.sub b.minY ≠ 0) :
    ∃ b2, computeBoundingBox (scaleElement
        (.text (.fin x) (.fin y) text color (.fin fontSize)) b .topRight (Point.ofRat c)) =
          some b2 ∧
      fixedCornerOf b2 .topRight = fixedCornerOf b .topRight := by
  rw [computeBoundingBox_text_fin] at hb
  have hb2 := (Option.some.inj hb).symm
  subst hb2
  simp only [JSNum.sub_fin, JSNum.ofNat_eq_fin, ne_eq, JSNum.fin.injEq, Nat.cast_zero] at hw hh
  have hL0 : (0 : ℚ) ≤ jsLength text := Nat.cast_nonneg _
  by_cases hfs : fontSize = 0
  · subst hfs
    simp only [if_true] at hw hh ⊢
    have hL : (jsLength text : ℚ) ≠ 0 := by
      intro h0; apply hw; rw [h0]; ring
    rw [scaleElement_text_fin x y 0 text color
      { minX := .fin x, minY := .fin (y - 16),
        maxX := .fin (x + jsLength text * 16 * (3 / 5)), maxY := .fin y } .topRight c
      (x) (y) _ _ rfl (JSNum.sub_fin _ _) (JSNum.sub_fin _ _) hw hh,
      computeBoundingBox_text_fin]
    refine ⟨_, rfl, ?_⟩
    simp only [scaleFactors, fixedCornerOf, Point.ofRat, JSNum.sub_fin, JSNum.abs_fin,
      JSNum.div_fin _ _ hw, JSNum.div_fin _ _ hh, JSNum.fin.injEq, Point.mk.injEq,
      JSNum.ofNat_eq_fin, Nat.cast_zero, Nat.cast_one, ne_eq, zero_mul, if_true,
      not_true_eq_false, false_implies, true_implies, true_and, and_true]
    constructor <;> ring
  · simp only [if_neg hfs] at hw hh ⊢
    have hL : (jsLength text : ℚ) ≠ 0 := by
      intro h0; apply hw; rw [h0]; ring
    rw [scaleElement_text_fin x y fontSize text color
      { minX := .fin x, minY := .fin (y - fontSize),
        maxX := .fin (x + jsLength text * fontSize * (3 / 5)), maxY := .fin y } .topRight c
      (x) (y) _ _ rfl (JSNum.sub_fin _ _) (JSNum.sub_fin _ _) hw hh,
      computeBoundingBox_text_fin]
    refine ⟨_, rfl, ?_⟩
    simp only [scaleFactors, fixedCornerOf, Point.ofRat, JSNum.sub_fin, JSNum.abs_fin,
      JSNum.div_fin _ _ hw, JSNum.div_fin _ _ hh, JSNum.fin.injEq, Point.mk.injEq,
      JSNum.ofNat_eq_fin, Nat.cast_zero, Nat.cast_one, ne_eq, hfs, not_false_eq_true,
      false_implies, true_implies, true_and, and_true]
    constructor <;> ring

/-- A text scaled by its bottom-left handle: the anchor is the top right corner of its box. -/
theorem scaleElement_text_bottomLeft (x y fontSize : ℚ) (text color : String) (b : BBox) (c : ℚ × ℚ)
    (hb : computeBoundingBox (.text (.fin x) (.fin y) text color (.fin fontSize)) = some b)
    (hw : b.maxX.sub b.minX ≠ 0) (hh : b.maxY.sub b.minY ≠ 0) :
    ∃ b2, computeBoundingBox (scaleElement
        (.text (.fin x) (.fin y) text color (.fin fontSize)) b .bottomLeft (Point.ofRat c)) =
          some b2 ∧
      (fontSize ≠ 0 →
        (fixedCornerOf b2 .bottomLeft = fixedCornerOf b .bottomLeft ↔
          (scaleFactors b .bottomLeft (Point.ofRat c)).1 = (scaleFactors b .bottomLeft (Point.ofRat c)).2 ∧
            (scaleFactors b .bottomLeft (Point.ofRat c)).1 ≠ 0)) ∧
      (fontSize = 0 →
        (fixedCornerOf b2 .bottomLeft = fixedCornerOf b .bottomLeft ↔
          (scaleFactors b .bottomLeft (Point.ofRat c)).1 = 1 ∧
            (scaleFactors b .bottomLeft (Point.ofRat c)).2 = 1)) := by
  rw [computeBoundingBox_text_fin] at hb
  have hb2 := (Option.some.inj hb).symm
  subst hb2
  simp only [JSNum.sub_fin, JSNum.ofNat_eq_fin, ne_eq, JSNum.fin.injEq, Nat.cast_zero] at hw hh
  have hL0 : (0 : ℚ) ≤ jsLength text := Nat.cast_nonneg _
  by_cases hfs : fontSize = 0
  · subst hfs
    simp only [if_true] at hw hh ⊢
    have hL : (jsLength text : ℚ) ≠ 0 := by
      intro h0; apply hw; rw [h0]; ring
    rw [scaleElement_text_fin x y 0 text color
      { minX := .fin x, minY := .fin (y - 16),
        maxX := .fin (x + jsLength text * 16 * (3 / 5)), maxY := .fin y } .bottomLeft c
      (x + jsLength text * 16 * (3 / 5)) (y - 16) _ _ rfl (JSNum.sub_fin _ _) (JSNum.sub_fin _ _) hw hh,
      computeBoundingBox_text_fin]
    refine ⟨_, rfl, ?_⟩
    simp only [scaleFactors, fixedCornerOf, Point.ofRat, JSNum.sub_fin, JSNum.abs_fin,
      JSNum.div_fin _ _ hw, JSNum.div_fin _ _ hh, JSNum.fin.injEq, Point.mk.injEq,
      JSNum.ofNat_eq_fin, Nat.cast_zero, Nat.cast_one, ne_eq, zero_mul, if_true,
      not_true_eq_false, false_implies, true_implies, true_and, and_true]
    have hX : x + jsLength text * 16 * (3 / 5) - x = jsLength text * 16 * (3 / 5) := by ring
    have hY : y - (y - 16) = 16 := by ring
    rw [hX] at hw ⊢
    rw [hY]
    generalize |c.1 - (x + jsLength text * 16 * (3 / 5))| = A
    generalize |c.2 - (y - 16)| = B
    have hAW : jsLength text * 16 * (3 / 5) * (A / (jsLength text * 16 * (3 / 5))) = A :=
      mul_div_cancel₀ A hw
    have hB16 : (16 : ℚ) * (B / 16) = B := mul_div_cancel₀ B (by norm_num)
    rw [div_eq_one_iff_eq hw, div_eq_one_iff_eq (by norm_num : (16 : ℚ) ≠ 0)]
    constructor
    · rintro ⟨e1, e2⟩; exact ⟨by linarith, by linarith⟩
    · rintro ⟨e1, e2⟩; exact ⟨by linarith, by linarith⟩
  · simp only [if_neg hfs] at hw hh ⊢
    have hL : (jsLength text : ℚ) ≠ 0 := by
      intro h0; apply hw; rw [h0]; ring
    rw [scaleElement_text_fin x y fontSize text color
      { minX := .fin x, minY := .fin (y - fontSize),
        maxX := .fin (x + jsLength text * fontSize * (3 / 5)), maxY := .fin y } .bottomLeft c
      (x + jsLength text * fontSize * (3 / 5)) (y - fontSize) _ _ rfl (JSNum.sub_fin _ _) (JSNum.sub_fin _ _) hw hh,
      computeBoundingBox_text_fin]
    refine ⟨_, rfl, ?_⟩
    simp only [scaleFactors, fixedCornerOf, Point.ofRat, JSNum.sub_fin, JSNum.abs_fin,
      JSNum.div_fin _ _ hw, JSNum.div_fin _ _ hh, JSNum.fin.injEq, Point.mk.injEq,
      JSNum.ofNat_eq_fin, Nat.cast_zero, Nat.cast_one, ne_eq, hfs, not_false_eq_true,
      false_implies, true_implies, true_and, and_true]
    have hX : x + jsLength text * fontSize * (3 / 5) - x = jsLength text * fontSize * (3 / 5) := by
      ring
    have hY : y - (y - fontSize) = fontSize := by ring
    rw [hX, hY]
    have hA0 : 0 ≤ |c.1 - (x + jsLength text * fontSize * (3 / 5))| := abs_nonneg _
    have hB0 : 0 ≤ |c.2 - (y - fontSize)| := abs_nonneg _
    generalize |c.1 - (x + jsLength text * fontSize * (3 / 5))| = A at hA0 ⊢
    generalize |c.2 - (y - fontSize)| = B at hB0 ⊢
    obtain ⟨h1, h2⟩ := text_scale_core (jsLength text) fontSize A B hL hL0 hfs hA0 hB0
    constructor
    · rintro ⟨e1, _⟩; exact h1.mp (by linarith)
    · intro e
      have e1 := h1.mpr e
      have e2 := h2.mpr e
      exact ⟨by linarith, by linarith⟩

/-- A text scaled by its bottom-right handle: the anchor is the top left corner of its box. -/
theorem scaleElement_text_bottomRight (x y fontSize : ℚ) (text color : String) (b : BBox) (c : ℚ × ℚ)
    (hb : computeBoundingBox (.text (.fin x) (.fin y) text color (.fin fontSize)) = some b)
    (hw : b.maxX.sub b.minX ≠ 0) (hh : b.maxY.sub b.minY ≠ 0) :
    ∃ b2, computeBoundingBox (scaleElement
        (.text (.fin x) (.fin y) text color (.fin fontSize)) b .bottomRight (Point.ofRat c)) =
          some b2 ∧
      (fontSize ≠ 0 →
        (fixedCornerOf b2 .bottomRight = fixedCornerOf b .bottomRight ↔
          (scaleFactors b .bottomRight (Point.ofRat c)).1 = (scaleFactors b .bottomRight (Point.ofRat c)).2 ∧
            (scaleFactors b .bottomRight (Point.ofRat c)).1 ≠ 0)) ∧
      (fontSize = 0 →
        (fixedCornerOf b2 .bottomRight = fixedCornerOf b .bottomRight ↔
          (scaleFactors b .bottomRight (Point.ofRat c)).2 = 1)) := by
  rw [computeBoundingBox_text_fin] at hb
  have hb2 := (Option.some.inj hb).symm
  subst hb2
  simp only [JSNum.sub_fin, JSNum.ofNat_eq_fin, ne_eq, JSNum.fin.injEq, Nat.cast_zero] at hw hh
  have hL0 : (0 : ℚ) ≤ jsLength text := Nat.cast_nonneg _
  by_cases hfs : fontSize = 0
  · subst hfs
    simp only [if_true] at hw hh ⊢
    have hL : (jsLength text : ℚ) ≠ 0 := by
      intro h0; apply hw; rw [h0]; ring
    rw [scaleElement_text_fin x y 0 text color
      { minX := .fin x, minY := .fin (y - 16),
        maxX := .fin (x + jsLength text * 16 * (3 / 5)), maxY := .fin y } .bottomRight c
      (x) (y - 16) _ _ rfl (JSNum.sub_fin _ _) (JSNum.sub_fin _ _) hw hh,
      computeBoundingBox_text_fin]
    refine ⟨_, rfl, ?_⟩
    simp only [scaleFactors, fixedCornerOf, Point.ofRat, JSNum.sub_fin, JSNum.abs_fin,
      JSNum.div_fin _ _ hw, JSNum.div_fin _ _ hh, JSNum.fin.injEq, Point.mk.injEq,
      JSNum.ofNat_eq_fin, Nat.cast_zero, Nat.cast_one, ne_eq, zero_mul, if_true,
      not_true_eq_false, false_implies, true_implies, true_and, and_true]
    have hX : x + jsLength text * 16 * (3 / 5) - x = jsLength text * 16 * (3 / 5) := by ring
    have hY : y - (y - 16) = 16 := by ring
    rw [hX] at hw ⊢
    rw [hY]
    generalize |c.1 - (x)| = A
    generalize |c.2 - (y - 16)| = B
    have hAW : jsLength text * 16 * (3 / 5) * (A / (jsLength text * 16 * (3 / 5))) = A :=
      mul_div_cancel₀ A hw
    have hB16 : (16 : ℚ) * (B / 16) = B := mul_div_cancel₀ B (by norm_num)
    rw [div_eq_one_iff_eq (by norm_num : (16 : ℚ) ≠ 0)]
    constructor
    · rintro ⟨_, e2⟩; linarith
    · intro e; exact ⟨by ring, by linarith⟩
  · simp only [if_neg hfs] at hw hh ⊢
    have hL : (jsLength text : ℚ) ≠ 0 := by
      intro h0; apply hw; rw [h0]; ring
    rw [scaleElement_text_fin x y fontSize text color
      { minX := .fin x, minY := .fin (y - fontSize),
        maxX := .fin (x + jsLength text * fontSize * (3 / 5)), maxY := .fin y } .bottomRight c
      (x) (y - fontSize) _ _ rfl (JSNum.sub_fin _ _) (JSNum.sub_fin _ _) hw hh,
      computeBoundingBox_text_fin]
    refine ⟨_, rfl, ?_⟩
    simp only [scaleFactors, fixedCornerOf, Point.ofRat, JSNum.sub_fin, JSNum.abs_fin,
      JSNum.div_fin _ _ hw, JSNum.div_fin _ _ hh, JSNum.fin.injEq, Point.mk.injEq,
      JSNum.ofNat_eq_fin, Nat.cast_zero, Nat.cast_one, ne_eq, hfs, not_false_eq_true,
      false_implies, true_implies, true_and, and_true]
    have hX : x + jsLength text * fontSize * (3 / 5) - x = jsLength text * fontSize * (3 / 5) := by
      ring
    have hY : y - (y - fontSize) = fontSize := by ring
    rw [hX, hY]
    have hA0 : 0 ≤ |c.1 - (x)| := abs_nonneg _
    have hB0 : 0 ≤ |c.2 - (y - fontSize)| := abs_nonneg _
    generalize |c.1 - (x)| = A at hA0 ⊢
    generalize |c.2 - (y - fontSize)| = B at hB0 ⊢
    obtain ⟨h1, h2⟩ := text_scale_core (jsLength text) fontSize A B hL hL0 hfs hA0 hB0
    constructor
    · rintro ⟨_, e2⟩; exact h2.mp (by linarith)
    · intro e
      have e2 := h2.mpr e
      exact ⟨by ring, by linarith⟩

/-- C7 as stated fails on a text. The text "ab" of font size 10 anchored at (0,20)
has the box `{0, 10, 12, 20}`; dragging its top-left handle to (-12,10) doubles the
width and keeps the height, the font size scales by the average 3/2, and the box
of the result is `{-12, 5, 6, 20}`: the corner opposite the handle moved from
(12,20) to (6,20). -/
theorem scaleElement_anchor_text_counterexample :
    computeBoundingBox exampleText =
      some { minX := .fin 0, minY := .fin 10, maxX := .fin 12, maxY := .fin 20 } ∧
    computeBoundingBox (scaleElement exampleText
        { minX := .fin 0, minY := .fin 10, maxX := .fin 12, maxY := .fin 20 }
        .topLeft { x := .fin (-12), y := .fin 10 }) =
      some { minX := .fin (-12), minY := .fin 5, maxX := .fin 6, maxY := .fin 20 } ∧
    fixedCornerOf { minX := .fin (-12), minY := .fin 5, maxX := .fin 6, maxY := .fin 20 } .topLeft ≠
      fixedCornerOf { minX := .fin 0, minY := .fin 10, maxX := .fin 12, maxY := .fin 20 }
        .topLeft := by
  refine ⟨?_, ?_, ?_⟩
  · have h := computeBoundingBox_text_fin 0 20 10 "ab" "#000000"
    have hl : jsLength "ab" = 2 := by decide
    rw [hl] at h
    norm_num at h
    simpa [exampleText] using h
  · have h := scaleElement_text_fin 0 20 10 "ab" "#000000"
      { minX := .fin 0, minY := .fin 10, maxX := .fin 12, maxY := .fin 20 } .topLeft (-12, 10)
      12 20 12 10 rfl (by norm_num) (by norm_num) (by norm_num) (by norm_num)
    have h2 := computeBoundingBox_text_fin (12 + (0 - 12) * (|(-12 : ℚ) - 12| / 12))
      (20 + (20 - 20) * (|(10 : ℚ) - 20| / 10)) (10 * ((|(-12 : ℚ) - 12| / 12 + |(10 : ℚ) - 20| / 10) / 2))
      "ab" "#000000"
    have hl : jsLength "ab" = 2 := by decide
    have ha : |(-12 : ℚ) - 12| = 24 := by norm_num [abs_of_neg]
    have hb : |(10 : ℚ) - 20| = 10 := by norm_num [abs_of_neg]
    rw [hl, ha, hb] at h2
    simp only [Point.ofRat, ha, hb] at h
    norm_num at h h2
    have he : exampleText = .text (.fin 0) (.fin 20) "ab" "#000000" (.fin 10) := by
      simp [exampleText]
    rw [he, h, h2]
  · simp [fixedCornerOf]

/-- C7 amended. Anchor invariance of `scaleElement`: for an element with finite
coordinates whose bounding box `b` has non-zero width and height, every handle and
every finite new corner, the scaled element has a bounding box `b2`. For a point
list, a line and an arrow the corner of `b2` opposite the handle is the corner of
`b` opposite the handle. For a text the top-right handle keeps that corner for
every new corner, its anchor being the anchor point of the text. With each of the
other three handles a text of non-zero font size keeps it exactly when the two
scale factors are equal and not zero. A text of font size zero, which is measured
with the fallback size 16 before and after, keeps it exactly when `scaleX` is 1
(top-left handle), when `scaleX` and `scaleY` are 1 (bottom-left handle), when
`scaleY` is 1 (bottom-right handle). -/
theorem scaleElement_anchor_invariant (e : Element) (b : BBox) (handle : Handle) (c : Point)
    (hfin : e.isFinite = true) (hc : c.isFinite = true)
    (hb : computeBoundingBox e = some b)
    (hw : b.maxX.sub b.minX ≠ 0) (hh : b.maxY.sub b.minY ≠ 0) :
    ∃ b2, computeBoundingBox (scaleElement e b handle c) = some b2 ∧
      (e.isPointListOrSegment = true → fixedCornerOf b2 handle = fixedCornerOf b handle) ∧
      (∀ x y text color fontSize, e = .text x y text color fontSize →
        (handle = .topRight → fixedCornerOf b2 handle = fixedCornerOf b handle) ∧
        (handle ≠ .topRight → fontSize ≠ 0 →
          (fixedCornerOf b2 handle = fixedCornerOf b handle ↔
            (scaleFactors b handle c).1 = (scaleFactors b handle c).2 ∧
              (scaleFactors b handle c).1 ≠ 0)) ∧
        (handle = .topLeft → fontSize = 0 →
          (fixedCornerOf b2 handle = fixedCornerOf b handle ↔
            (scaleFactors b handle c).1 = 1)) ∧
        (handle = .bottomLeft → fontSize = 0 →
          (fixedCornerOf b2 handle = fixedCornerOf b handle ↔
            (scaleFactors b handle c).1 = 1 ∧ (scaleFactors b handle c).2 = 1)) ∧
        (handle = .bottomRight → fontSize = 0 →
          (fixedCornerOf b2 handle = fixedCornerOf b handle ↔
            (scaleFactors b handle c).2 = 1))) := by
  obtain ⟨cq, rfl⟩ := Point.exists_ofRat c hc
  cases e with
  | shape type first rest color strokeWidth =>
    simp only [Element.isFinite, Bool.and_eq_true] at hfin
    obtain ⟨q, rfl⟩ := Point.exists_ofRat first hfin.1
    obtain ⟨qs, rfl⟩ := exists_map_ofRat rest hfin.2
    obtain ⟨b2, h1, h2⟩ :=
      scaleElement_shape_anchor type q qs color strokeWidth b handle cq hb hw hh
    exact ⟨b2, h1, fun _ => h2, fun x y text color fontSize he => Element.noConfusion he⟩
  | segment type x1 y1 x2 y2 color strokeWidth =>
    simp only [Element.isFinite, Bool.and_eq_true] at hfin
    obtain ⟨a1, rfl⟩ := JSNum.exists_fin x1 hfin.1.1.1
    obtain ⟨b1, rfl⟩ := JSNum.exists_fin y1 hfin.1.1.2
    obtain ⟨a2, rfl⟩ := JSNum.exists_fin x2 hfin.1.2
    obtain ⟨b2, rfl⟩ := JSNum.exists_fin y2 hfin.2
    obtain ⟨b3, h1, h2⟩ :=
      scaleElement_segment_anchor type a1 b1 a2 b2 color strokeWidth b handle cq hb hw hh
    exact ⟨b3, h1, fun _ => h2, fun x y text color fontSize he => Element.noConfusion he⟩
  | text x y text color fontSize =>
    simp only [Element.isFinite, Bool.and_eq_true] at hfin
    obtain ⟨a, rfl⟩ := JSNum.exists_fin x hfin.1.1
    obtain ⟨b1, rfl⟩ := JSNum.exists_fin y hfin.1.2
    obtain ⟨f, rfl⟩ := JSNum.exists_fin fontSize hfin.2
    have hne : JSNum.fin f ≠ 0 → f ≠ 0 := fun h h0 => h (by rw [h0]; rfl)
    have heq : JSNum.fin f = 0 → f = 0 := fun h => by
      simpa [JSNum.ofNat_eq_fin] using h
    cases handle
    · obtain ⟨b2, h1, hnz, hz⟩ := scaleElement_text_topLeft a b1 f text color b cq hb hw hh
      refine ⟨b2, h1, fun hk => Bool.noConfusion hk, ?_⟩
      intro x y t col fs he
      cases he
      exact ⟨fun h => Handle.noConfusion h, fun _ hfs => hnz (hne hfs),
        fun _ hfs => hz (heq hfs), fun h => Handle.noConfusion h, fun h => Handle.noConfusion h⟩
    · obtain ⟨b2, h1, hk⟩ := scaleElement_text_topRight a b1 f text color b cq hb hw hh
      refine ⟨b2, h1, fun hk => Bool.noConfusion hk, ?_⟩
      intro x y t col fs he
      cases he
      exact ⟨fun _ => hk, fun h => absurd rfl h, fun h => Handle.noConfusion h,
        fun h => Handle.noConfusion h, fun h => Handle.noConfusion h⟩
    · obtain ⟨b2, h1, hnz, hz⟩ := scaleElement_text_bottomLeft a b1 f text color b cq hb hw hh
      refine ⟨b2, h1, fun hk => Bool.noConfusion hk, ?_⟩
      intro x y t col fs he
      cases he
      exact ⟨fun h => Handle.noConfusion h, fun _ hfs => hnz (hne hfs),
        fun h => Handle.noConfusion h, fun _ hfs => hz (heq hfs), fun h => Handle.noConfusion h⟩
    · obtain ⟨b2, h1, hnz, hz⟩ := scaleElement_text_bottomRight a b1 f text color b cq hb hw hh
      refine ⟨b2, h1, fun hk => Bool.noConfusion hk, ?_⟩
      intro x y t col fs he
      cases he
      exact ⟨fun h => Handle.noConfusion h, fun _ hfs => hnz (hne hfs),
        fun h => Handle.noConfusion h, fun h => Handle.noConfusion h, fun _ hfs => hz (heq hfs)⟩
  | other type => simp [computeBoundingBox] at hb

/-- Witness of the amended C7: the text "ab" of font size 10 anchored at (0,20), its
top-left handle dragged to (-12,0). Both scale factors are 2, and the corner
opposite the handle stays at (12,20). -/
theorem scaleElement_anchor_invariant_witness :
    ∃ b2, computeBoundingBox (scaleElement exampleText
        { minX := .fin 0, minY := .fin 10, maxX := .fin 12, maxY := .fin 20 }
        .topLeft { x := .fin (-12), y := .fin 0 }) = some b2 ∧
      fixedCornerOf b2 .topLeft = { x := .fin 12, y := .fin 20 } := by
  have hb : computeBoundingBox exampleText =
      some { minX := .fin 0, minY := .fin 10, maxX := .fin 12, maxY := .fin 20 } := by
    have h := computeBoundingBox_text_fin 0 20 10 "ab" "#000000"
    have hl : jsLength "ab" = 2 := by decide
    rw [hl] at h
    norm_num at h
    simpa [exampleText] using h
  have h12 : ((12 : ℚ) - 0) ≠ 0 := by norm_num
  have h10 : ((20 : ℚ) - 10) ≠ 0 := by norm_num
  have ha : |(-12 : ℚ) - 12| = 24 := by norm_num [abs_of_neg]
  have hc : |(0 : ℚ) - 20| = 20 := by norm_num [abs_of_neg]
  obtain ⟨b2, h1, _, htext⟩ := scaleElement_anchor_invariant exampleText
    { minX := .fin 0, minY := .fin 10, maxX := .fin 12, maxY := .fin 20 }
    .topLeft { x := .fin (-12), y := .fin 0 } rfl rfl hb
    (by simp only [JSNum.sub_fin, JSNum.ofNat_eq_fin, ne_eq, JSNum.fin.injEq]; norm_num)
    (by simp only [JSNum.sub_fin, JSNum.ofNat_eq_fin, ne_eq, JSNum.fin.injEq]; norm_num)
  refine ⟨b2, h1, ?_⟩
  have hk := (htext 0 20 "ab" "#000000" 10 rfl).2.1 (fun h => Handle.noConfusion h)
    (by simp only [JSNum.ofNat_eq_fin, ne_eq, JSNum.fin.injEq]; norm_num)
  refine hk.mpr ⟨?_, ?_⟩
  · simp only [scaleFactors, fixedCornerOf, JSNum.sub_fin, JSNum.abs_fin,
      JSNum.div_fin _ _ h12, JSNum.div_fin _ _ h10, JSNum.fin.injEq, ha, hc]
    norm_num
  · simp only [scaleFactors, fixedCornerOf, JSNum.sub_fin, JSNum.abs_fin,
      JSNum.div_fin _ _ h12, JSNum.ofNat_eq_fin, ne_eq, JSNum.fin.injEq, ha]
    norm_num

/-! ## Hit-testing -/

theorem JSNum.min2_posInf (a : JSNum) : JSNum.min2 .posInf a = a := by
  cases a <;> simp [JSNum.min2, JSNum.lt]

theorem JSNum.max2_negInf (a : JSNum) : JSNum.max2 .negInf a = a := by
  cases a <;> simp [JSNum.max2, JSNum.lt]

theorem JSNum.mathMin_pair (a b : JSNum) : JSNum.mathMin [a, b] = JSNum.min2 a b := by
  simp [JSNum.mathMin, JSNum.min2_posInf]

theorem JSNum.mathMax_pair (a b : JSNum) : JSNum.mathMax [a, b] = JSNum.max2 a b := by
  simp [JSNum.mathMax, JSNum.max2_negInf]

/-- The branch of the loop taken for an element accepts exactly the points of its region. -/
theorem hitElement_eq_hitRegion (el : Element) (x y : JSNum) :
    hitElement el x y = hitRegion el x y := by
  cases el with
  | shape type first rest color strokeWidth =>
    cases type <;>
      simp [hitElement, hitRegion, specHitRegion, computeBoundingBox, inBounds,
        BBox.containsPadded, tolerance, JSNum.mathMin_pair, JSNum.mathMax_pair, spanBox]
  | segment type x1 y1 x2 y2 color strokeWidth =>
    cases type <;>
      simp [hitElement, hitRegion, specHitRegion, computeBoundingBox, inBounds,
        BBox.containsPadded, tolerance]
  | text ex ey text color fontSize =>
    simp [hitElement, hitRegion, specHitRegion, computeBoundingBox, BBox.contains]
  | other type => rfl

/-- The loop over the indices below `n` returns the greatest of them whose element is hit. -/
theorem loop_eq_some_iff (elements : Scene) (x y : JSNum) (n : Nat) (hn : n ≤ elements.length)
    (i : Nat) :
    getElementAtPosition.loop elements x y n = some i ↔
      i < n ∧ (∃ el, elements[i]? = some el ∧ hitElement el x y = true) ∧
        ∀ j el2, i < j → j < n → elements[j]? = some el2 → hitElement el2 x y = false := by
  induction n with
  | zero => simp [getElementAtPosition.loop]
  | succ k ih =>
    have hk : k < elements.length := hn
    have hget : elements[k]? = some elements[k] := List.getElem?_eq_getElem hk
    simp only [getElementAtPosition.loop, hget]
    by_cases hit : hitElement elements[k] x y = true
    · simp only [hit, if_true, Option.some.injEq]
      constructor
      · rintro rfl
        refine ⟨Nat.lt_succ_self _, ⟨_, hget, hit⟩, ?_⟩
        intro j el2 h1 h2
        omega
      · rintro ⟨h1, _, h3⟩
        by_contra hne
        have hlt : i < k := by omega
        have := h3 k _ hlt (Nat.lt_succ_self _) hget
        rw [hit] at this
        exact Bool.noConfusion this
    · have hit2 : hitElement elements[k] x y = false := by simpa using hit
      simp only [hit2, Bool.false_eq_true, if_false]
      rw [ih (Nat.le_of_lt hk)]
      constructor
      · rintro ⟨h1, h2, h3⟩
        refine ⟨Nat.lt_succ_of_lt h1, h2, ?_⟩
        intro j el2 hj1 hj2 hj3
        by_cases hjk : j = k
        · subst hjk
          rw [hget] at hj3
          cases hj3
          exact hit2
        · exact h3 j el2 hj1 (by omega) hj3
      · rintro ⟨h1, ⟨el, h2, h2b⟩, h3⟩
        have hik : i ≠ k := by
          rintro rfl
          rw [hget] at h2
          cases h2
          rw [hit2] at h2b
          exact Bool.noConfusion h2b
        exact ⟨by omega, ⟨el, h2, h2b⟩, fun j el2 hj1 hj2 hj3 => h3 j el2 hj1 (by omega) hj3⟩

/-- The loop over the indices below `n` returns `null` exactly when none of them is hit. -/
theorem loop_eq_none_iff (elements : Scene) (x y : JSNum) (n : Nat) (hn : n ≤ elements.length) :
    getElementAtPosition.loop elements x y n = none ↔
      ∀ j el, j < n → elements[j]? = some el → hitElement el x y = false := by
  induction n with
  | zero => simp [getElementAtPosition.loop]
  | succ k ih =>
    have hk : k < elements.length := hn
    have hget : elements[k]? = some elements[k] := List.getElem?_eq_getElem hk
    simp only [getElementAtPosition.loop, hget]
    by_cases hit : hitElement elements[k] x y = true
    · simp only [hit, if_true]
      constructor
      · intro h; cases h
      · intro h
        have := h k _ (Nat.lt_succ_self _) hget
        rw [hit] at this
        exact Bool.noConfusion this
    · have hit2 : hitElement elements[k] x y = false := by simpa using hit
      simp only [hit2, Bool.false_eq_true, if_false]
      rw [ih (Nat.le_of_lt hk)]
      constructor
      · intro h j el hj1 hj2
        by_cases hjk : j = k
        · subst hjk
          rw [hget] at hj2
          cases hj2
          exact hit2
        · exact h j el (by omega) hj2
      · intro h j el hj1 hj2
        exact h j el (by omega) hj2

theorem JSNum.ge_sub_of_lt (a x : JSNum) (h : a.lt x = true) : x.ge (a.sub 5) = true := by
  cases a <;> cases x <;>
    simp [JSNum.lt, JSNum.le, JSNum.ge, JSNum.sub, JSNum.add, JSNum.neg] at h ⊢
  linarith

theorem JSNum.le_add_of_lt (x a : JSNum) (h : x.lt a = true) : x.le (a.add 5) = true := by
  cases a <;> cases x <;>
    simp [JSNum.lt, JSNum.le, JSNum.add] at h ⊢
  linarith

/-- The last of the points with finite coordinates. -/
theorem getLast_map_ofRat (c : ℚ × ℚ) (rest : List (ℚ × ℚ)) :
    (Point.ofRat c :: rest.map Point.ofRat).getLast (List.cons_ne_nil _ _) =
      Point.ofRat ((c :: rest).getLast (List.cons_ne_nil c rest)) := by
  have h := List.getLast_map Point.ofRat (c :: rest) (by simp)
  simpa using h

/-- The region of a circle with finite coordinates is the disc of the
specification over the real numbers. -/
theorem hitRegion_circle_iff (c : ℚ × ℚ) (rest : List (ℚ × ℚ)) (color : String)
    (strokeWidth : JSNum) (x y : ℚ) :
    hitRegion (.shape .circle (Point.ofRat c) (rest.map Point.ofRat) color strokeWidth)
        (.fin x) (.fin y) = true ↔
      inDisc c ((c :: rest).getLast (List.cons_ne_nil c rest)) (x, y) := by
  simp only [hitRegion, specHitRegion, getLast_map_ofRat]
  simp only [Point.ofRat, JSNum.sub_fin, JSNum.hypot, JSNum.ofNat_eq_fin, Surd.add, Surd.le]
  rw [rootLe_iff _ _ _ (add_nonneg (mul_self_nonneg _) (mul_self_nonneg _))
    (add_nonneg (mul_self_nonneg _) (mul_self_nonneg _))]
  simp only [inDisc]
  have e1 : (x - c.1) * (x - c.1) + (y - c.2) * (y - c.2) = (x - c.1) ^ 2 + (y - c.2) ^ 2 := by
    ring
  have e2 : ∀ r : ℚ × ℚ, (r.1 - c.1) * (r.1 - c.1) + (r.2 - c.2) * (r.2 - c.2) =
      (r.1 - c.1) ^ 2 + (r.2 - c.2) ^ 2 := fun r => by ring
  rw [e1, e2]
  have e3 : (((0 : ℚ) + ((5 : ℕ) : ℚ) - 0 : ℚ) : ℝ) = 5 := by norm_num
  rw [e3]

/-- The region of a text with finite anchor and font size is the unpadded box from
`x` to `x + approxWidth` and from `y - fontSize` to `y`, the font size read as 16
when it is zero. -/
theorem hitRegion_text_iff (ex ey fontSize : ℚ) (text color : String) (x y : ℚ) :
    hitRegion (.text (.fin ex) (.fin ey) text color (.fin fontSize)) (.fin x) (.fin y) = true ↔
      ex ≤ x ∧ x ≤ ex + jsLength text * (if fontSize = 0 then 16 else fontSize) * (3 / 5) ∧
        ey - (if fontSize = 0 then 16 else fontSize) ≤ y ∧ y ≤ ey := by
  have h : hitRegion (.text (.fin ex) (.fin ey) text color (.fin fontSize)) (.fin x) (.fin y) =
      (match computeBoundingBox (.text (.fin ex) (.fin ey) text color (.fin fontSize)) with
        | some b => b.contains (.fin x) (.fin y)
        | none => false) := rfl
  rw [h, computeBoundingBox_text_fin]
  simp only [BBox.contains, JSNum.ge_fin, JSNum.le_fin, Bool.and_eq_true, decide_eq_true_eq,
    and_assoc]

/-- Two circles whose hit test turns on an irrational distance. The point (85,51)
is at distance `√1226 > 35` from the centre of the circle with centre (50,50) and
rim point (80,50), and is not hit; the point (46/5, 0) is at distance `9.2` from
the centre of the circle with centre (0,0) and rim point (3,3), whose radius plus 5
is `√18 + 5 > 9.2`, and is hit. -/
theorem circle_hit_examples :
    getElementAtPosition [exampleCircle] (.fin 85) (.fin 51) = none ∧
    getElementAtPosition [.shape .circle ⟨0, 0⟩ [⟨3, 3⟩] "#000000" 2] (.fin (46 / 5)) (.fin 0) =
      some 0 := by
  constructor
  · simp only [getElementAtPosition, getElementAtPosition.loop, exampleCircle, hitElement,
      List.length_singleton, List.getElem?_cons_zero, List.getLast_cons_cons,
      List.getLast_singleton, tolerance, JSNum.ofNat_eq_fin, JSNum.sub_fin, JSNum.hypot,
      Surd.add, Surd.le, rootLe]
    norm_num
  · simp only [getElementAtPosition, getElementAtPosition.loop, hitElement,
      List.length_singleton, List.getElem?_cons_zero, List.getLast_cons_cons,
      List.getLast_singleton, tolerance, JSNum.ofNat_eq_fin, JSNum.sub_fin, JSNum.hypot,
      Surd.add, Surd.le, rootLe]
    norm_num

/-- C6 as stated fails on the elements a drag out and back records, whichever box
is meant. For the rounded rectangle with the points (0,0), (100,100), (10,10) the
bounding box is `{0, 0, 100, 100}` and its 5-unit pad contains (50,50), yet the
source tests the padded box of the first and last point only and returns `null`.
For the rectangle with the same points the box it is drawn in, spanned by the
first and last point, is `{0, 0, 10, 10}` and its pad does not contain (50,50), yet
the source tests the padded bounding box of all the points and returns its index. -/
theorem getElementAtPosition_rounded_counterexample :
    computeBoundingBox exampleRounded =
      some { minX := .fin 0, minY := .fin 0, maxX := .fin 100, maxY := .fin 100 } ∧
    specHitRegion exampleRounded (.fin 50) (.fin 50) = true ∧
    getElementAtPosition [exampleRounded] (.fin 50) (.fin 50) = none ∧
    spanBox ⟨0, 0⟩ ⟨10, 10⟩ =
      { minX := .fin 0, minY := .fin 0, maxX := .fin 10, maxY := .fin 10 } ∧
    (spanBox ⟨0, 0⟩ ⟨10, 10⟩).containsPadded 5 (.fin 50) (.fin 50) = false ∧
    getElementAtPosition [exampleRectangleBack] (.fin 50) (.fin 50) = some 0 := by
  have h1 : computeBoundingBox exampleRounded =
      some { minX := .fin 0, minY := .fin 0, maxX := .fin 100, maxY := .fin 100 } := by
    have h := computeBoundingBox_shape_fin .roundedRectangle (0, 0) [(100, 100), (10, 10)]
      "#000000" 2
    simp only [Point.ofRat, List.map_cons, List.map_nil, List.foldl_cons, List.foldl_nil] at h
    norm_num at h
    simpa [exampleRounded] using h
  have h2 : specHitRegion exampleRounded (.fin 50) (.fin 50) = true := by
    have h : specHitRegion exampleRounded (.fin 50) (.fin 50) =
        (match computeBoundingBox exampleRounded with
          | some b => b.containsPadded 5 (.fin 50) (.fin 50)
          | none => false) := rfl
    rw [h, h1]
    simp only [BBox.containsPadded, JSNum.ofNat_eq_fin, JSNum.sub_fin, JSNum.add_fin,
      JSNum.ge_fin, JSNum.le_fin]
    norm_num
  have h3 : getElementAtPosition [exampleRounded] (.fin 50) (.fin 50) = none := by
    simp only [getElementAtPosition, getElementAtPosition.loop, exampleRounded, hitElement,
      List.length_singleton, List.getElem?_cons_zero, List.getLast_cons_cons,
      List.getLast_singleton, JSNum.mathMin_pair, JSNum.mathMax_pair, tolerance, inBounds,
      JSNum.ofNat_eq_fin, JSNum.min2_fin, JSNum.max2_fin, JSNum.sub_fin, JSNum.add_fin,
      JSNum.ge_fin, JSNum.le_fin]
    norm_num
  have h4 : spanBox ⟨0, 0⟩ ⟨10, 10⟩ =
      { minX := .fin 0, minY := .fin 0, maxX := .fin 10, maxY := .fin 10 } := by
    simp only [spanBox, JSNum.ofNat_eq_fin, JSNum.min2_fin, JSNum.max2_fin]
    norm_num
  have h5 : (spanBox ⟨0, 0⟩ ⟨10, 10⟩).containsPadded 5 (.fin 50) (.fin 50) = false := by
    rw [h4]
    simp only [BBox.containsPadded, JSNum.ofNat_eq_fin, JSNum.sub_fin, JSNum.add_fin,
      JSNum.ge_fin, JSNum.le_fin]
    norm_num
  have h6 : getElementAtPosition [exampleRectangleBack] (.fin 50) (.fin 50) = some 0 := by
    simp only [getElementAtPosition, getElementAtPosition.loop, exampleRectangleBack, hitElement,
      List.length_singleton, List.getElem?_cons_zero, List.map_cons, List.map_nil,
      JSNum.mathMin, JSNum.mathMax, List.foldl_cons, List.foldl_nil, tolerance, inBounds,
      JSNum.ofNat_eq_fin, JSNum.min2_posInf_fin, JSNum.max2_negInf_fin, JSNum.min2_fin,
      JSNum.max2_fin, JSNum.sub_fin, JSNum.add_fin, JSNum.ge_fin, JSNum.le_fin]
    norm_num
  exact ⟨h1, h2, h3, h4, h5, h6⟩

/-- C6 amended. The function `getElementAtPosition` is topmost-first: it returns the
greatest index whose element's hit region contains the point, and `null` exactly
when no element's region contains it. The region is the bounding box padded by 5
for a rectangle, a triangle, a freehand stroke, a line and an arrow; the padded box
spanned by the first and the last point for a rounded rectangle; the disc of radius
`distance(center, rim) + 5` for a circle; the unpadded bounding box for a text. In
particular a point strictly inside the bounding box of a rectangle and outside the
region of every element above it returns the index of that rectangle. For finite
coordinates the region of a circle is the disc over the real numbers,
`√((px - cx)² + (py - cy)²) ≤ √((rx - cx)² + (ry - cy)²) + 5` with centre the first
and rim the last point, and the region of a text is the box from `x` to
`x + text.length * f * 0.6` and from `y - f` to `y`, where `f` is the font size, or
16 when the font size is zero. -/
theorem getElementAtPosition_topmost (elements : Scene) (x y : JSNum) :
    (∀ i, getElementAtPosition elements x y = some i ↔
      ∃ el, elements[i]? = some el ∧ hitRegion el x y = true ∧
        ∀ j el2, i < j → elements[j]? = some el2 → hitRegion el2 x y = false) ∧
    (getElementAtPosition elements x y = none ↔ ∀ el ∈ elements, hitRegion el x y = false) ∧
    (∀ i first rest color strokeWidth b,
      elements[i]? = some (.shape .rectangle first rest color strokeWidth) →
      computeBoundingBox (.shape .rectangle first rest color strokeWidth) = some b →
      b.minX.lt x = true → x.lt b.maxX = true → b.minY.lt y = true → y.lt b.maxY = true →
      (∀ j el2, i < j → elements[j]? = some el2 → hitRegion el2 x y = false) →
      getElementAtPosition elements x y = some i) ∧
    (∀ (c : ℚ × ℚ) (rest : List (ℚ × ℚ)) (color : String) (strokeWidth : JSNum) (px py : ℚ),
      hitRegion (.shape .circle (Point.ofRat c) (rest.map Point.ofRat) color strokeWidth)
          (.fin px) (.fin py) = true ↔
        inDisc c ((c :: rest).getLast (List.cons_ne_nil c rest)) (px, py)) ∧
    (∀ (ex ey fontSize : ℚ) (text color : String) (px py : ℚ),
      hitRegion (.text (.fin ex) (.fin ey) text color (.fin fontSize)) (.fin px) (.fin py) =
          true ↔
        ex ≤ px ∧ px ≤ ex + jsLength text * (if fontSize = 0 then 16 else fontSize) * (3 / 5) ∧
          ey - (if fontSize = 0 then 16 else fontSize) ≤ py ∧ py ≤ ey) := by
  have part1 : ∀ i, getElementAtPosition elements x y = some i ↔
      ∃ el, elements[i]? = some el ∧ hitRegion el x y = true ∧
        ∀ j el2, i < j → elements[j]? = some el2 → hitRegion el2 x y = false := by
    intro i
    unfold getElementAtPosition
    rw [loop_eq_some_iff elements x y elements.length (Nat.le_refl _) i]
    constructor
    · rintro ⟨_, ⟨el, h1, h2⟩, h3⟩
      refine ⟨el, h1, by rw [← hitElement_eq_hitRegion]; exact h2, ?_⟩
      intro j el2 hj hj2
      have hjlt : j < elements.length := by
        rcases Nat.lt_or_ge j elements.length with h | h
        · exact h
        · rw [List.getElem?_eq_none h] at hj2; cases hj2
      rw [← hitElement_eq_hitRegion]
      exact h3 j el2 hj hjlt hj2
    · rintro ⟨el, h1, h2, h3⟩
      have hilt : i < elements.length := by
        rcases Nat.lt_or_ge i elements.length with h | h
        · exact h
        · rw [List.getElem?_eq_none h] at h1; cases h1
      refine ⟨hilt, ⟨el, h1, by rw [hitElement_eq_hitRegion]; exact h2⟩, ?_⟩
      intro j el2 hj _ hj2
      rw [hitElement_eq_hitRegion]
      exact h3 j el2 hj hj2
  refine ⟨part1, ?_, ?_, hitRegion_circle_iff, hitRegion_text_iff⟩
  · unfold getElementAtPosition
    rw [loop_eq_none_iff elements x y elements.length (Nat.le_refl _)]
    constructor
    · intro h el hel
      obtain ⟨j, hj, hj2⟩ := List.getElem_of_mem hel
      rw [← hitElement_eq_hitRegion]
      exact h j el hj (by rw [List.getElem?_eq_getElem hj, hj2])
    · intro h j el _ hj2
      rw [hitElement_eq_hitRegion]
      exact h el (List.getElem?_mem hj2)
  · intro i first rest color strokeWidth b hi hb hx1 hx2 hy1 hy2 habove
    rw [part1]
    refine ⟨_, hi, ?_, habove⟩
    have hr : hitRegion (.shape .rectangle first rest color strokeWidth) x y =
        (match computeBoundingBox (.shape .rectangle first rest color strokeWidth) with
          | some b => b.containsPadded 5 x y
          | none => false) := rfl
    rw [hr, hb]
    simp only [BBox.containsPadded, Bool.and_eq_true]
    exact ⟨⟨⟨JSNum.ge_sub_of_lt _ _ hx1, JSNum.le_add_of_lt _ _ hx2⟩,
      JSNum.ge_sub_of_lt _ _ hy1⟩, JSNum.le_add_of_lt _ _ hy2⟩

/-- Witness of the amended C6: in the scene holding the rectangle from (0,0) to
(40,30) below the line from (10,10) to (100,100), the point (2,2) is strictly
inside the rectangle and outside the padded box of the line, and the rectangle's
index 0 is returned. -/
theorem getElementAtPosition_topmost_witness :
    getElementAtPosition [exampleRectangle, exampleLine] (.fin 2) (.fin 2) = some 0 := by
  refine (getElementAtPosition_topmost [exampleRectangle, exampleLine] (.fin 2) (.fin 2)).2.2.1 0
    ⟨0, 0⟩ [⟨40, 30⟩] "#000000" 2
    { minX := .fin 0, minY := .fin 0, maxX := .fin 40, maxY := .fin 30 } rfl ?_
    (by simp) (by simp; norm_num) (by simp) (by simp; norm_num) ?_
  · have h := computeBoundingBox_shape_fin .rectangle (0, 0) [(40, 30)] "#000000" 2
    simp only [Point.ofRat, List.map_cons, List.map_nil, List.foldl_cons, List.foldl_nil] at h
    norm_num at h
    simpa using h
  · intro j el2 hj hel
    match j, hj, hel with
    | 1, _, hel =>
      simp only [List.getElem?_cons_succ, List.getElem?_cons_zero, Option.some.injEq] at hel
      subst hel
      have hb := computeBoundingBox_segment_fin .line 10 10 100 100 "#000000" 2
      norm_num at hb
      have hr : hitRegion exampleLine (.fin 2) (.fin 2) =
          (match computeBoundingBox exampleLine with
            | some b => b.containsPadded 5 (.fin 2) (.fin 2)
            | none => false) := rfl
      have hb2 : computeBoundingBox exampleLine =
          some { minX := .fin 10, minY := .fin 10, maxX := .fin 100, maxY := .fin 100 } := by
        simpa [exampleLine] using hb
      rw [hr, hb2]
      simp only [BBox.containsPadded, JSNum.ofNat_eq_fin, JSNum.sub_fin, JSNum.add_fin,
        JSNum.ge_fin, JSNum.le_fin]
      norm_num
    | j + 2, _, hel => simp at hel

/-! ## Scenarios of the interaction controller -/

/-- The padded box of the line from (10,10) to (100,100) contains (55,55). -/
theorem hit_exampleLine_55 :
    getElementAtPosition [exampleLine] 55 55 = some 0 := by
  simp only [getElementAtPosition, getElementAtPosition.loop, exampleLine, hitElement,
    List.length_singleton, List.getElem?_cons_zero, JSNum.mathMin_pair, JSNum.mathMax_pair,
    tolerance, inBounds, JSNum.ofNat_eq_fin, JSNum.min2_fin, JSNum.max2_fin, JSNum.sub_fin,
    JSNum.add_fin, JSNum.ge_fin, JSNum.le_fin]
  norm_num

/-- The state after the line from (10,10) to (100,100) has been drawn with the
line tool from the initial state. -/
theorem run_draw_line :
    run State.initial [.setTool .line, .pointerDown 10 10, .pointerMove 100 100, .pointerUp] =
      { exampleCommitted with tool := .line } := rfl

/-- The state after the line has then been erased at (55,55). -/
theorem run_erase_line :
    run { exampleCommitted with tool := .line } [.setTool .eraser, .pointerDown 55 55] =
      { (finalizeAction [] exampleCommitted) with tool := .eraser } := by
  simp only [run, List.foldl, step, handleCanvasMouseDown, handleEraser, exampleCommitted,
    finalizeAction, State.initial, hit_exampleLine_55, filterIndexNe]
  rfl

/-- C11. The end-to-end scenario from the initial state. Line tool, pointer-down at
(10,10), pointer-move to (100,100), pointer-up: the scene holds exactly the line from
(10,10) to (100,100) and `history.past` is the one entry of the empty scene. Then eraser
tool, pointer-down at (55,55): the scene is empty and `history.past` has 2 entries. Then
one undo: the scene holds the line again and `history.future` has 1 entry. -/
theorem end_to_end_scenario :
    (run State.initial
        [.setTool .line, .pointerDown 10 10, .pointerMove 100 100, .pointerUp]).elements =
      [.segment .line 10 10 100 100 "#000000" 2] ∧
    (run State.initial
        [.setTool .line, .pointerDown 10 10, .pointerMove 100 100, .pointerUp]).history.past =
      [[]] ∧
    (run State.initial
        [.setTool .line, .pointerDown 10 10, .pointerMove 100 100, .pointerUp,
         .setTool .eraser, .pointerDown 55 55]).elements = [] ∧
    (run State.initial
        [.setTool .line, .pointerDown 10 10, .pointerMove 100 100, .pointerUp,
         .setTool .eraser, .pointerDown 55 55]).history.past.length = 2 ∧
    (run State.initial
        [.setTool .line, .pointerDown 10 10, .pointerMove 100 100, .pointerUp,
         .setTool .eraser, .pointerDown 55 55, .undo]).elements =
      [.segment .line 10 10 100 100 "#000000" 2] ∧
    (run State.initial
        [.setTool .line, .pointerDown 10 10, .pointerMove 100 100, .pointerUp,
         .setTool .eraser, .pointerDown 55 55, .undo]).history.future.length = 1 := by
  have h2 : run State.initial
      [.setTool .line, .pointerDown 10 10, .pointerMove 100 100, .pointerUp,
       .setTool .eraser, .pointerDown 55 55] =
      { (finalizeAction [] exampleCommitted) with tool := .eraser } := by
    have h := run_erase_line
    rw [← run_draw_line] at h
    simpa [run] using h
  have h3 : run State.initial
      [.setTool .line, .pointerDown 10 10, .pointerMove 100 100, .pointerUp,
       .setTool .eraser, .pointerDown 55 55, .undo] =
      undo { (finalizeAction [] exampleCommitted) with tool := .eraser } := by
    rw [← h2]
    rfl
  refine ⟨rfl, rfl, ?_, ?_, ?_, ?_⟩
  · rw [h2]; rfl
  · rw [h2]; rfl
  · rw [h3]; rfl
  · rw [h3]; rfl

/-! ## Draw gestures -/

theorem run_append (s : State) (es fs : List Event) : run s (es ++ fs) = run (run s es) fs := by
  simp [run, List.foldl_append]

theorem run_cons (s : State) (e : Event) (es : List Event) :
    run s (e :: es) = run (step s e) es := rfl

theorem run_nil (s : State) : run s [] = s := rfl

/-- Pointer-moves with a point-list tool append the sampled positions to the live element. -/
theorem run_moves_shape (moves : List Point) (s : State) (tk kind : ShapeKind) (first : Point)
    (rest : List Point) (color : String) (strokeWidth : JSNum)
    (hr : s.resizeData.resizing = false) (hd : s.isDrawing = true)
    (ht : s.tool.shapeKind? = some tk)
    (hc : s.currentElement = some (.shape kind first rest color strokeWidth)) :
    run s (moves.map fun p => Event.pointerMove p.x p.y) =
      { s with currentElement := some (.shape kind first (rest ++ moves) color strokeWidth) } := by
  induction moves generalizing s rest with
  | nil =>
    obtain ⟨tool, elements, isDrawing, isDragging, currentElement, selectedIndex, dragStart,
      col, sw, zoomLevel, history, editingText, resizeData⟩ := s
    simp only at hc
    simp [run, hc]
  | cons p moves ih =>
    have hstep : step s (Event.pointerMove p.x p.y) =
        { s with currentElement := some (.shape kind first (rest ++ [p]) color strokeWidth) } := by
      obtain ⟨tool, elements, isDrawing, isDragging, currentElement, selectedIndex, dragStart,
        col, sw, zoomLevel, history, editingText, resizeData⟩ := s
      simp only at hr hd ht hc
      subst hd hc
      cases tool <;> simp [Tool.shapeKind?] at ht <;>
        simp [step, handleCanvasMouseMove, handleMouseMove, hr]
    rw [List.map_cons, run_cons, hstep,
      ih { s with currentElement := some (.shape kind first (rest ++ [p]) color strokeWidth) }
        (rest ++ [p]) hr hd ht rfl]
    simp

/-- Pointer-moves with the line or arrow tool set the second endpoint of the live element. -/
theorem run_moves_segment (moves : List Point) (s : State) (tk kind : LineKind)
    (x1 y1 x2 y2 : JSNum) (color : String) (strokeWidth : JSNum)
    (hr : s.resizeData.resizing = false) (hd : s.isDrawing = true)
    (ht : s.tool.lineKind? = some tk)
    (hc : s.currentElement = some (.segment kind x1 y1 x2 y2 color strokeWidth)) :
    run s (moves.map fun p => Event.pointerMove p.x p.y) =
      { s with currentElement := some (.segment kind x1 y1
          (lastPoint { x := x2, y := y2 } moves).x (lastPoint { x := x2, y := y2 } moves).y
          color strokeWidth) } := by
  induction moves generalizing s x2 y2 with
  | nil =>
    obtain ⟨tool, elements, isDrawing, isDragging, currentElement, selectedIndex, dragStart,
      col, sw, zoomLevel, history, editingText, resizeData⟩ := s
    simp only at hc
    simp [run, hc, lastPoint]
  | cons p moves ih =>
    have hstep : step s (Event.pointerMove p.x p.y) =
        { s with currentElement := some (.segment kind x1 y1 p.x p.y color strokeWidth) } := by
      obtain ⟨tool, elements, isDrawing, isDragging, currentElement, selectedIndex, dragStart,
        col, sw, zoomLevel, history, editingText, resizeData⟩ := s
      simp only at hr hd ht hc
      subst hd hc
      cases tool <;> simp [Tool.lineKind?] at ht <;>
        simp [step, handleCanvasMouseMove, handleMouseMove, hr, withSecondEndpoint]
    rw [List.map_cons, run_cons, hstep,
      ih { s with currentElement := some (.segment kind x1 y1 p.x p.y color strokeWidth) }
        p.x p.y hr hd ht rfl]
    have hl : lastPoint { x := x2, y := y2 } (p :: moves) = lastPoint { x := p.x, y := p.y } moves := by
      simp [lastPoint, List.getLast_cons]
    rw [hl]

/-- A draw gesture from a state with no resize session appends the drawn element to
the live scene and commits that scene. -/
theorem runGesture_draw (s : State) (g : Gesture) (hr : s.resizeData.resizing = false)
    (ht : g.tool.isDraw = true) :
    ∃ el, g.drawn s.color s.strokeWidth = some el ∧
      runGesture s g =
        { (finalizeAction (s.elements ++ [el]) s) with
          tool := g.tool, currentElement := none, isDrawing := false } := by
  obtain ⟨tool, down, moves⟩ := g
  cases tool with
  | select => simp [Tool.isDraw] at ht
  | text => simp [Tool.isDraw] at ht
  | eraser => simp [Tool.isDraw] at ht
  | rectangle =>
    refine ⟨_, rfl, ?_⟩
    have h1 : run s [.setTool .rectangle, .pointerDown down.x down.y] =
        { s with tool := .rectangle, isDrawing := true,
                 currentElement := some (.shape .rectangle down [] s.color s.strokeWidth) } := by
      simp [run, step, handleCanvasMouseDown, handleMouseDown, newElementFor]
    have h2 := run_moves_shape moves
      { s with tool := .rectangle, isDrawing := true,
               currentElement := some (.shape .rectangle down [] s.color s.strokeWidth) }
      .rectangle .rectangle down [] s.color s.strokeWidth hr rfl rfl rfl
    simp only [runGesture, Gesture.events, run_append]
    rw [h1, h2]
    simp [run, step, handleCanvasMouseUp, handleMouseUp, hr, finalizeAction]
  | circle =>
    refine ⟨_, rfl, ?_⟩
    have h1 : run s [.setTool .circle, .pointerDown down.x down.y] =
        { s with tool := .circle, isDrawing := true,
                 currentElement := some (.shape .circle down [] s.color s.strokeWidth) } := by
      simp [run, step, handleCanvasMouseDown, handleMouseDown, newElementFor]
    have h2 := run_moves_shape moves
      { s with tool := .circle, isDrawing := true,
               currentElement := some (.shape .circle down [] s.color s.strokeWidth) }
      .circle .circle down [] s.color s.strokeWidth hr rfl rfl rfl
    simp only [runGesture, Gesture.events, run_append]
    rw [h1, h2]
    simp [run, step, handleCanvasMouseUp, handleMouseUp, hr, finalizeAction]
  | freehand =>
    refine ⟨_, rfl, ?_⟩
    have h1 : run s [.setTool .freehand, .pointerDown down.x down.y] =
        { s with tool := .freehand, isDrawing := true,
                 currentElement := some (.shape .freehand down [] s.color s.strokeWidth) } := by
      simp [run, step, handleCanvasMouseDown, handleMouseDown, newElementFor]
    have h2 := run_moves_shape moves
      { s with tool := .freehand, isDrawing := true,
               currentElement := some (.shape .freehand down [] s.color s.strokeWidth) }
      .freehand .freehand down [] s.color s.strokeWidth hr rfl rfl rfl
    simp only [runGesture, Gesture.events, run_append]
    rw [h1, h2]
    simp [run, step, handleCanvasMouseUp, handleMouseUp, hr, finalizeAction]
  | arrow =>
    refine ⟨_, rfl, ?_⟩
    have h1 : run s [.setTool .arrow, .pointerDown down.x down.y] =
        { s with tool := .arrow, isDrawing := true,
                 currentElement :=
                   some (.segment .arrow down.x down.y down.x down.y s.color s.strokeWidth) } := by
      simp [run, step, handleCanvasMouseDown, handleMouseDown, newElementFor]
    have h2 := run_moves_segment moves
      { s with tool := .arrow, isDrawing := true,
               currentElement :=
                 some (.segment .arrow down.x down.y down.x down.y s.color s.strokeWidth) }
      .arrow .arrow down.x down.y down.x down.y s.color s.strokeWidth hr rfl rfl rfl
    simp only [runGesture, Gesture.events, run_append]
    rw [h1, h2]
    simp [run, step, handleCanvasMouseUp, handleMouseUp, hr, finalizeAction]
  | line =>
    refine ⟨_, rfl, ?_⟩
    have h1 : run s [.setTool .line, .pointerDown down.x down.y] =
        { s with tool := .line, isDrawing := true,
                 currentElement :=
                   some (.segment .line down.x down.y down.x down.y s.color s.strokeWidth) } := by
      simp [run, step, handleCanvasMouseDown, handleMouseDown, newElementFor]
    have h2 := run_moves_segment moves
      { s with tool := .line, isDrawing := true,
               currentElement :=
                 some (.segment .line down.x down.y down.x down.y s.color s.strokeWidth) }
      .line .line down.x down.y down.x down.y s.color s.strokeWidth hr rfl rfl rfl
    simp only [runGesture, Gesture.events, run_append]
    rw [h1, h2]
    simp [run, step, handleCanvasMouseUp, handleMouseUp, hr, finalizeAction]
  | roundedRectangle =>
    refine ⟨_, rfl, ?_⟩
    have h1 : run s [.setTool .roundedRectangle, .pointerDown down.x down.y] =
        { s with tool := .roundedRectangle, isDrawing := true,
                 currentElement := some (.shape .roundedRectangle down [] s.color s.strokeWidth) } := by
      simp [run, step, handleCanvasMouseDown, handleMouseDown, newElementFor]
    have h2 := run_moves_shape moves
      { s with tool := .roundedRectangle, isDrawing := true,
               currentElement := some (.shape .roundedRectangle down [] s.color s.strokeWidth) }
      .roundedRectangle .roundedRectangle down [] s.color s.strokeWidth hr rfl rfl rfl
    simp only [runGesture, Gesture.events, run_append]
    rw [h1, h2]
    simp [run, step, handleCanvasMouseUp, handleMouseUp, hr, finalizeAction]
  | triangle =>
    refine ⟨_, rfl, ?_⟩
    have h1 : run s [.setTool .triangle, .pointerDown down.x down.y] =
        { s with tool := .triangle, isDrawing := true,
                 currentElement := some (.shape .triangle down [] s.color s.strokeWidth) } := by
      simp [run, step, handleCanvasMouseDown, handleMouseDown, newElementFor]
    have h2 := run_moves_shape moves
      { s with tool := .triangle, isDrawing := true,
               currentElement := some (.shape .triangle down [] s.color s.strokeWidth) }
      .triangle .triangle down [] s.color s.strokeWidth hr rfl rfl rfl
    simp only [runGesture, Gesture.events, run_append]
    rw [h1, h2]
    simp [run, step, handleCanvasMouseUp, handleMouseUp, hr, finalizeAction]

theorem runGestures_cons (s : State) (g : Gesture) (gs : List Gesture) :
    runGestures s (g :: gs) = runGestures (runGesture s g) gs := rfl

/-- What one draw gesture does to the scene, the history and the resize session. -/
theorem runGesture_draw_fields (s : State) (g : Gesture) (hr : s.resizeData.resizing = false)
    (ht : g.tool.isDraw = true) :
    (runGesture s g).resizeData.resizing = false ∧
    (runGesture s g).history.present = (runGesture s g).elements ∧
    (runGesture s g).history.past = s.history.past ++ [s.history.present] ∧
    (runGesture s g).history.future = [] ∧
    (runGesture s g).color = s.color ∧ (runGesture s g).strokeWidth = s.strokeWidth := by
  obtain ⟨el, _, h⟩ := runGesture_draw s g hr ht
  rw [h]
  simp [finalizeAction, hr]

/-- A sequence of draw gestures from a state whose `present` is the live scene
pushes, at each commit, the scene the gesture started from. -/
theorem runGestures_history (gs : List Gesture) (s : State)
    (hr : s.resizeData.resizing = false) (hp : s.history.present = s.elements)
    (ht : ∀ g ∈ gs, g.tool.isDraw = true) :
    (runGestures s gs).resizeData.resizing = false ∧
    (runGestures s gs).history.present = (runGestures s gs).elements ∧
    (runGestures s gs).history.past =
      s.history.past ++
        (List.range gs.length).map (fun k => (runGestures s (gs.take k)).elements) ∧
    (gs ≠ [] → (runGestures s gs).history.future = []) := by
  induction gs generalizing s with
  | nil => simp [runGestures, hr, hp]
  | cons g gs ih =>
    have hg := runGesture_draw_fields s g hr (ht g (List.mem_cons_self _ _))
    have ih2 := ih (runGesture s g) hg.1 hg.2.1 (fun g2 h2 => ht g2 (List.mem_cons_of_mem _ h2))
    rw [runGestures_cons]
    refine ⟨ih2.1, ih2.2.1, ?_, fun _ => ?_⟩
    · rw [ih2.2.2.1, hg.2.2.1, List.length_cons, List.range_succ_eq_map, List.map_cons,
        List.map_map]
      simp [runGestures_cons, hp, runGestures]
    · by_cases hgs : gs = []
      · subst hgs
        exact hg.2.2.2.1
      · exact ih2.2.2.2 hgs

/-- Undoing as many times as `past` has trailing entries `q` walks back through them:
the first of `q ++ [present]` becomes `present`, the others are put in front of `future`. -/
theorem iterate_undo (q : List Scene) (p : List Scene) (c : Scene) (f : List Scene) (s : State)
    (hs : s.history = { past := p ++ q, present := c, future := f })
    (first : Scene) (others : List Scene) (hq : q ++ [c] = first :: others) :
    (undo^[q.length] s).history = { past := p, present := first, future := others ++ f } ∧
    (q ≠ [] → (undo^[q.length] s).elements = first) := by
  induction q using List.reverseRecOn generalizing c f s others with
  | nil =>
    simp only [List.nil_append, List.cons.injEq] at hq
    obtain ⟨rfl, rfl⟩ := hq
    simp [hs]
  | append_singleton q x ih =>
    have hne : s.history.past ≠ [] := by simp [hs]
    have hu : (undo s).history = { past := p ++ q, present := x, future := c :: f } := by
      simp [undo, hne, hs, ← List.append_assoc]
    have hue : (undo s).elements = x := by
      simp [undo, hne, hs, ← List.append_assoc]
    have hq2 : ∃ others2, q ++ [x] = first :: others2 ∧ others = others2 ++ [c] := by
      cases q with
      | nil =>
        simp only [List.nil_append, List.cons_append, List.cons.injEq] at hq
        exact ⟨[], by simp [hq.1], by simp [← hq.2]⟩
      | cons a q =>
        simp only [List.cons_append, List.cons.injEq] at hq
        exact ⟨q ++ [x], by simp [hq.1], by simp [← hq.2]⟩
    obtain ⟨others2, h2, rfl⟩ := hq2
    have := ih x (c :: f) (undo s) hu others2 h2
    rw [List.length_append, List.length_singleton, Function.iterate_succ_apply]
    refine ⟨by rw [this.1]; simp, fun _ => ?_⟩
    by_cases hqe : q = []
    · subst hqe
      simp only [List.nil_append, List.cons.injEq] at h2
      simp [hue, h2.1]
    · exact this.2 hqe

/-- C12 as stated fails at N = 1: after the first draw gesture from the initial
state `history.past` holds the empty scene, so its length is 1 and not 0. -/
theorem past_length_counterexample :
    (runGestures State.initial [exampleLineGesture]).history.past = [[]] ∧
    (runGestures State.initial [exampleLineGesture]).history.past.length ≠
      [exampleLineGesture].length - 1 :=
  ⟨rfl, by decide⟩

/-- C12 amended. After N draw-and-commit gestures from the initial state
`history.past` has N entries: every commit pushes the scene it started from, the
first one the initial empty scene. -/
theorem past_length_after_gestures (gs : List Gesture) (ht : ∀ g ∈ gs, g.tool.isDraw = true) :
    (runGestures State.initial gs).history.past.length = gs.length := by
  have h := (runGestures_history gs State.initial rfl rfl ht).2.2.1
  rw [h]
  simp [State.initial]

/-- Witness of the amended C12 on the two gestures of a line and a rectangle. -/
theorem past_length_after_gestures_witness :
    (runGestures State.initial [exampleLineGesture, exampleRectangleGesture]).history.past.length
      = 2 :=
  past_length_after_gestures [exampleLineGesture, exampleRectangleGesture] (by decide)

/-- C13. After N draw-and-commit gestures from the initial state, N undos leave the
live scene and `history.present` empty, `history.past` empty, and `history.future`
holding the N committed scenes in the order of their commits: its entry `k` is the
scene after the first `k + 1` gestures. -/
theorem undo_all_after_gestures (gs : List Gesture) (ht : ∀ g ∈ gs, g.tool.isDraw = true) :
    (undo^[gs.length] (runGestures State.initial gs)).elements = [] ∧
    (undo^[gs.length] (runGestures State.initial gs)).history.present = [] ∧
    (undo^[gs.length] (runGestures State.initial gs)).history.past = [] ∧
    (undo^[gs.length] (runGestures State.initial gs)).history.future =
      (List.range gs.length).map
        (fun k => (runGestures State.initial (gs.take (k + 1))).elements) := by
  obtain ⟨_, hp, hpast, hfut⟩ := runGestures_history gs State.initial rfl rfl ht
  have hfut2 : (runGestures State.initial gs).history.future = [] := by
    by_cases hgs : gs = []
    · subst hgs; rfl
    · exact hfut hgs
  have hs : (runGestures State.initial gs).history =
      { past := [] ++ (List.range gs.length).map
          (fun k => (runGestures State.initial (gs.take k)).elements),
        present := (runGestures State.initial (gs.take gs.length)).elements,
        future := [] } := by
    cases hh : (runGestures State.initial gs).history with
    | mk past present future =>
      rw [hh] at hpast hfut2 hp
      simp only at hpast hfut2 hp
      rw [hpast, hfut2, hp, List.take_length]
      simp [State.initial]
  have hq : (List.range gs.length).map
        (fun k => (runGestures State.initial (gs.take k)).elements) ++
      [(runGestures State.initial (gs.take gs.length)).elements] =
      [] :: (List.range gs.length).map
        (fun k => (runGestures State.initial (gs.take (k + 1))).elements) := by
    have h1 : (List.range gs.length).map
          (fun k => (runGestures State.initial (gs.take k)).elements) ++
        [(runGestures State.initial (gs.take gs.length)).elements] =
        (List.range (gs.length + 1)).map
          (fun k => (runGestures State.initial (gs.take k)).elements) := by
      rw [List.range_succ, List.map_append, List.map_singleton]
    rw [h1, List.range_succ_eq_map, List.map_cons, List.map_map]
    rfl
  have hu := iterate_undo _ [] _ [] (runGestures State.initial gs) hs [] _ hq
  simp only [List.length_map, List.length_range, List.append_nil] at hu
  refine ⟨?_, by rw [hu.1], by rw [hu.1], by rw [hu.1]⟩
  by_cases hgs : gs = []
  · subst hgs; rfl
  · apply hu.2
    intro h
    have := congrArg List.length h
    simp at this
    exact hgs this

/-- Witness of C13 on the two gestures of a line and a rectangle. -/
theorem undo_all_after_gestures_witness :
    (undo^[2] (runGestures State.initial [exampleLineGesture, exampleRectangleGesture])).elements
      = [] ∧
    (undo^[2]
      (runGestures State.initial [exampleLineGesture, exampleRectangleGesture])).history.future =
      [[exampleLine], [exampleLine, exampleRectangleBack]] :=
  ⟨(undo_all_after_gestures [exampleLineGesture, exampleRectangleGesture] (by decide)).1,
   (undo_all_after_gestures [exampleLineGesture, exampleRectangleGesture] (by decide)).2.2.2⟩

/-- C19 as stated fails: the rectangle gesture with pointer-down at (0,0) and
pointer-moves to (100,100) and (10,10) commits a rectangle whose `points` array has
3 entries, the down position and both move positions. -/
theorem two_point_counterexample :
    (runGesture State.initial exampleRectangleGesture).elements =
      [.shape .rectangle ⟨0, 0⟩ [⟨100, 100⟩, ⟨10, 10⟩] "#000000" 2] ∧
    (Element.shape .rectangle ⟨0, 0⟩ [⟨100, 100⟩, ⟨10, 10⟩] "#000000" 2).points? =
      some [⟨0, 0⟩, ⟨100, 100⟩, ⟨10, 10⟩] ∧
    ([⟨0, 0⟩, ⟨100, 100⟩, ⟨10, 10⟩] : List Point).length ≠ 2 :=
  ⟨rfl, rfl, by decide⟩

/-- C19 amended. A draw gesture with a box-like tool (rectangle, rounded rectangle,
circle, triangle) from a state with no resize session commits the live scene with
one element appended, of the kind of the tool, whose `points` array is the down
position followed by every pointer-move position in order: one entry more than
there were pointer-moves, the first being the down position and the last the
final position. -/
theorem box_gesture_points (s : State) (g : Gesture) (kind : ShapeKind)
    (hr : s.resizeData.resizing = false) (hk : g.tool.boxKind? = some kind) :
    (runGesture s g).elements =
      s.elements ++ [.shape kind g.down g.moves s.color s.strokeWidth] ∧
    (runGesture s g).history.present = (runGesture s g).elements ∧
    (Element.shape kind g.down g.moves s.color s.strokeWidth).points? =
      some (g.down :: g.moves) ∧
    (g.down :: g.moves).length = g.moves.length + 1 ∧
    (g.down :: g.moves).head? = some g.down ∧
    (g.down :: g.moves).getLast? = some (lastPoint g.down g.moves) := by
  have ht : g.tool.isDraw = true := by
    cases hg : g.tool <;> simp [hg, Tool.boxKind?] at hk <;> rfl
  obtain ⟨el, hel, h⟩ := runGesture_draw s g hr ht
  have hel2 : el = .shape kind g.down g.moves s.color s.strokeWidth := by
    cases hg : g.tool <;> simp [hg, Tool.boxKind?] at hk <;>
      simp [Gesture.drawn, hg] at hel <;> rw [← hel, ← hk]
  subst hel2
  refine ⟨by rw [h]; simp [finalizeAction], by rw [h]; simp [finalizeAction], rfl, rfl, rfl, ?_⟩
  simp [lastPoint, List.getLast?_eq_getLast]

/-- Witness of the amended C19 on the rectangle gesture out to (100,100) and back
to (10,10), from the initial state. -/
theorem box_gesture_points_witness :
    (runGesture State.initial exampleRectangleGesture).elements =
      [] ++ [.shape .rectangle ⟨0, 0⟩ [⟨100, 100⟩, ⟨10, 10⟩] "#000000" 2] :=
  (box_gesture_points State.initial exampleRectangleGesture .rectangle rfl rfl).1

/-- C20. A freehand gesture from a state with no resize session, the pointer going
down at `p0`, moving through `moves` and going up: the committed scene is the live
scene with one element appended at the end, the freehand element whose points are
`p0` followed by `moves` in order and whose colour and stroke width are those of
the state at pointer-down; every element of the old scene keeps its index and
value; the scene is committed to the history. -/
theorem freehand_gesture (s : State) (p0 : Point) (moves : List Point)
    (hr : s.resizeData.resizing = false) :
    (runGesture s { tool := .freehand, down := p0, moves := moves }).elements =
      s.elements ++ [.shape .freehand p0 moves s.color s.strokeWidth] ∧
    (Element.shape .freehand p0 moves s.color s.strokeWidth).points? = some (p0 :: moves) ∧
    (∀ (i : Nat) (el : Element), s.elements[i]? = some el →
      (runGesture s { tool := .freehand, down := p0, moves := moves }).elements[i]? = some el) ∧
    (runGesture s { tool := .freehand, down := p0, moves := moves }).elements.length =
      s.elements.length + 1 ∧
    (runGesture s { tool := .freehand, down := p0, moves := moves }).history =
      { past := s.history.past ++ [s.history.present],
        present := s.elements ++ [.shape .freehand p0 moves s.color s.strokeWidth],
        future := [] } := by
  obtain ⟨el, hel, h⟩ := runGesture_draw s { tool := .freehand, down := p0, moves := moves } hr rfl
  simp only [Gesture.drawn, Option.some.injEq] at hel
  subst hel
  have he : (runGesture s { tool := .freehand, down := p0, moves := moves }).elements =
      s.elements ++ [.shape .freehand p0 moves s.color s.strokeWidth] := by
    rw [h]; simp [finalizeAction]
  refine ⟨he, rfl, ?_, by rw [he]; simp, by rw [h]; simp [finalizeAction]⟩
  intro i el hi
  rw [he]
  have hlt : i < s.elements.length := by
    rcases Nat.lt_or_ge i s.elements.length with hlt | hge
    · exact hlt
    · rw [List.getElem?_eq_none hge] at hi; cases hi
  rw [List.getElem?_append_left hlt]
  exact hi

/-- Witness of C20 on the freehand gesture through (0,0), (5,8), (9,3) in the state
that already holds the line. -/
theorem freehand_gesture_witness :
    (runGesture exampleCommitted exampleFreehandGesture).elements =
      [exampleLine] ++ [.shape .freehand ⟨0, 0⟩ [⟨5, 8⟩, ⟨9, 3⟩] "#000000" 2] :=
  (freehand_gesture exampleCommitted ⟨0, 0⟩ [⟨5, 8⟩, ⟨9, 3⟩] rfl).1

/-! ## History and live scene -/

theorem finalizeAction_agree (newElements : Scene) (s : State) :
    (finalizeAction newElements s).history.present = (finalizeAction newElements s).elements := rfl

theorem undo_same_or_agree (s : State) :
    (undo s).history = s.history ∨ (undo s).history.present = (undo s).elements := by
  by_cases h : s.history.past = []
  · left; simp [undo, h]
  · right; simp [undo, h]

theorem redo_same_or_agree (s : State) :
    (redo s).history = s.history ∨ (redo s).history.present = (redo s).elements := by
  cases h : s.history.future with
  | nil => left; simp [redo, h]
  | cons a l => right; simp [redo, h]

theorem handleCanvasMouseDown_same_or_agree (x y : JSNum) (s : State) :
    (handleCanvasMouseDown x y s).history = s.history ∨
      (handleCanvasMouseDown x y s).history.present = (handleCanvasMouseDown x y s).elements := by
  unfold handleCanvasMouseDown
  cases s.tool
  case eraser =>
    simp only [handleEraser]
    cases getElementAtPosition s.elements x y with
    | none => left; rfl
    | some i => right; rfl
  case select =>
    simp only []
    cases checkForResizeHandle x y s with
    | found data => left; rfl
    | typeError => left; rfl
    | notFound =>
      left
      simp only [selectElement]
      cases getElementAtPosition s.elements x y <;> rfl
  case text => left; rfl
  all_goals
    left
    simp only [handleMouseDown]
    cases newElementFor _ x y s.color s.strokeWidth <;> rfl

theorem handleCanvasMouseMove_history (x y : JSNum) (s : State) :
    (handleCanvasMouseMove x y s).history = s.history := by
  unfold handleCanvasMouseMove handleSelectMove handleMouseMove
  repeat' (first | rfl | split)

theorem handleCanvasMouseUp_same_or_agree (s : State) :
    (handleCanvasMouseUp s).history = s.history ∨
      (handleCanvasMouseUp s).history.present = (handleCanvasMouseUp s).elements := by
  unfold handleCanvasMouseUp
  split
  · left; rfl
  · unfold handleMouseUp
    split
    · right; rfl
    · split
      · left; rfl
      · split
        · right; rfl
        · left; rfl

/-- Every event either leaves the history as it was or leaves `present` equal to
the live scene. -/
theorem step_same_or_agree (s : State) (e : Event) :
    (step s e).history = s.history ∨ (step s e).history.present = (step s e).elements := by
  cases e with
  | setTool tool => left; rfl
  | setColor color => left; rfl
  | setStrokeWidth strokeWidth => left; rfl
  | pointerDown x y => exact handleCanvasMouseDown_same_or_agree x y s
  | pointerMove x y => left; exact handleCanvasMouseMove_history x y s
  | pointerUp => exact handleCanvasMouseUp_same_or_agree s
  | textChange value =>
    left
    simp only [step]
    split <;> rfl
  | textKeyDown key =>
    simp only [step]
    split
    · unfold handleTextKeyDown
      split
      · right; rfl
      · left; split <;> rfl
    · left; rfl
  | textBlur =>
    simp only [step]
    split
    · right; rfl
    · left; rfl
  | undo => exact undo_same_or_agree s
  | redo => exact redo_same_or_agree s
  | clearCanvas => right; rfl
  | zoomIn => left; rfl
  | zoomOut => left; rfl

/-- C14. History and live scene agree after every finalized mutation: whenever an
event changes the history (a commit by a draw pointer-up, an eraser hit, a resize
pointer-up or a text commit, an effective undo, an effective redo) or is a clear,
the state after it has `history.present` equal to the live scene `elements`. This
holds from every state, in particular from every state reached from the initial one. -/
theorem present_eq_elements_after_mutation (s : State) (e : Event)
    (h : (step s e).history ≠ s.history ∨ e = .clearCanvas) :
    (step s e).history.present = (step s e).elements := by
  rcases h with h | h
  · rcases step_same_or_agree s e with h2 | h2
    · exact absurd h2 h
    · exact h2
  · subst h; rfl

/-- Witness of C14: the undo of the state that holds one committed line. -/
theorem present_eq_elements_after_mutation_witness :
    (step exampleCommitted .undo).history ≠ exampleCommitted.history ∧
    (step exampleCommitted .undo).history.present = (step exampleCommitted .undo).elements :=
  have h : (step exampleCommitted .undo).history ≠ exampleCommitted.history := by
    intro h
    have h2 := congrArg (fun t => t.past.length) h
    exact absurd h2 (by decide)
  ⟨h, present_eq_elements_after_mutation exampleCommitted .undo (Or.inl h)⟩

/-! ## Misses, and pointer-up while resizing -/

/-- C15, the source at a circle. The circle with centre (50,50) and rim point (80,50)
has the bounding box `{50, 50, 80, 50}`; the point (50,30) lies 15 units above that
box padded by 5 (it is outside the box padded by 10), yet it is 20 units from the
centre, within the radius 30 plus 5, and `getElementAtPosition` returns the index
of the circle. -/
theorem miss_rule_circle_hit :
    computeBoundingBox exampleCircle =
      some { minX := .fin 50, minY := .fin 50, maxX := .fin 80, maxY := .fin 50 } ∧
    BBox.containsPadded { minX := .fin 50, minY := .fin 50, maxX := .fin 80, maxY := .fin 50 }
      5 (.fin 50) (.fin 30) = false ∧
    BBox.containsPadded { minX := .fin 50, minY := .fin 50, maxX := .fin 80, maxY := .fin 50 }
      10 (.fin 50) (.fin 30) = false ∧
    getElementAtPosition [exampleCircle] (.fin 50) (.fin 30) = some 0 := by
  refine ⟨?_, ?_, ?_, ?_⟩
  · have h := computeBoundingBox_shape_fin .circle (50, 50) [(80, 50)] "#000000" 2
    simp only [Point.ofRat, List.map_cons, List.map_nil, List.foldl_cons, List.foldl_nil] at h
    norm_num at h
    simpa [exampleCircle] using h
  · simp only [BBox.containsPadded, JSNum.ofNat_eq_fin, JSNum.sub_fin, JSNum.add_fin,
      JSNum.ge_fin, JSNum.le_fin]
    norm_num
  · simp only [BBox.containsPadded, JSNum.ofNat_eq_fin, JSNum.sub_fin, JSNum.add_fin,
      JSNum.ge_fin, JSNum.le_fin]
    norm_num
  · simp only [getElementAtPosition, getElementAtPosition.loop, exampleCircle, hitElement,
      List.length_singleton, List.getElem?_cons_zero, List.getLast_cons_cons,
      List.getLast_singleton, tolerance, JSNum.ofNat_eq_fin, JSNum.sub_fin, JSNum.hypot,
      Surd.add, Surd.le, rootLe]
    norm_num

/-- The padded box of the line from (10,10) to (100,100) contains its corner (10,10). -/
theorem hit_exampleLine_10 :
    getElementAtPosition [exampleLine] 10 10 = some 0 := by
  simp only [getElementAtPosition, getElementAtPosition.loop, exampleLine, hitElement,
    List.length_singleton, List.getElem?_cons_zero, JSNum.mathMin_pair, JSNum.mathMax_pair,
    tolerance, inBounds, JSNum.ofNat_eq_fin, JSNum.min2_fin, JSNum.max2_fin, JSNum.sub_fin,
    JSNum.add_fin, JSNum.ge_fin, JSNum.le_fin]
  norm_num

/-- The state the events of `exampleResizeEvents` lead to: the line is selected and
dragged, and a resize session on its top-left handle is active under the select tool. -/
theorem run_exampleResizeEvents :
    run State.initial exampleResizeEvents =
      { exampleCommitted with
        tool := .select, selectedIndex := some 0, dragStart := ⟨10, 10⟩, isDragging := true,
        resizeData :=
          { resizing := true, handle := some .topLeft, startX := 10, startY := 10,
            originalElement := some exampleLine,
            originalBBox :=
              some { minX := .fin 10, minY := .fin 10, maxX := .fin 100, maxY := .fin 100 } } } := by
  have h1 : run State.initial exampleResizeEvents =
      run { exampleCommitted with tool := .line }
        [.setTool .select, .pointerDown 10 10, .pointerDown 10 10] := by
    rw [← run_draw_line]
    rfl
  have hb : computeBoundingBox exampleLine =
      some { minX := .fin 10, minY := .fin 10, maxX := .fin 100, maxY := .fin 100 } := by
    have h := computeBoundingBox_segment_fin .line 10 10 100 100 "#000000" 2
    norm_num at h
    simpa [exampleLine] using h
  have hj : jsonCopy exampleLine = exampleLine := by
    simp [jsonCopy, exampleLine, jsonNumber, JSNum.isFinite]
  have h2 : run { exampleCommitted with tool := .line }
        [.setTool .select, .pointerDown 10 10] =
      { exampleCommitted with
        tool := .select, selectedIndex := some 0, dragStart := ⟨10, 10⟩, isDragging := true } := by
    simp only [run, List.foldl, step, handleCanvasMouseDown, checkForResizeHandle, selectElement,
      exampleCommitted, finalizeAction, State.initial, hit_exampleLine_10]
  have h3 : run { exampleCommitted with tool := .line }
        [.setTool .select, .pointerDown 10 10, .pointerDown 10 10] =
      step (run { exampleCommitted with tool := .line } [.setTool .select, .pointerDown 10 10])
        (.pointerDown 10 10) := rfl
  rw [h1, h3, h2]
  simp only [step, handleCanvasMouseDown, checkForResizeHandle, exampleCommitted, finalizeAction,
    State.initial, List.getElem?_cons_zero, hb, hj, handlePositions, threshold, List.find?,
    JSNum.ofNat_eq_fin, JSNum.sub_fin, JSNum.abs_fin, JSNum.lt_fin]
  norm_num

/-- C18, the source at a resize session under the select tool. After the line has
been drawn, selected at its corner and its top-left handle grabbed, the select tool
is active and `resizeData.resizing` holds; the pointer-up is handled by `endSelect`
alone: the history is the one before it (one past entry, no commit of the scene),
and the resize session is still active with its handle and anchor. -/
theorem pointerUp_select_keeps_resizing :
    (run State.initial exampleResizeEvents).tool = .select ∧
    (run State.initial exampleResizeEvents).resizeData.resizing = true ∧
    (step (run State.initial exampleResizeEvents) .pointerUp).history =
      (run State.initial exampleResizeEvents).history ∧
    (step (run State.initial exampleResizeEvents) .pointerUp).history.past.length = 1 ∧
    (step (run State.initial exampleResizeEvents) .pointerUp).resizeData.resizing = true ∧
    (step (run State.initial exampleResizeEvents) .pointerUp).resizeData.handle =
      some .topLeft := by
  rw [run_exampleResizeEvents]
  exact ⟨rfl, rfl, rfl, rfl, rfl, rfl⟩

/-! ## Eraser -/

/-- Filtering out one index is erasing the entry at that index. -/
theorem filterIndexNe_eq (index : Nat) (l : Scene) (start : Nat) :
    filterIndexNe index start l = if index < start then l else l.eraseIdx (index - start) := by
  induction l generalizing start with
  | nil => simp [filterIndexNe]
  | cons el rest ih =>
    simp only [filterIndexNe, ih]
    by_cases h1 : index < start
    · have h2 : index < start + 1 := by omega
      have h3 : (start != index) = true := by simp; omega
      simp [h1, h2, h3]
    · by_cases h4 : index = start
      · subst h4
        simp
      · have h2 : ¬ index < start + 1 := by omega
        have h3 : (start != index) = true := by simp; omega
        have h5 : index - start = (index - (start + 1)) + 1 := by omega
        simp only [h1, h2, h3, if_false, if_true]
        rw [h5, List.eraseIdx_cons_succ]

theorem filterIndexNe_zero (index : Nat) (l : Scene) :
    filterIndexNe index 0 l = l.eraseIdx index := by
  simp [filterIndexNe_eq]

/-- C17. Eraser: on a pointer-down with the eraser tool, if `getElementAtPosition`
returns the index `i`, the new scene is the old one with exactly the element at `i`
removed (one element fewer, the entries before `i` at their index, the entries after
it one index lower) and that scene is committed (the old `present` pushed onto
`past`, `future` cleared, `present` the new scene); if it returns `null` the state,
scene and history included, is unchanged. -/
theorem eraser_spec (s : State) (x y : JSNum) (ht : s.tool = .eraser) :
    (∀ i, getElementAtPosition s.elements x y = some i →
      i < s.elements.length ∧
      (handleCanvasMouseDown x y s).elements = s.elements.eraseIdx i ∧
      (handleCanvasMouseDown x y s).elements.length + 1 = s.elements.length ∧
      (∀ j, j < i → (handleCanvasMouseDown x y s).elements[j]? = s.elements[j]?) ∧
      (∀ j, i ≤ j → (handleCanvasMouseDown x y s).elements[j]? = s.elements[j + 1]?) ∧
      (handleCanvasMouseDown x y s).history =
        { past := s.history.past ++ [s.history.present],
          present := s.elements.eraseIdx i, future := [] }) ∧
    (getElementAtPosition s.elements x y = none → handleCanvasMouseDown x y s = s) := by
  constructor
  · intro i hi
    have hlt : i < s.elements.length := by
      unfold getElementAtPosition at hi
      exact ((loop_eq_some_iff s.elements x y s.elements.length (Nat.le_refl _) i).mp hi).1
    have he : (handleCanvasMouseDown x y s).elements = s.elements.eraseIdx i := by
      simp [handleCanvasMouseDown, ht, handleEraser, hi, finalizeAction, filterIndexNe_zero]
    refine ⟨hlt, he, ?_, ?_, ?_, ?_⟩
    · rw [he, List.length_eraseIdx_of_lt hlt]
      omega
    · intro j hj
      rw [he, List.getElem?_eraseIdx_of_lt _ _ _ hj]
    · intro j hj
      rw [he, List.getElem?_eraseIdx_of_ge _ _ _ hj]
    · simp [handleCanvasMouseDown, ht, handleEraser, hi, finalizeAction, filterIndexNe_zero]
  · intro hn
    simp [handleCanvasMouseDown, ht, handleEraser, hn]

/-- Witness of C17: in the state that holds the one line, with the eraser tool
chosen, a pointer-down at (55,55) hits the line and leaves the empty scene. -/
theorem eraser_spec_witness :
    (handleCanvasMouseDown 55 55 { exampleCommitted with tool := .eraser }).elements =
      [exampleLine].eraseIdx 0 ∧
    (handleCanvasMouseDown 55 55 { exampleCommitted with tool := .eraser }).history =
      { past := [[]] ++ [[exampleLine]], present := [exampleLine].eraseIdx 0, future := [] } :=
  have h := (eraser_spec { exampleCommitted with tool := .eraser } 55 55 rfl).1 0
    hit_exampleLine_55
  ⟨h.2.1, h.2.2.2.2.2⟩

/-! ## Translation -/

theorem foldl_min_add (l : List ℚ) (a d : ℚ) :
    (l.map fun v => v + d).foldl min (a + d) = l.foldl min a + d := by
  induction l generalizing a with
  | nil => rfl
  | cons b l ih =>
    simp only [List.map_cons, List.foldl_cons]
    have h : min (a + d) (b + d) = min a b + d := by
      rcases le_total a b with h | h
      · rw [min_eq_left h, min_eq_left (by linarith)]
      · rw [min_eq_right h, min_eq_right (by linarith)]
    rw [h, ih]

theorem foldl_max_add (l : List ℚ) (a d : ℚ) :
    (l.map fun v => v + d).foldl max (a + d) = l.foldl max a + d := by
  induction l generalizing a with
  | nil => rfl
  | cons b l ih =>
    simp only [List.map_cons, List.foldl_cons]
    have h : max (a + d) (b + d) = max a b + d := by
      rcases le_total a b with h | h
      · rw [max_eq_right h, max_eq_right (by linarith)]
      · rw [max_eq_left h, max_eq_left (by linarith)]
    rw [h, ih]

/-- The function `translateElement` on a point list with finite coordinates, computed
on the rationals. -/
theorem translateElement_shape_fin (type : ShapeKind) (first : ℚ × ℚ) (rest : List (ℚ × ℚ))
    (color : String) (strokeWidth : JSNum) (dx dy : ℚ) :
    translateElement (.shape type (Point.ofRat first) (rest.map Point.ofRat) color strokeWidth)
        (.fin dx) (.fin dy) =
      .shape type (Point.ofRat (first.1 + dx, first.2 + dy))
        ((rest.map fun q => (q.1 + dx, q.2 + dy)).map Point.ofRat) color strokeWidth := by
  simp only [translateElement, Point.ofRat, JSNum.add_fin, List.map_map, Function.comp_def]

/-- The bounding box of a translated element with finite coordinates is the old box
moved by the offset. -/
theorem computeBoundingBox_translate (el : Element) (dx dy : ℚ) (hf : el.isFinite = true) :
    computeBoundingBox (translateElement el (.fin dx) (.fin dy)) =
      (computeBoundingBox el).map fun b => b.shift (.fin dx) (.fin dy) := by
  cases el with
  | shape type first rest color strokeWidth =>
    simp only [Element.isFinite, Bool.and_eq_true] at hf
    obtain ⟨q, rfl⟩ := Point.exists_ofRat first hf.1
    obtain ⟨qs, rfl⟩ := exists_map_ofRat rest hf.2
    rw [translateElement_shape_fin, computeBoundingBox_shape_fin, computeBoundingBox_shape_fin]
    have e1 := map_fst_scaled qs (fun v => v + dx) (fun v => v + dy)
    have e2 := map_snd_scaled qs (fun v => v + dx) (fun v => v + dy)
    beta_reduce at e1 e2
    simp only [e1, e2, foldl_min_add, foldl_max_add, Option.map_some', BBox.shift,
      JSNum.add_fin]
  | segment type x1 y1 x2 y2 color strokeWidth =>
    simp only [Element.isFinite, Bool.and_eq_true] at hf
    obtain ⟨a1, rfl⟩ := JSNum.exists_fin x1 hf.1.1.1
    obtain ⟨b1, rfl⟩ := JSNum.exists_fin y1 hf.1.1.2
    obtain ⟨a2, rfl⟩ := JSNum.exists_fin x2 hf.1.2
    obtain ⟨b2, rfl⟩ := JSNum.exists_fin y2 hf.2
    simp only [translateElement, JSNum.add_fin, computeBoundingBox_segment_fin, Option.map_some',
      BBox.shift]
    have h1 := foldl_min_add [a2] a1 dx
    have h2 := foldl_min_add [b2] b1 dy
    have h3 := foldl_max_add [a2] a1 dx
    have h4 := foldl_max_add [b2] b1 dy
    simp only [List.map_cons, List.map_nil, List.foldl_cons, List.foldl_nil] at h1 h2 h3 h4
    rw [h1, h2, h3, h4]
  | text x y text color fontSize =>
    simp only [Element.isFinite, Bool.and_eq_true] at hf
    obtain ⟨a, rfl⟩ := JSNum.exists_fin x hf.1.1
    obtain ⟨b, rfl⟩ := JSNum.exists_fin y hf.1.2
    obtain ⟨f, rfl⟩ := JSNum.exists_fin fontSize hf.2
    simp only [translateElement, JSNum.add_fin, computeBoundingBox_text_fin, Option.map_some',
      BBox.shift, Option.some.injEq, BBox.mk.injEq, JSNum.fin.injEq]
    refine ⟨trivial, ?_, ?_, trivial⟩ <;> ring
  | other type => rfl

/-- C16. The function `updateElementPosition` at a valid index `i`: the scene keeps
its length, every entry at another index is unchanged, and the entry at `i` is the
old element with every coordinate shifted by `(dx, dy)`: each point of a point list
(rectangle, rounded rectangle, circle, triangle, freehand), both endpoints of a line
or arrow, the anchor of a text; its kind, point count, colour, stroke width, text
and font size are unchanged. For finite coordinates its bounding box is the old one
shifted by `(dx, dy)`. -/
theorem updateElementPosition_spec (prev : Scene) (i : Nat) (dx dy : JSNum) (el : Element)
    (h : prev[i]? = some el) :
    (updateElementPosition i dx dy prev).length = prev.length ∧
    (∀ j, j ≠ i → (updateElementPosition i dx dy prev)[j]? = prev[j]?) ∧
    (updateElementPosition i dx dy prev)[i]? = some (translateElement el dx dy) ∧
    (∀ type first rest color strokeWidth, el = .shape type first rest color strokeWidth →
      (updateElementPosition i dx dy prev)[i]? =
        some (.shape type { x := first.x.add dx, y := first.y.add dy }
          (rest.map fun p => { x := p.x.add dx, y := p.y.add dy }) color strokeWidth) ∧
      (rest.map fun p : Point => ({ x := p.x.add dx, y := p.y.add dy } : Point)).length =
        rest.length) ∧
    (∀ type x1 y1 x2 y2 color strokeWidth, el = .segment type x1 y1 x2 y2 color strokeWidth →
      (updateElementPosition i dx dy prev)[i]? =
        some (.segment type (x1.add dx) (y1.add dy) (x2.add dx) (y2.add dy) color strokeWidth)) ∧
    (∀ x y text color fontSize, el = .text x y text color fontSize →
      (updateElementPosition i dx dy prev)[i]? =
        some (.text (x.add dx) (y.add dy) text color fontSize)) ∧
    (∀ qx qy : ℚ, dx = .fin qx → dy = .fin qy → el.isFinite = true →
      computeBoundingBox (translateElement el dx dy) =
        (computeBoundingBox el).map fun b => b.shift dx dy) := by
  have hlt : i < prev.length := by
    rcases Nat.lt_or_ge i prev.length with hlt | hge
    · exact hlt
    · rw [List.getElem?_eq_none hge] at h; cases h
  have hu : updateElementPosition i dx dy prev = prev.set i (translateElement el dx dy) := by
    simp [updateElementPosition, h]
  have hi : (updateElementPosition i dx dy prev)[i]? = some (translateElement el dx dy) := by
    rw [hu, List.getElem?_set_self hlt]
  refine ⟨by rw [hu, List.length_set], ?_, hi, ?_, ?_, ?_, ?_⟩
  · intro j hj
    rw [hu, List.getElem?_set_ne (Ne.symm hj)]
  · rintro type first rest color strokeWidth rfl
    exact ⟨hi, List.length_map _ _⟩
  · rintro type x1 y1 x2 y2 color strokeWidth rfl
    exact hi
  · rintro x y text color fontSize rfl
    exact hi
  · rintro qx qy rfl rfl hf
    exact computeBoundingBox_translate el qx qy hf

/-- Witness of C16: the line from (10,10) to (100,100), alone in the scene, moved by (5,-3). -/
theorem updateElementPosition_spec_witness :
    (updateElementPosition 0 (.fin 5) (.fin (-3)) [exampleLine]).length = 1 ∧
    (updateElementPosition 0 (.fin 5) (.fin (-3)) [exampleLine])[0]? =
      some (translateElement exampleLine (.fin 5) (.fin (-3))) :=
  have h := updateElementPosition_spec [exampleLine] 0 (.fin 5) (.fin (-3)) exampleLine rfl
  ⟨h.1, h.2.2.1⟩

/-! ## The live element while drawing -/

/-- One event keeps the live element set while `isDrawing` holds. -/
theorem step_drawing_has_element (s : State) (e : Event)
    (h : s.isDrawing = true → s.currentElement.isSome = true) :
    (step s e).isDrawing = true → (step s e).currentElement.isSome = true := by
  cases e with
  | setTool tool => exact h
  | setColor color => exact h
  | setStrokeWidth strokeWidth => exact h
  | pointerDown x y =>
    simp only [step, handleCanvasMouseDown]
    cases ht : s.tool <;> simp only [handleEraser, selectElement, handleMouseDown, newElementFor, ht]
    case eraser => cases getElementAtPosition s.elements x y <;> exact h
    case select =>
      cases checkForResizeHandle x y s with
      | found data => exact h
      | typeError => exact h
      | notFound => cases getElementAtPosition s.elements x y <;> exact h
    case text => exact h
    all_goals intro _; rfl
  | pointerMove x y =>
    simp only [step, handleCanvasMouseMove, handleSelectMove, handleMouseMove]
    repeat' split
    all_goals first
      | exact h
      | (intro _; rfl)
      | (intro hd; simp only [withSecondEndpoint]; split <;> rfl)
  | pointerUp =>
    simp only [step, handleCanvasMouseUp, endSelect, handleMouseUp]
    repeat' split
    all_goals first
      | exact h
      | (intro hd; exact absurd hd (by simp))
  | textChange value =>
    simp only [step]
    split <;> exact h
  | textKeyDown key =>
    simp only [step, handleTextKeyDown]
    repeat' split
    all_goals exact h
  | textBlur =>
    simp only [step]
    split <;> exact h
  | undo =>
    simp only [step, undo]
    split <;> exact h
  | redo =>
    simp only [step, redo]
    split <;> exact h
  | clearCanvas => exact h
  | zoomIn => exact h
  | zoomOut => exact h

/-- In every state reached from the initial state the live element is set while
`isDrawing` holds, so a committing pointer-up always has an element to append. -/
theorem run_drawing_has_element (events : List Event) :
    (run State.initial events).isDrawing = true →
      (run State.initial events).currentElement.isSome = true := by
  have key : ∀ (es : List Event) (s : State),
      (s.isDrawing = true → s.currentElement.isSome = true) →
      (run s es).isDrawing = true → (run s es).currentElement.isSome = true := by
    intro es
    induction es with
    | nil => intro s h; exact h
    | cons e es ih =>
      intro s h
      rw [run_cons]
      exact ih (step s e) (step_drawing_has_element s e h)
  exact key events State.initial (fun h => absurd h (by decide))

/-! ## Clear -/

/-- C22. Clear: from every state `clearCanvas` leaves the scene empty and the
history `{past: [], present: [], future: []}`, in particular after three commits;
an undo after it and a redo after it return the state unchanged, so a clear is not
undone. -/
theorem clearCanvas_spec (s : State) :
    (clearCanvas s).elements = [] ∧
    (clearCanvas s).history = { past := [], present := [], future := [] } ∧
    (∀ a b c : Scene,
      (clearCanvas (finalizeAction c (finalizeAction b (finalizeAction a s)))).history =
        { past := [], present := [], future := [] } ∧
      (clearCanvas (finalizeAction c (finalizeAction b (finalizeAction a s)))).elements = []) ∧
    undo (clearCanvas s) = clearCanvas s ∧
    redo (clearCanvas s) = clearCanvas s ∧
    step s .clearCanvas = clearCanvas s := by
  refine ⟨rfl, rfl, fun a b c => ⟨rfl, rfl⟩, ?_, ?_, rfl⟩
  · simp [undo, clearCanvas]
  · simp [redo, clearCanvas]

/-! ## Hit region and bounding box -/

theorem JSNum.min2_self (a : JSNum) : JSNum.min2 a a = a := by
  cases a <;> simp [JSNum.min2, JSNum.lt]

theorem JSNum.max2_self (a : JSNum) : JSNum.max2 a a = a := by
  cases a <;> simp [JSNum.max2, JSNum.lt]

/-- C24 as stated fails on a rounded rectangle with three recorded points. For the
points (0,0), (100,100), (10,10) the bounding box is `{0, 0, 100, 100}` and its
5-unit pad contains (60,40), but the hit test reads the first and the last point
only, tests the box from -5 to 15 on both axes, and rejects (60,40). -/
theorem hit_region_rounded_counterexample :
    inPaddedBoundingBox exampleRounded (.fin 60) (.fin 40) = true ∧
    hitElement exampleRounded (.fin 60) (.fin 40) = false := by
  constructor
  · have h := computeBoundingBox_shape_fin .roundedRectangle (0, 0) [(100, 100), (10, 10)]
      "#000000" 2
    simp only [Point.ofRat, List.map_cons, List.map_nil, List.foldl_cons, List.foldl_nil] at h
    norm_num at h
    have h1 : computeBoundingBox exampleRounded =
        some { minX := .fin 0, minY := .fin 0, maxX := .fin 100, maxY := .fin 100 } := by
      simpa [exampleRounded] using h
    simp only [inPaddedBoundingBox, h1, BBox.containsPadded, JSNum.ofNat_eq_fin, JSNum.sub_fin,
      JSNum.add_fin, JSNum.ge_fin, JSNum.le_fin]
    norm_num
  · simp only [exampleRounded, hitElement, List.getLast_cons_cons, List.getLast_singleton,
      JSNum.mathMin_pair, JSNum.mathMax_pair, tolerance, inBounds, JSNum.ofNat_eq_fin,
      JSNum.min2_fin, JSNum.max2_fin, JSNum.sub_fin, JSNum.add_fin, JSNum.ge_fin, JSNum.le_fin]
    norm_num

/-- C24 amended. For a rectangle, a triangle and a freehand stroke with any number
of recorded points, and for a line and an arrow, the hit test accepts a point
exactly when it lies inside the bounding box of the element expanded by 5 units on
every side. For a rounded rectangle the hit test accepts a point exactly when it
lies inside the box spanned by its first and last recorded points expanded by 5;
that is its padded bounding box when it has at most two recorded points. -/
theorem hitElement_eq_padded_box (x y : JSNum) :
    (∀ (type : ShapeKind) (first : Point) (rest : List Point) (color : String)
        (strokeWidth : JSNum),
      type = .rectangle ∨ type = .triangle ∨ type = .freehand →
      hitElement (.shape type first rest color strokeWidth) x y =
        inPaddedBoundingBox (.shape type first rest color strokeWidth) x y) ∧
    (∀ (type : LineKind) (x1 y1 x2 y2 : JSNum) (color : String) (strokeWidth : JSNum),
      hitElement (.segment type x1 y1 x2 y2 color strokeWidth) x y =
        inPaddedBoundingBox (.segment type x1 y1 x2 y2 color strokeWidth) x y) ∧
    (∀ (first : Point) (rest : List Point) (color : String) (strokeWidth : JSNum),
      hitElement (.shape .roundedRectangle first rest color strokeWidth) x y =
        (spanBox first (lastPoint first rest)).containsPadded 5 x y) ∧
    (∀ (first : Point) (rest : List Point) (color : String) (strokeWidth : JSNum),
      rest.length ≤ 1 →
      hitElement (.shape .roundedRectangle first rest color strokeWidth) x y =
        inPaddedBoundingBox (.shape .roundedRectangle first rest color strokeWidth) x y) := by
  refine ⟨?_, ?_, ?_, ?_⟩
  · intro type first rest color strokeWidth ht
    rcases ht with rfl | rfl | rfl <;>
      simp [hitElement, inPaddedBoundingBox, computeBoundingBox, inBounds, BBox.containsPadded,
        tolerance]
  · intro type x1 y1 x2 y2 color strokeWidth
    cases type <;>
      simp [hitElement, inPaddedBoundingBox, computeBoundingBox, inBounds, BBox.containsPadded,
        tolerance]
  · intro first rest color strokeWidth
    simp [hitElement, inBounds, BBox.containsPadded, tolerance, spanBox, lastPoint,
      JSNum.mathMin_pair, JSNum.mathMax_pair]
  · intro first rest color strokeWidth hl
    match rest, hl with
    | [], _ =>
      simp [hitElement, inPaddedBoundingBox, computeBoundingBox, inBounds, BBox.containsPadded,
        tolerance, JSNum.mathMin_pair, JSNum.mathMax_pair, JSNum.mathMin, JSNum.mathMax,
        JSNum.min2_self, JSNum.max2_self, JSNum.min2_posInf, JSNum.max2_negInf]
    | [p], _ =>
      simp [hitElement, inPaddedBoundingBox, computeBoundingBox, inBounds, BBox.containsPadded,
        tolerance]
    | _ :: _ :: _, hl => simp at hl

/-- Witness of the amended C24 on the rectangle dragged out to (100,100) and back
to (10,10): the point (60,40) is accepted, as it is by the padded bounding box. -/
theorem hitElement_eq_padded_box_witness :
    hitElement exampleRectangleBack (.fin 60) (.fin 40) =
      inPaddedBoundingBox exampleRectangleBack (.fin 60) (.fin 40) :=
  (hitElement_eq_padded_box (.fin 60) (.fin 40)).1 .rectangle ⟨0, 0⟩ [⟨100, 100⟩, ⟨10, 10⟩]
    "#000000" 2 (Or.inl rfl)

/-! ## Well-bracketed gestures -/

/-- One event of a well-bracketed sequence keeps: no resize session; no selection
outside a gesture; a selection only under the select tool. -/
theorem step_bracket_invariant (s : State) (inGesture : Bool) (e : Event) (rest : List Event)
    (hr : s.resizeData.resizing = false)
    (hclosed : inGesture = false → s.selectedIndex = none)
    (hsel : s.selectedIndex ≠ none → s.tool = .select)
    (hw : wellBracketed inGesture (e :: rest) = true) :
    (step s e).resizeData.resizing = false ∧
    (gestureOpenAfter inGesture [e] = false → (step s e).selectedIndex = none) ∧
    ((step s e).selectedIndex ≠ none → (step s e).tool = .select) ∧
    wellBracketed (gestureOpenAfter inGesture [e]) rest = true := by
  cases e with
  | setTool tool =>
    simp only [wellBracketed, Bool.and_eq_true, Bool.not_eq_true'] at hw
    have hn := hclosed hw.1
    refine ⟨hr, fun _ => hn, fun h => absurd hn h, ?_⟩
    simp only [gestureOpenAfter, hw.1, hw.2]
  | pointerDown x y =>
    simp only [wellBracketed, Bool.and_eq_true, Bool.not_eq_true'] at hw
    have hn := hclosed hw.1
    refine ⟨?_, fun h => by simp [gestureOpenAfter] at h, ?_, by simpa [gestureOpenAfter] using hw.2⟩
    · simp only [step, handleCanvasMouseDown]
      cases ht : s.tool <;>
        simp only [handleEraser, selectElement, handleMouseDown, checkForResizeHandle, hn]
      case eraser => cases getElementAtPosition s.elements x y <;> exact hr
      case select => cases getElementAtPosition s.elements x y <;> exact hr
      case text => exact hr
      all_goals (cases newElementFor _ x y s.color s.strokeWidth <;> exact hr)
    · simp only [step, handleCanvasMouseDown]
      cases ht : s.tool <;>
        simp only [handleEraser, selectElement, handleMouseDown, checkForResizeHandle, hn]
      case eraser =>
        cases getElementAtPosition s.elements x y <;> intro h <;> exact absurd hn h
      case select =>
        cases getElementAtPosition s.elements x y <;> intro _ <;> exact ht
      case text => intro h; exact absurd rfl h
      all_goals
        (cases newElementFor _ x y s.color s.strokeWidth <;> intro h <;> exact absurd rfl h)
  | pointerMove x y =>
    have hw2 : wellBracketed inGesture rest = true := by
      cases inGesture <;> simpa [wellBracketed] using hw
    have hsame : (step s (.pointerMove x y)).resizeData = s.resizeData ∧
        (step s (.pointerMove x y)).selectedIndex = s.selectedIndex ∧
        (step s (.pointerMove x y)).tool = s.tool := by
      simp only [step, handleCanvasMouseMove, handleSelectMove, handleMouseMove]
      repeat' split
      all_goals exact ⟨rfl, rfl, rfl⟩
    rw [hsame.1, hsame.2.1, hsame.2.2]
    exact ⟨hr, fun h => hclosed (by simpa [gestureOpenAfter] using h), hsel,
      by simpa [gestureOpenAfter] using hw2⟩
  | pointerUp =>
    have hw2 : wellBracketed false rest = true := by
      cases inGesture <;> simpa [wellBracketed] using hw
    refine ⟨?_, fun _ => ?_, ?_, by simpa [gestureOpenAfter] using hw2⟩
    · simp only [step, handleCanvasMouseUp, endSelect, handleMouseUp, hr]
      repeat' split
      all_goals first
        | exact hr
        | rfl
    · simp only [step, handleCanvasMouseUp, endSelect, handleMouseUp, hr]
      by_cases ht : s.tool = .select
      · simp [ht]
      · have hn : s.selectedIndex = none := by
          by_contra h
          exact ht (hsel h)
        simp only [beq_iff_eq, ht, if_false]
        repeat' split
        all_goals exact hn
    · simp only [step, handleCanvasMouseUp, endSelect, handleMouseUp, hr]
      by_cases ht : s.tool = .select
      · simp [ht]
      · have hn : s.selectedIndex = none := by
          by_contra h
          exact ht (hsel h)
        simp only [beq_iff_eq, ht, if_false]
        repeat' split
        all_goals (intro h; exact absurd hn h)
  | textChange value =>
    have hw2 : wellBracketed inGesture rest = true := by
      cases inGesture <;> simpa [wellBracketed] using hw
    have hsame : (step s (.textChange value)).resizeData = s.resizeData ∧
        (step s (.textChange value)).selectedIndex = s.selectedIndex ∧
        (step s (.textChange value)).tool = s.tool := by
      simp only [step, handleTextChange]
      split <;> exact ⟨rfl, rfl, rfl⟩
    rw [hsame.1, hsame.2.1, hsame.2.2]
    exact ⟨hr, fun h => hclosed (by simpa [gestureOpenAfter] using h), hsel,
      by simpa [gestureOpenAfter] using hw2⟩
  | textKeyDown key =>
    have hw2 : wellBracketed inGesture rest = true := by
      cases inGesture <;> simpa [wellBracketed] using hw
    have hsame : (step s (.textKeyDown key)).resizeData = s.resizeData ∧
        (step s (.textKeyDown key)).selectedIndex = s.selectedIndex ∧
        (step s (.textKeyDown key)).tool = s.tool := by
      simp only [step, handleTextKeyDown, commitText, finalizeAction]
      repeat' split
      all_goals exact ⟨rfl, rfl, rfl⟩
    rw [hsame.1, hsame.2.1, hsame.2.2]
    exact ⟨hr, fun h => hclosed (by simpa [gestureOpenAfter] using h), hsel,
      by simpa [gestureOpenAfter] using hw2⟩
  | textBlur =>
    have hw2 : wellBracketed inGesture rest = true := by
      cases inGesture <;> simpa [wellBracketed] using hw
    have hsame : (step s .textBlur).resizeData = s.resizeData ∧
        (step s .textBlur).selectedIndex = s.selectedIndex ∧
        (step s .textBlur).tool = s.tool := by
      simp only [step, commitText, finalizeAction]
      split <;> exact ⟨rfl, rfl, rfl⟩
    rw [hsame.1, hsame.2.1, hsame.2.2]
    exact ⟨hr, fun h => hclosed (by simpa [gestureOpenAfter] using h), hsel,
      by simpa [gestureOpenAfter] using hw2⟩
  | undo =>
    have hw2 : wellBracketed inGesture rest = true := by
      cases inGesture <;> simpa [wellBracketed] using hw
    have hsame : (step s .undo).resizeData = s.resizeData ∧
        (step s .undo).selectedIndex = s.selectedIndex ∧ (step s .undo).tool = s.tool := by
      simp only [step, undo]
      split <;> exact ⟨rfl, rfl, rfl⟩
    rw [hsame.1, hsame.2.1, hsame.2.2]
    exact ⟨hr, fun h => hclosed (by simpa [gestureOpenAfter] using h), hsel,
      by simpa [gestureOpenAfter] using hw2⟩
  | redo =>
    have hw2 : wellBracketed inGesture rest = true := by
      cases inGesture <;> simpa [wellBracketed] using hw
    have hsame : (step s .redo).resizeData = s.resizeData ∧
        (step s .redo).selectedIndex = s.selectedIndex ∧ (step s .redo).tool = s.tool := by
      simp only [step, redo]
      split <;> exact ⟨rfl, rfl, rfl⟩
    rw [hsame.1, hsame.2.1, hsame.2.2]
    exact ⟨hr, fun h => hclosed (by simpa [gestureOpenAfter] using h), hsel,
      by simpa [gestureOpenAfter] using hw2⟩
  | setColor color =>
    have hw2 : wellBracketed inGesture rest = true := by
      cases inGesture <;> simpa [wellBracketed] using hw
    exact ⟨hr, fun h => hclosed (by simpa [gestureOpenAfter] using h), hsel,
      by simpa [gestureOpenAfter] using hw2⟩
  | setStrokeWidth strokeWidth =>
    have hw2 : wellBracketed inGesture rest = true := by
      cases inGesture <;> simpa [wellBracketed] using hw
    exact ⟨hr, fun h => hclosed (by simpa [gestureOpenAfter] using h), hsel,
      by simpa [gestureOpenAfter] using hw2⟩
  | clearCanvas =>
    have hw2 : wellBracketed inGesture rest = true := by
      cases inGesture <;> simpa [wellBracketed] using hw
    exact ⟨hr, fun h => hclosed (by simpa [gestureOpenAfter] using h), hsel,
      by simpa [gestureOpenAfter] using hw2⟩
  | zoomIn =>
    have hw2 : wellBracketed inGesture rest = true := by
      cases inGesture <;> simpa [wellBracketed] using hw
    exact ⟨hr, fun h => hclosed (by simpa [gestureOpenAfter] using h), hsel,
      by simpa [gestureOpenAfter] using hw2⟩
  | zoomOut =>
    have hw2 : wellBracketed inGesture rest = true := by
      cases inGesture <;> simpa [wellBracketed] using hw
    exact ⟨hr, fun h => hclosed (by simpa [gestureOpenAfter] using h), hsel,
      by simpa [gestureOpenAfter] using hw2⟩

theorem gestureOpenAfter_cons (inGesture : Bool) (e : Event) (es : List Event) :
    gestureOpenAfter inGesture (e :: es) = gestureOpenAfter (gestureOpenAfter inGesture [e]) es := by
  cases e <;> rfl

/-- Along a well-bracketed sequence there is no resize session, no selection outside
a gesture, and a selection only under the select tool. -/
theorem run_bracket_invariant (pre : List Event) (s : State) (inGesture : Bool)
    (post : List Event)
    (hr : s.resizeData.resizing = false)
    (hclosed : inGesture = false → s.selectedIndex = none)
    (hsel : s.selectedIndex ≠ none → s.tool = .select)
    (hw : wellBracketed inGesture (pre ++ post) = true) :
    (run s pre).resizeData.resizing = false ∧
    (gestureOpenAfter inGesture pre = false → (run s pre).selectedIndex = none) ∧
    ((run s pre).selectedIndex ≠ none → (run s pre).tool = .select) ∧
    wellBracketed (gestureOpenAfter inGesture pre) post = true := by
  induction pre generalizing s inGesture with
  | nil => exact ⟨hr, hclosed, hsel, hw⟩
  | cons e es ih =>
    obtain ⟨h1, h2, h3, h4⟩ := step_bracket_invariant s inGesture e (es ++ post) hr hclosed hsel hw
    rw [run_cons, gestureOpenAfter_cons]
    exact ih (step s e) (gestureOpenAfter inGesture [e]) h1 h2 h3 h4

/-- C26. Resize is never entered under well-bracketed gestures. In every sequence of
events from the initial state in which no pointer-down and no change of tool comes
between a pointer-down and the next pointer-up, every state reached has
`resizeData.resizing` false, and at every pointer-down `selectedIndex` is `null`, so
that `checkForResizeHandle` returns false and no resize session starts. -/
theorem resize_never_entered (pre post : List Event)
    (hw : wellBracketed false (pre ++ post) = true) :
    (run State.initial pre).resizeData.resizing = false ∧
    (∀ x y rest, post = .pointerDown x y :: rest →
      (run State.initial pre).selectedIndex = none ∧
      checkForResizeHandle x y (run State.initial pre) = .notFound ∧
      (step (run State.initial pre) (.pointerDown x y)).resizeData.resizing = false) := by
  obtain ⟨h1, h2, h3, h4⟩ :=
    run_bracket_invariant pre State.initial false post rfl (fun _ => rfl)
      (fun h => absurd rfl h) hw
  refine ⟨h1, ?_⟩
  rintro x y rest rfl
  have ho : gestureOpenAfter false pre = false := by
    cases hg : gestureOpenAfter false pre
    · rfl
    · rw [hg] at h4
      simp [wellBracketed] at h4
  have hn := h2 ho
  refine ⟨hn, by simp [checkForResizeHandle, hn], ?_⟩
  rw [ho] at h4
  exact (step_bracket_invariant _ false (.pointerDown x y) rest h1 (fun _ => hn) h3 h4).1

/-- Witness of C26: the line is drawn, then selected, dragged and released; at the
next pointer-down no element is selected and no resize session starts. -/
theorem resize_never_entered_witness :
    (run State.initial exampleBracketedEvents).resizeData.resizing = false ∧
    (run State.initial exampleBracketedEvents).selectedIndex = none ∧
    checkForResizeHandle 10 10 (run State.initial exampleBracketedEvents) = .notFound :=
  have h := resize_never_entered exampleBracketedEvents [.pointerDown 10 10] (by decide)
  ⟨h.1, (h.2 10 10 [] rfl).1, (h.2 10 10 [] rfl).2.1⟩

/-! ## The size of a resized element -/

/-- Scaling about `f` by a factor that is not negative carries the least element to
the least element. -/
theorem scaled_min_map (l : List ℚ) (a f s : ℚ) (hs : 0 ≤ s) :
    (l.map fun v => f + (v - f) * s).foldl min (f + (a - f) * s) =
      f + (l.foldl min a - f) * s := by
  induction l generalizing a with
  | nil => rfl
  | cons b l ih =>
    simp only [List.map_cons, List.foldl_cons]
    have h : min (f + (a - f) * s) (f + (b - f) * s) = f + (min a b - f) * s := by
      rcases le_total a b with h | h
      · rw [min_eq_left h, min_eq_left]
        nlinarith
      · rw [min_eq_right h, min_eq_right]
        nlinarith
    rw [h, ih]

/-- Scaling about `f` by a factor that is not negative carries the greatest element
to the greatest element. -/
theorem scaled_max_map (l : List ℚ) (a f s : ℚ) (hs : 0 ≤ s) :
    (l.map fun v => f + (v - f) * s).foldl max (f + (a - f) * s) =
      f + (l.foldl max a - f) * s := by
  induction l generalizing a with
  | nil => rfl
  | cons b l ih =>
    simp only [List.map_cons, List.foldl_cons]
    have h : max (f + (a - f) * s) (f + (b - f) * s) = f + (max a b - f) * s := by
      rcases le_total a b with h | h
      · rw [max_eq_right h, max_eq_right]
        nlinarith
      · rw [max_eq_left h, max_eq_left]
        nlinarith
    rw [h, ih]

/-- The bounding box of a scaled point list with finite coordinates, the sides of
the old box being named. -/
theorem scaleElement_shape_box_aux (type : ShapeKind) (first : ℚ × ℚ) (rest : List (ℚ × ℚ))
    (color : String) (strokeWidth : JSNum) (handle : Handle) (c : ℚ × ℚ) (mnx mny mxx mxy : ℚ)
    (hmnx : mnx = (rest.map Prod.fst).foldl min first.1)
    (hmny : mny = (rest.map Prod.snd).foldl min first.2)
    (hmxx : mxx = (rest.map Prod.fst).foldl max first.1)
    (hmxy : mxy = (rest.map Prod.snd).foldl max first.2)
    (hw : mxx - mnx ≠ 0) (hh : mxy - mny ≠ 0) :
    computeBoundingBox (scaleElement
        (.shape type (Point.ofRat first) (rest.map Point.ofRat) color strokeWidth)
        { minX := .fin mnx, minY := .fin mny, maxX := .fin mxx, maxY := .fin mxy }
        handle (Point.ofRat c)) =
      some (resizedBox { minX := .fin mnx, minY := .fin mny, maxX := .fin mxx, maxY := .fin mxy }
        handle (Point.ofRat c)) := by
  have hwpos : 0 < mxx - mnx := by
    refine lt_of_le_of_ne (sub_nonneg.mpr ?_) (Ne.symm hw)
    rw [hmnx, hmxx]; exact foldl_min_le_foldl_max _ _
  have hhpos : 0 < mxy - mny := by
    refine lt_of_le_of_ne (sub_nonneg.mpr ?_) (Ne.symm hh)
    rw [hmny, hmxy]; exact foldl_min_le_foldl_max _ _
  have hsx : ∀ v : ℚ, 0 ≤ |v| / (mxx - mnx) := fun v => div_nonneg (abs_nonneg _) hwpos.le
  have hsy : ∀ v : ℚ, 0 ≤ |v| / (mxy - mny) := fun v => div_nonneg (abs_nonneg _) hhpos.le
  cases handle
  · rw [scaleElement_shape_fin type first rest color strokeWidth
        { minX := .fin mnx, minY := .fin mny, maxX := .fin mxx, maxY := .fin mxy } .topLeft c
        mxx mxy (mxx - mnx) (mxy - mny) rfl (JSNum.sub_fin _ _) (JSNum.sub_fin _ _) hw hh,
      computeBoundingBox_shape_fin]
    have e1 := map_fst_scaled rest (fun v => mxx + (v - mxx) * (|c.1 - mxx| / (mxx - mnx)))
      (fun v => mxy + (v - mxy) * (|c.2 - mxy| / (mxy - mny)))
    have e2 := map_snd_scaled rest (fun v => mxx + (v - mxx) * (|c.1 - mxx| / (mxx - mnx)))
      (fun v => mxy + (v - mxy) * (|c.2 - mxy| / (mxy - mny)))
    beta_reduce at e1 e2
    rw [e1, e2, scaled_min_map _ _ _ _ (hsx _), scaled_max_map _ _ _ _ (hsx _),
      scaled_min_map _ _ _ _ (hsy _), scaled_max_map _ _ _ _ (hsy _), ← hmnx, ← hmny, ← hmxx, ← hmxy]
    simp only [resizedBox, Point.ofRat, JSNum.sub_fin, JSNum.add_fin, JSNum.abs_fin,
      Option.some.injEq, BBox.mk.injEq, JSNum.fin.injEq]
    refine ⟨?_, ?_, ?_, ?_⟩ <;> first | (field_simp; ring) | field_simp
  · rw [scaleElement_shape_fin type first rest color strokeWidth
        { minX := .fin mnx, minY := .fin mny, maxX := .fin mxx, maxY := .fin mxy } .topRight c
        mnx mxy (mxx - mnx) (mxy - mny) rfl (JSNum.sub_fin _ _) (JSNum.sub_fin _ _) hw hh,
      computeBoundingBox_shape_fin]
    have e1 := map_fst_scaled rest (fun v => mnx + (v - mnx) * (|c.1 - mnx| / (mxx - mnx)))
      (fun v => mxy + (v - mxy) * (|c.2 - mxy| / (mxy - mny)))
    have e2 := map_snd_scaled rest (fun v => mnx + (v - mnx) * (|c.1 - mnx| / (mxx - mnx)))
      (fun v => mxy + (v - mxy) * (|c.2 - mxy| / (mxy - mny)))
    beta_reduce at e1 e2
    rw [e1, e2, scaled_min_map _ _ _ _ (hsx _), scaled_max_map _ _ _ _ (hsx _),
      scaled_min_map _ _ _ _ (hsy _), scaled_max_map _ _ _ _ (hsy _), ← hmnx, ← hmny, ← hmxx, ← hmxy]
    simp only [resizedBox, Point.ofRat, JSNum.sub_fin, JSNum.add_fin, JSNum.abs_fin,
      Option.some.injEq, BBox.mk.injEq, JSNum.fin.injEq]
    refine ⟨?_, ?_, ?_, ?_⟩ <;> first | (field_simp; ring) | field_simp
  · rw [scaleElement_shape_fin type first rest color strokeWidth
        { minX := .fin mnx, minY := .fin mny, maxX := .fin mxx, maxY := .fin mxy } .bottomLeft c
        mxx mny (mxx - mnx) (mxy - mny) rfl (JSNum.sub_fin _ _) (JSNum.sub_fin _ _) hw hh,
      computeBoundingBox_shape_fin]
    have e1 := map_fst_scaled rest (fun v => mxx + (v - mxx) * (|c.1 - mxx| / (mxx - mnx)))
      (fun v => mny + (v - mny) * (|c.2 - mny| / (mxy - mny)))
    have e2 := map_snd_scaled rest (fun v => mxx + (v - mxx) * (|c.1 - mxx| / (mxx - mnx)))
      (fun v => mny + (v - mny) * (|c.2 - mny| / (mxy - mny)))
    beta_reduce at e1 e2
    rw [e1, e2, scaled_min_map _ _ _ _ (hsx _), scaled_max_map _ _ _ _ (hsx _),
      scaled_min_map _ _ _ _ (hsy _), scaled_max_map _ _ _ _ (hsy _), ← hmnx, ← hmny, ← hmxx, ← hmxy]
    simp only [resizedBox, Point.ofRat, JSNum.sub_fin, JSNum.add_fin, JSNum.abs_fin,
      Option.some.injEq, BBox.mk.injEq, JSNum.fin.injEq]
    refine ⟨?_, ?_, ?_, ?_⟩ <;> first | (field_simp; ring) | field_simp
  · rw [scaleElement_shape_fin type first rest color strokeWidth
        { minX := .fin mnx, minY := .fin mny, maxX := .fin mxx, maxY := .fin mxy } .bottomRight c
        mnx mny (mxx - mnx) (mxy - mny) rfl (JSNum.sub_fin _ _) (JSNum.sub_fin _ _) hw hh,
      computeBoundingBox_shape_fin]
    have e1 := map_fst_scaled rest (fun v => mnx + (v - mnx) * (|c.1 - mnx| / (mxx - mnx)))
      (fun v => mny + (v - mny) * (|c.2 - mny| / (mxy - mny)))
    have e2 := map_snd_scaled rest (fun v => mnx + (v - mnx) * (|c.1 - mnx| / (mxx - mnx)))
      (fun v => mny + (v - mny) * (|c.2 - mny| / (mxy - mny)))
    beta_reduce at e1 e2
    rw [e1, e2, scaled_min_map _ _ _ _ (hsx _), scaled_max_map _ _ _ _ (hsx _),
      scaled_min_map _ _ _ _ (hsy _), scaled_max_map _ _ _ _ (hsy _), ← hmnx, ← hmny, ← hmxx, ← hmxy]
    simp only [resizedBox, Point.ofRat, JSNum.sub_fin, JSNum.add_fin, JSNum.abs_fin,
      Option.some.injEq, BBox.mk.injEq, JSNum.fin.injEq]
    refine ⟨?_, ?_, ?_, ?_⟩ <;> field_simp

/-- Scaling about `f` by a factor that is not negative carries the lesser of two
values to the lesser of their images. -/
theorem scaled_min2 (a b f s : ℚ) (hs : 0 ≤ s) :
    min (f + (a - f) * s) (f + (b - f) * s) = f + (min a b - f) * s :=
  scaled_min_map [b] a f s hs

/-- Scaling about `f` by a factor that is not negative carries the greater of two
values to the greater of their images. -/
theorem scaled_max2 (a b f s : ℚ) (hs : 0 ≤ s) :
    max (f + (a - f) * s) (f + (b - f) * s) = f + (max a b - f) * s :=
  scaled_max_map [b] a f s hs

/-- The bounding box of a scaled point list with finite coordinates whose box has
non-zero width and height. -/
theorem scaleElement_shape_box (type : ShapeKind) (first : ℚ × ℚ) (rest : List (ℚ × ℚ))
    (color : String) (strokeWidth : JSNum) (b : BBox) (handle : Handle) (c : ℚ × ℚ)
    (hb : computeBoundingBox
      (.shape type (Point.ofRat first) (rest.map Point.ofRat) color strokeWidth) = some b)
    (hw : b.maxX.sub b.minX ≠ 0) (hh : b.maxY.sub b.minY ≠ 0) :
    computeBoundingBox (scaleElement
        (.shape type (Point.ofRat first) (rest.map Point.ofRat) color strokeWidth)
        b handle (Point.ofRat c)) = some (resizedBox b handle (Point.ofRat c)) := by
  rw [computeBoundingBox_shape_fin] at hb
  have hb2 := (Option.some.inj hb).symm
  subst hb2
  simp only [JSNum.sub_fin, JSNum.ofNat_eq_fin, ne_eq, JSNum.fin.injEq, Nat.cast_zero] at hw hh
  exact scaleElement_shape_box_aux type first rest color strokeWidth handle c _ _ _ _
    rfl rfl rfl rfl hw hh

/-- The bounding box of a scaled line or arrow with finite endpoints whose box has
non-zero width and height. -/
theorem scaleElement_segment_box (type : LineKind) (x1 y1 x2 y2 : ℚ)
    (color : String) (strokeWidth : JSNum) (b : BBox) (handle : Handle) (c : ℚ × ℚ)
    (hb : computeBoundingBox
      (.segment type (.fin x1) (.fin y1) (.fin x2) (.fin y2) color strokeWidth) = some b)
    (hw : b.maxX.sub b.minX ≠ 0) (hh : b.maxY.sub b.minY ≠ 0) :
    computeBoundingBox (scaleElement
        (.segment type (.fin x1) (.fin y1) (.fin x2) (.fin y2) color strokeWidth)
        b handle (Point.ofRat c)) = some (resizedBox b handle (Point.ofRat c)) := by
  rw [computeBoundingBox_segment_fin] at hb
  have hb2 := (Option.some.inj hb).symm
  subst hb2
  simp only [JSNum.sub_fin, JSNum.ofNat_eq_fin, ne_eq, JSNum.fin.injEq, Nat.cast_zero] at hw hh
  have hwpos : 0 < max x1 x2 - min x1 x2 :=
    lt_of_le_of_ne (sub_nonneg.mpr min_le_max) (Ne.symm hw)
  have hhpos : 0 < max y1 y2 - min y1 y2 :=
    lt_of_le_of_ne (sub_nonneg.mpr min_le_max) (Ne.symm hh)
  have sx : ∀ v : ℚ, 0 ≤ |v| / (max x1 x2 - min x1 x2) :=
    fun v => div_nonneg (abs_nonneg _) hwpos.le
  have sy : ∀ v : ℚ, 0 ≤ |v| / (max y1 y2 - min y1 y2) :=
    fun v => div_nonneg (abs_nonneg _) hhpos.le
  cases handle
  · rw [scaleElement_segment_fin type x1 y1 x2 y2 color strokeWidth
      { minX := .fin (min x1 x2), minY := .fin (min y1 y2), maxX := .fin (max x1 x2),
        maxY := .fin (max y1 y2) } .topLeft c
      (max x1 x2) (max y1 y2) _ _ rfl (JSNum.sub_fin _ _) (JSNum.sub_fin _ _) hw hh,
      computeBoundingBox_segment_fin, scaled_min2 _ _ _ _ (sx _), scaled_max2 _ _ _ _ (sx _),
      scaled_min2 _ _ _ _ (sy _), scaled_max2 _ _ _ _ (sy _)]
    simp only [resizedBox, Point.ofRat, JSNum.sub_fin, JSNum.add_fin, JSNum.abs_fin,
      Option.some.injEq, BBox.mk.injEq, JSNum.fin.injEq]
    refine ⟨?_, ?_, ?_, ?_⟩ <;> first | (field_simp; ring) | field_simp
  · rw [scaleElement_segment_fin type x1 y1 x2 y2 color strokeWidth
      { minX := .fin (min x1 x2), minY := .fin (min y1 y2), maxX := .fin (max x1 x2),
        maxY := .fin (max y1 y2) } .topRight c
      (min x1 x2) (max y1 y2) _ _ rfl (JSNum.sub_fin _ _) (JSNum.sub_fin _ _) hw hh,
      computeBoundingBox_segment_fin, scaled_min2 _ _ _ _ (sx _), scaled_max2 _ _ _ _ (sx _),
      scaled_min2 _ _ _ _ (sy _), scaled_max2 _ _ _ _ (sy _)]
    simp only [resizedBox, Point.ofRat, JSNum.sub_fin, JSNum.add_fin, JSNum.abs_fin,
      Option.some.injEq, BBox.mk.injEq, JSNum.fin.injEq]
    refine ⟨?_, ?_, ?_, ?_⟩ <;> first | (field_simp; ring) | field_simp
  · rw [scaleElement_segment_fin type x1 y1 x2 y2 color strokeWidth
      { minX := .fin (min x1 x2), minY := .fin (min y1 y2), maxX := .fin (max x1 x2),
        maxY := .fin (max y1 y2) } .bottomLeft c
      (max x1 x2) (min y1 y2) _ _ rfl (JSNum.sub_fin _ _) (JSNum.sub_fin _ _) hw hh,
      computeBoundingBox_segment_fin, scaled_min2 _ _ _ _ (sx _), scaled_max2 _ _ _ _ (sx _),
      scaled_min2 _ _ _ _ (sy _), scaled_max2 _ _ _ _ (sy _)]
    simp only [resizedBox, Point.ofRat, JSNum.sub_fin, JSNum.add_fin, JSNum.abs_fin,
      Option.some.injEq, BBox.mk.injEq, JSNum.fin.injEq]
    refine ⟨?_, ?_, ?_, ?_⟩ <;> first | (field_simp; ring) | field_simp
  · rw [scaleElement_segment_fin type x1 y1 x2 y2 color strokeWidth
      { minX := .fin (min x1 x2), minY := .fin (min y1 y2), maxX := .fin (max x1 x2),
        maxY := .fin (max y1 y2) } .bottomRight c
      (min x1 x2) (min y1 y2) _ _ rfl (JSNum.sub_fin _ _) (JSNum.sub_fin _ _) hw hh,
      computeBoundingBox_segment_fin, scaled_min2 _ _ _ _ (sx _), scaled_max2 _ _ _ _ (sx _),
      scaled_min2 _ _ _ _ (sy _), scaled_max2 _ _ _ _ (sy _)]
    simp only [resizedBox, Point.ofRat, JSNum.sub_fin, JSNum.add_fin, JSNum.abs_fin,
      Option.some.injEq, BBox.mk.injEq, JSNum.fin.injEq]
    refine ⟨?_, ?_, ?_, ?_⟩ <;> field_simp

/-- The box `resizedBox` of a box with finite sides `mnx ≤ mxx`, `mny ≤ mxy` at a
finite corner: its width and height are the distances of the corner from the
anchor, the anchor is its corner opposite the handle, and its handle corner is the
new corner when the new corner lies on the side of the handle. -/
theorem resizedBox_fin (mnx mny mxx mxy : ℚ) (handle : Handle) (c : ℚ × ℚ) :
    (resizedBox { minX := .fin mnx, minY := .fin mny, maxX := .fin mxx, maxY := .fin mxy }
        handle (Point.ofRat c)).maxX.sub
      (resizedBox { minX := .fin mnx, minY := .fin mny, maxX := .fin mxx, maxY := .fin mxy }
        handle (Point.ofRat c)).minX =
      ((Point.ofRat c).x.sub (fixedCornerOf
        { minX := .fin mnx, minY := .fin mny, maxX := .fin mxx, maxY := .fin mxy } handle).x).abs ∧
    (resizedBox { minX := .fin mnx, minY := .fin mny, maxX := .fin mxx, maxY := .fin mxy }
        handle (Point.ofRat c)).maxY.sub
      (resizedBox { minX := .fin mnx, minY := .fin mny, maxX := .fin mxx, maxY := .fin mxy }
        handle (Point.ofRat c)).minY =
      ((Point.ofRat c).y.sub (fixedCornerOf
        { minX := .fin mnx, minY := .fin mny, maxX := .fin mxx, maxY := .fin mxy } handle).y).abs ∧
    fixedCornerOf
        (resizedBox { minX := .fin mnx, minY := .fin mny, maxX := .fin mxx, maxY := .fin mxy }
          handle (Point.ofRat c)) handle =
      fixedCornerOf { minX := .fin mnx, minY := .fin mny, maxX := .fin mxx, maxY := .fin mxy }
        handle ∧
    (sameSide handle (fixedCornerOf
        { minX := .fin mnx, minY := .fin mny, maxX := .fin mxx, maxY := .fin mxy } handle)
        (Point.ofRat c) = true →
      handleCornerOf
        (resizedBox { minX := .fin mnx, minY := .fin mny, maxX := .fin mxx, maxY := .fin mxy }
          handle (Point.ofRat c)) handle = Point.ofRat c) := by
  cases handle <;>
    simp only [resizedBox, fixedCornerOf, handleCornerOf, sameSide, Point.ofRat, JSNum.sub_fin,
      JSNum.add_fin, JSNum.abs_fin, JSNum.le_fin, JSNum.ge_fin, JSNum.fin.injEq,
      Bool.and_eq_true, decide_eq_true_eq, Point.mk.injEq, true_and, and_true] <;>
    refine ⟨by ring, by ring, ?_⟩ <;>
    rintro ⟨h1, h2⟩
  · rw [abs_of_nonpos (sub_nonpos.mpr h1), abs_of_nonpos (sub_nonpos.mpr h2)]
    constructor <;> ring
  · rw [abs_of_nonneg (sub_nonneg.mpr h1), abs_of_nonpos (sub_nonpos.mpr h2)]
    constructor <;> ring
  · rw [abs_of_nonpos (sub_nonpos.mpr h1), abs_of_nonneg (sub_nonneg.mpr h2)]
    constructor <;> ring
  · rw [abs_of_nonneg (sub_nonneg.mpr h1), abs_of_nonneg (sub_nonneg.mpr h2)]
    constructor <;> ring

/-- The bounding box of a scaled point list, line or arrow with finite coordinates
whose box has non-zero width and height. -/
theorem scaleElement_box (e : Element) (b : BBox) (handle : Handle) (c : ℚ × ℚ)
    (hkind : e.isPointListOrSegment = true) (hfin : e.isFinite = true)
    (hb : computeBoundingBox e = some b)
    (hw : b.maxX.sub b.minX ≠ 0) (hh : b.maxY.sub b.minY ≠ 0) :
    computeBoundingBox (scaleElement e b handle (Point.ofRat c)) =
        some (resizedBox b handle (Point.ofRat c)) ∧
      ∃ mnx mny mxx mxy : ℚ,
        b = { minX := .fin mnx, minY := .fin mny, maxX := .fin mxx, maxY := .fin mxy } := by
  cases e with
  | shape type first rest color strokeWidth =>
    simp only [Element.isFinite, Bool.and_eq_true] at hfin
    obtain ⟨q, rfl⟩ := Point.exists_ofRat first hfin.1
    obtain ⟨qs, rfl⟩ := exists_map_ofRat rest hfin.2
    refine ⟨scaleElement_shape_box type q qs color strokeWidth b handle c hb hw hh, ?_⟩
    rw [computeBoundingBox_shape_fin] at hb
    exact ⟨_, _, _, _, (Option.some.inj hb).symm⟩
  | segment type x1 y1 x2 y2 color strokeWidth =>
    simp only [Element.isFinite, Bool.and_eq_true] at hfin
    obtain ⟨a1, rfl⟩ := JSNum.exists_fin x1 hfin.1.1.1
    obtain ⟨b1, rfl⟩ := JSNum.exists_fin y1 hfin.1.1.2
    obtain ⟨a2, rfl⟩ := JSNum.exists_fin x2 hfin.1.2
    obtain ⟨b2, rfl⟩ := JSNum.exists_fin y2 hfin.2
    refine ⟨scaleElement_segment_box type a1 b1 a2 b2 color strokeWidth b handle c hb hw hh, ?_⟩
    rw [computeBoundingBox_segment_fin] at hb
    exact ⟨_, _, _, _, (Option.some.inj hb).symm⟩
  | text x y text color fontSize => simp [Element.isPointListOrSegment] at hkind
  | other type => simp [Element.isPointListOrSegment] at hkind

/-- The function `scaleElement` keeps the `type`, the number of points, the `color`
and the `strokeWidth` of every element. -/
theorem scaleElement_attributes (e : Element) (b : BBox) (handle : Handle) (c : Point) :
    (scaleElement e b handle c).type = e.type ∧
    (scaleElement e b handle c).pointCount = e.pointCount ∧
    (scaleElement e b handle c).color? = e.color? ∧
    (scaleElement e b handle c).strokeWidth? = e.strokeWidth? := by
  cases e with
  | shape type first rest color strokeWidth =>
    cases type <;>
      simp [scaleElement, Element.type, Element.pointCount, Element.color?, Element.strokeWidth?]
  | segment type x1 y1 x2 y2 color strokeWidth =>
    cases type <;>
      simp [scaleElement, Element.type, Element.pointCount, Element.color?, Element.strokeWidth?]
  | text x y text color fontSize =>
    simp [scaleElement, Element.type, Element.pointCount, Element.color?, Element.strokeWidth?]
  | other type =>
    simp [scaleElement, Element.type, Element.pointCount, Element.color?, Element.strokeWidth?]

/-- C25. Scaled size follows the pointer: for a point list, line or arrow `e` with
finite coordinates whose bounding box `b` has non-zero width and height, every
handle and every finite new corner `c`, the scaled element has a bounding box `b2`
whose width is `|c.x - anchor.x|` and whose height is `|c.y - anchor.y|`, the
anchor being the corner of `b` opposite the handle; the anchor is still the corner
of `b2` opposite the handle (the element does not flip across it); when `c` lies on
the side of the anchor where the handle corner was, the handle corner of `b2` is
`c`; and the `type`, the number of points, the `color` and the `strokeWidth` of the
element are unchanged. -/
theorem scaled_size_follows_pointer (e : Element) (b : BBox) (handle : Handle) (c : Point)
    (hkind : e.isPointListOrSegment = true)
    (hfin : e.isFinite = true) (hc : c.isFinite = true)
    (hb : computeBoundingBox e = some b)
    (hw : b.maxX.sub b.minX ≠ 0) (hh : b.maxY.sub b.minY ≠ 0) :
    ∃ b2, computeBoundingBox (scaleElement e b handle c) = some b2 ∧
      b2.maxX.sub b2.minX = (c.x.sub (fixedCornerOf b handle).x).abs ∧
      b2.maxY.sub b2.minY = (c.y.sub (fixedCornerOf b handle).y).abs ∧
      fixedCornerOf b2 handle = fixedCornerOf b handle ∧
      (sameSide handle (fixedCornerOf b handle) c = true → handleCornerOf b2 handle = c) ∧
      (scaleElement e b handle c).type = e.type ∧
      (scaleElement e b handle c).pointCount = e.pointCount ∧
      (scaleElement e b handle c).color? = e.color? ∧
      (scaleElement e b handle c).strokeWidth? = e.strokeWidth? := by
  obtain ⟨cq, rfl⟩ := Point.exists_ofRat c hc
  obtain ⟨hbox, mnx, mny, mxx, mxy, rfl⟩ := scaleElement_box e b handle cq hkind hfin hb hw hh
  obtain ⟨h1, h2, h3, h4⟩ := resizedBox_fin mnx mny mxx mxy handle cq
  exact ⟨_, hbox, h1, h2, h3, h4, scaleElement_attributes e _ handle _⟩

/-- Witness of C25: the line from (10,10) to (100,100), its bottom-right handle
dragged to (190,55); the new box reaches from the anchor (10,10) to (190,55). -/
theorem scaled_size_follows_pointer_witness :
    ∃ b2, computeBoundingBox (scaleElement exampleLine
        { minX := .fin 10, minY := .fin 10, maxX := .fin 100, maxY := .fin 100 }
        .bottomRight { x := .fin 190, y := .fin 55 }) = some b2 ∧
      b2.maxX.sub b2.minX = ((JSNum.fin 190).sub (.fin 10)).abs ∧
      b2.maxY.sub b2.minY = ((JSNum.fin 55).sub (.fin 10)).abs ∧
      fixedCornerOf b2 .bottomRight = { x := .fin 10, y := .fin 10 } ∧
      (sameSide .bottomRight { x := .fin 10, y := .fin 10 } { x := .fin 190, y := .fin 55 } = true →
        handleCornerOf b2 .bottomRight = { x := .fin 190, y := .fin 55 }) ∧
      (scaleElement exampleLine
        { minX := .fin 10, minY := .fin 10, maxX := .fin 100, maxY := .fin 100 }
        .bottomRight { x := .fin 190, y := .fin 55 }).type = "line" ∧
      (scaleElement exampleLine
        { minX := .fin 10, minY := .fin 10, maxX := .fin 100, maxY := .fin 100 }
        .bottomRight { x := .fin 190, y := .fin 55 }).pointCount = 0 ∧
      (scaleElement exampleLine
        { minX := .fin 10, minY := .fin 10, maxX := .fin 100, maxY := .fin 100 }
        .bottomRight { x := .fin 190, y := .fin 55 }).color? = some "#000000" ∧
      (scaleElement exampleLine
        { minX := .fin 10, minY := .fin 10, maxX := .fin 100, maxY := .fin 100 }
        .bottomRight { x := .fin 190, y := .fin 55 }).strokeWidth? = some 2 :=
  scaled_size_follows_pointer exampleLine
    { minX := .fin 10, minY := .fin 10, maxX := .fin 100, maxY := .fin 100 }
    .bottomRight { x := .fin 190, y := .fin 55 } rfl rfl rfl
    (by
      have h := computeBoundingBox_segment_fin .line 10 10 100 100 "#000000" 2
      norm_num at h
      simpa [exampleLine] using h)
    (by simp only [JSNum.sub_fin, JSNum.ofNat_eq_fin, ne_eq, JSNum.fin.injEq]; norm_num)
    (by simp only [JSNum.sub_fin, JSNum.ofNat_eq_fin, ne_eq, JSNum.fin.injEq]; norm_num)

/-! ## Element objects shared between the scene and the history -/

/-- The padded box of the line from (10,10) to (100,100) contains (55,55), and the
padded box of the rectangle from (200,200) to (240,230) painted above it does not. -/
theorem hit_exampleLine_under_rectangle :
    getElementAtPosition [exampleLine, exampleFarRectangle] 55 55 = some 0 := by
  simp only [getElementAtPosition, getElementAtPosition.loop, exampleLine, exampleFarRectangle,
    hitElement, List.length_cons, List.length_nil, List.getElem?_cons_zero,
    List.getElem?_cons_succ, List.map_cons, List.map_nil, JSNum.mathMin_pair,
    JSNum.mathMax_pair, tolerance, inBounds, JSNum.ofNat_eq_fin, JSNum.min2_fin, JSNum.max2_fin,
    JSNum.sub_fin, JSNum.add_fin, JSNum.ge_fin, JSNum.le_fin]
  norm_num

/-- The state of the controller with objects by reference after the line has been
drawn: the one object is the entry of `elements` and of `history.present`. -/
theorem byRef_run_draw_line :
    ByRef.run ByRef.State.initial
        [.setTool .line, .pointerDown 10 10, .pointerMove 100 100, .pointerUp] =
      { ByRef.State.initial with
        heap := [exampleLine], tool := .line, elements := [0],
        history := { past := [[]], present := [0], future := [] } } := rfl

/-- The state after the pointer has then been pressed on the line under the select
tool: the line is selected and the drag has begun. -/
theorem byRef_run_exampleGrabEvents :
    ByRef.run ByRef.State.initial exampleGrabEvents =
      { ByRef.State.initial with
        heap := [exampleLine], tool := .select, elements := [0],
        history := { past := [[]], present := [0], future := [] },
        selectedIndex := some 0, dragStart := { x := 55, y := 55 }, isDragging := true } := by
  have h : exampleGrabEvents =
      [.setTool .line, .pointerDown 10 10, .pointerMove 100 100, .pointerUp] ++
        [.setTool .select, .pointerDown 55 55] := rfl
  rw [h, ByRef.run, List.foldl_append]
  have h2 := byRef_run_draw_line
  rw [ByRef.run] at h2
  rw [h2]
  simp only [List.foldl, ByRef.step, ByRef.handleCanvasMouseDown, checkForResizeHandle,
    ByRef.State.view, ByRef.selectElement, ByRef.State.initial, ByRef.deref, ByRef.load,
    List.map_cons, List.map_nil, List.getD_cons_zero, hit_exampleLine_55]

/-- The state after the pointer has then moved to (65,75): the write of the drag
went to the object at address 0, which `history.present` holds, and `elements`
holds the address of the copy. -/
theorem byRef_step_exampleGrabEvents :
    ByRef.step (ByRef.run ByRef.State.initial exampleGrabEvents) (.pointerMove 65 75) =
      { ByRef.State.initial with
        heap := [exampleMovedLine, exampleMovedLine], tool := .select, elements := [1],
        history := { past := [[]], present := [0], future := [] },
        selectedIndex := some 0, dragStart := { x := 65, y := 75 }, isDragging := true } := by
  rw [byRef_run_exampleGrabEvents]
  simp only [ByRef.step, ByRef.handleCanvasMouseMove, ByRef.handleSelectMove,
    ByRef.updateElementPosition, ByRef.State.initial, ByRef.load, translateElement, exampleLine,
    exampleMovedLine, JSNum.ofNat_eq_fin, JSNum.sub_fin, JSNum.add_fin]
  norm_num

/-- C21, the failing input. In the controller with element objects by reference,
after the line from (10,10) to (100,100) has been drawn and grabbed at (55,55)
under the select tool, `history.present` holds the line; the pointer-move to
(65,75) leaves the arrays of `history` as they are and yet `history.present` then
holds the line from (20,30) to (110,120): the move wrote into the object that the
snapshot shares with the scene, so the history a reader sees has changed without
a commit, an undo, a redo or a clear. -/
theorem pointerMove_changes_history :
    (ByRef.run ByRef.State.initial exampleGrabEvents).view.history =
      { past := [[]], present := [exampleLine], future := [] } ∧
    (ByRef.step (ByRef.run ByRef.State.initial exampleGrabEvents)
        (.pointerMove 65 75)).history =
      (ByRef.run ByRef.State.initial exampleGrabEvents).history ∧
    (ByRef.step (ByRef.run ByRef.State.initial exampleGrabEvents)
        (.pointerMove 65 75)).view.history =
      { past := [[]], present := [exampleMovedLine], future := [] } ∧
    (ByRef.step (ByRef.run ByRef.State.initial exampleGrabEvents)
        (.pointerMove 65 75)).view.history ≠
      (ByRef.run ByRef.State.initial exampleGrabEvents).view.history := by
  rw [byRef_step_exampleGrabEvents, byRef_run_exampleGrabEvents]
  refine ⟨rfl, rfl, rfl, ?_⟩
  simp only [ByRef.State.view, ByRef.State.initial, ByRef.deref, ByRef.load, List.map_cons,
    List.map_nil, List.getD_cons_zero, exampleLine, exampleMovedLine, JSNum.ofNat_eq_fin]
  intro h
  have h1 := congrArg History.present h
  simp only [List.cons.injEq, Element.segment.injEq, JSNum.fin.injEq, and_true, true_and] at h1
  norm_num at h1

/-- The state after the three elements have been drawn and the last of them has
been undone: the object of the first line is an entry of `elements`, of a snapshot
of `history.past`, of `history.present` and of the snapshot of `history.future`. -/
theorem byRef_run_draw_three_undo :
    ByRef.run ByRef.State.initial
        [.setTool .line, .pointerDown 10 10, .pointerMove 100 100, .pointerUp,
         .setTool .rectangle, .pointerDown 200 200, .pointerMove 240 230, .pointerUp,
         .setTool .line, .pointerDown 300 300, .pointerMove 400 400, .pointerUp, .undo] =
      { ByRef.State.initial with
        heap := [exampleLine, exampleFarRectangle, exampleFarLine], tool := .line,
        elements := [0, 1],
        history := { past := [[], [0]], present := [0, 1], future := [[0, 1, 2]] } } := rfl

/-- The state after the pointer has then been pressed on the first line under the
select tool. -/
theorem byRef_run_exampleDragEvents :
    ByRef.run ByRef.State.initial exampleDragEvents =
      { ByRef.State.initial with
        heap := [exampleLine, exampleFarRectangle, exampleFarLine], tool := .select,
        elements := [0, 1],
        history := { past := [[], [0]], present := [0, 1], future := [[0, 1, 2]] },
        selectedIndex := some 0, dragStart := { x := 55, y := 55 }, isDragging := true } := by
  have h : exampleDragEvents =
      [.setTool .line, .pointerDown 10 10, .pointerMove 100 100, .pointerUp,
       .setTool .rectangle, .pointerDown 200 200, .pointerMove 240 230, .pointerUp,
       .setTool .line, .pointerDown 300 300, .pointerMove 400 400, .pointerUp, .undo] ++
        [.setTool .select, .pointerDown 55 55] := rfl
  rw [h, ByRef.run, List.foldl_append]
  have h2 := byRef_run_draw_three_undo
  rw [ByRef.run] at h2
  rw [h2]
  simp only [List.foldl, ByRef.step, ByRef.handleCanvasMouseDown, checkForResizeHandle,
    ByRef.State.view, ByRef.selectElement, ByRef.State.initial, ByRef.deref, ByRef.load,
    List.map_cons, List.map_nil, List.getD_cons_zero, List.getD_cons_succ,
    hit_exampleLine_under_rectangle]

/-- The state after the pointer has then moved to (65,75): the drag of element 0 by
(10,20) wrote into the object at address 0. -/
theorem byRef_step_exampleDragEvents :
    ByRef.step (ByRef.run ByRef.State.initial exampleDragEvents) (.pointerMove 65 75) =
      { ByRef.State.initial with
        heap := [exampleMovedLine, exampleFarRectangle, exampleFarLine, exampleMovedLine],
        tool := .select, elements := [3, 1],
        history := { past := [[], [0]], present := [0, 1], future := [[0, 1, 2]] },
        selectedIndex := some 0, dragStart := { x := 65, y := 75 }, isDragging := true } := by
  rw [byRef_run_exampleDragEvents]
  simp only [ByRef.step, ByRef.handleCanvasMouseMove, ByRef.handleSelectMove,
    ByRef.updateElementPosition, ByRef.State.initial, ByRef.load, translateElement, exampleLine,
    exampleMovedLine, JSNum.ofNat_eq_fin, JSNum.sub_fin, JSNum.add_fin]
  norm_num

/-- C23, the failing input. In the controller with element objects by reference,
after a line, a rectangle and a second line have been drawn, the second line
undone, and the first line grabbed at (55,55) under the select tool, the snapshots
of `history` hold the line from (10,10) to (100,100) in `past`, in `present` and in
`future`. The drag-move of element 0 by (10,20) to (65,75) puts the moved copy in
`elements`, and every one of these snapshots then holds the line from (20,30) to
(110,120): `updateElementPosition` wrote into the object the snapshots share with
the scene before it copied it. An undo after the move restores the moved line. -/
theorem drag_move_changes_snapshots :
    (ByRef.run ByRef.State.initial exampleDragEvents).view.history =
      { past := [[], [exampleLine]],
        present := [exampleLine, exampleFarRectangle],
        future := [[exampleLine, exampleFarRectangle, exampleFarLine]] } ∧
    (ByRef.step (ByRef.run ByRef.State.initial exampleDragEvents)
        (.pointerMove 65 75)).view.elements = [exampleMovedLine, exampleFarRectangle] ∧
    (ByRef.step (ByRef.run ByRef.State.initial exampleDragEvents)
        (.pointerMove 65 75)).view.history =
      { past := [[], [exampleMovedLine]],
        present := [exampleMovedLine, exampleFarRectangle],
        future := [[exampleMovedLine, exampleFarRectangle, exampleFarLine]] } ∧
    (ByRef.run ByRef.State.initial
        (exampleDragEvents ++ [.pointerMove 65 75, .pointerUp, .undo])).view.elements =
      [exampleMovedLine] ∧
    exampleMovedLine ≠ exampleLine := by
  have h : ByRef.run ByRef.State.initial
        (exampleDragEvents ++ [.pointerMove 65 75, .pointerUp, .undo]) =
      ByRef.undo (ByRef.step (ByRef.step (ByRef.run ByRef.State.initial exampleDragEvents)
        (.pointerMove 65 75)) .pointerUp) := by
    simp only [ByRef.run, List.foldl_append, List.foldl, ByRef.step]
  rw [h, byRef_step_exampleDragEvents, byRef_run_exampleDragEvents]
  refine ⟨rfl, rfl, rfl, rfl, ?_⟩
  simp only [exampleLine, exampleMovedLine, JSNum.ofNat_eq_fin, ne_eq, Element.segment.injEq,
    JSNum.fin.injEq, and_true, true_and]
  norm_num

/-! ## The controller by reference and the controller by value -/

theorem load_append (heap l : List Element) (r : Nat) (h : r < heap.length) :
    ByRef.load (heap ++ l) r = ByRef.load heap r := by
  simp [ByRef.load, List.getD_eq_getElem?_getD, List.getElem?_append_left h]

theorem load_append_length (heap : List Element) (x : Element) :
    ByRef.load (heap ++ [x]) heap.length = x := by
  simp [ByRef.load, List.getD_eq_getElem?_getD]

theorem deref_append (heap l : List Element) (refs : ByRef.RefScene)
    (h : ∀ r ∈ refs, r < heap.length) :
    ByRef.deref (heap ++ l) refs = ByRef.deref heap refs := by
  simp only [ByRef.deref]
  exact List.map_congr_left fun r hr => load_append heap l r (h r hr)

theorem derefs_append (heap l : List Element) (rss : List ByRef.RefScene)
    (h : ∀ refs ∈ rss, ∀ r ∈ refs, r < heap.length) :
    rss.map (ByRef.deref (heap ++ l)) = rss.map (ByRef.deref heap) :=
  List.map_congr_left fun refs hrefs => deref_append heap l refs (h refs hrefs)

theorem deref_snoc (heap : List Element) (refs : ByRef.RefScene) (x : Element)
    (h : ∀ r ∈ refs, r < heap.length) :
    ByRef.deref (heap ++ [x]) (refs ++ [heap.length]) = ByRef.deref heap refs ++ [x] := by
  have h1 := deref_append heap [x] refs h
  simp only [ByRef.deref] at h1 ⊢
  rw [List.map_append, h1]
  simp [load_append_length]

/-- Every address of a well-formed state has been allocated. -/
theorem wellFormed_iff (s : ByRef.State) :
    s.wellFormed = true ↔
      (∀ r ∈ s.elements, r < s.heap.length) ∧
      (∀ refs ∈ s.history.past, ∀ r ∈ refs, r < s.heap.length) ∧
      (∀ r ∈ s.history.present, r < s.heap.length) ∧
      (∀ refs ∈ s.history.future, ∀ r ∈ refs, r < s.heap.length) := by
  simp [ByRef.State.wellFormed, List.all_eq_true, and_assoc]

theorem byRef_finalizeAction_view (refs : ByRef.RefScene) (s : ByRef.State) :
    (ByRef.finalizeAction refs s).view = finalizeAction (ByRef.deref s.heap refs) s.view := by
  simp [ByRef.finalizeAction, finalizeAction, ByRef.State.view]

theorem byRef_finalizeAction_wellFormed (refs : ByRef.RefScene) (s : ByRef.State)
    (hwf : s.wellFormed = true) (h : ∀ r ∈ refs, r < s.heap.length) :
    (ByRef.finalizeAction refs s).wellFormed = true := by
  rw [wellFormed_iff] at hwf ⊢
  obtain ⟨h1, h2, h3, h4⟩ := hwf
  refine ⟨h, ?_, h, ?_⟩
  · intro rs hrs
    simp only [ByRef.finalizeAction, List.mem_append, List.mem_singleton] at hrs
    rcases hrs with hrs | rfl
    · exact h2 rs hrs
    · exact h3
  · intro rs hrs
    simp [ByRef.finalizeAction] at hrs

/-- The function `undo` by reference shows the reader what `undo` by value computes. -/
theorem byRef_undo_view (s : ByRef.State) : (ByRef.undo s).view = undo s.view := by
  unfold ByRef.undo undo
  by_cases h : s.history.past = []
  · have h2 : s.view.history.past = [] := by simp [ByRef.State.view, h]
    simp only [h, h2, dite_true]
  · have h2 : ¬ s.view.history.past = [] := by simpa [ByRef.State.view] using h
    simp only [h, h2, dite_false]
    simp only [ByRef.State.view, List.getLast_map, List.map_dropLast, List.map_cons]

theorem byRef_undo_wellFormed (s : ByRef.State) (hwf : s.wellFormed = true) :
    (ByRef.undo s).wellFormed = true := by
  unfold ByRef.undo
  by_cases h : s.history.past = []
  · simp only [h, dite_true]; exact hwf
  · simp only [h, dite_false]
    rw [wellFormed_iff] at hwf ⊢
    obtain ⟨h1, h2, h3, h4⟩ := hwf
    refine ⟨h2 _ (List.getLast_mem h), ?_, h2 _ (List.getLast_mem h), ?_⟩
    · intro rs hrs
      exact h2 rs (List.mem_of_mem_dropLast hrs)
    · intro rs hrs
      simp only [List.mem_cons] at hrs
      rcases hrs with rfl | hrs
      · exact h3
      · exact h4 rs hrs

/-- The function `redo` by reference shows the reader what `redo` by value computes. -/
theorem byRef_redo_view (s : ByRef.State) : (ByRef.redo s).view = redo s.view := by
  unfold ByRef.redo redo
  cases hf : s.history.future with
  | nil =>
    have h2 : s.view.history.future = [] := by simp [ByRef.State.view, hf]
    simp only [hf, h2]
  | cons a l =>
    have h2 : s.view.history.future = ByRef.deref s.heap a :: l.map (ByRef.deref s.heap) := by
      simp [ByRef.State.view, hf]
    simp only [hf, h2]
    simp [ByRef.State.view, hf]

theorem byRef_redo_wellFormed (s : ByRef.State) (hwf : s.wellFormed = true) :
    (ByRef.redo s).wellFormed = true := by
  unfold ByRef.redo
  cases hf : s.history.future with
  | nil => simp only [hf]; exact hwf
  | cons a l =>
    simp only [hf]
    rw [wellFormed_iff] at hwf ⊢
    obtain ⟨h1, h2, h3, h4⟩ := hwf
    rw [hf] at h4
    refine ⟨h4 a (List.mem_cons_self _ _), ?_, h4 a (List.mem_cons_self _ _), ?_⟩
    · intro rs hrs
      simp only [List.mem_append, List.mem_singleton] at hrs
      rcases hrs with hrs | rfl
      · exact h2 rs hrs
      · exact h3
    · intro rs hrs
      exact h4 rs (List.mem_cons_of_mem _ hrs)

theorem byRef_filterIndexNe_map (f : Nat → Element) (index : Nat) (refs : ByRef.RefScene)
    (start : Nat) :
    filterIndexNe index start (refs.map f) = (ByRef.filterIndexNe index start refs).map f := by
  induction refs generalizing start with
  | nil => rfl
  | cons r rest ih =>
    simp only [List.map_cons, filterIndexNe, ByRef.filterIndexNe]
    split
    · rw [List.map_cons, ih]
    · exact ih _

theorem byRef_filterIndexNe_mem (index : Nat) (refs : ByRef.RefScene) (start r : Nat)
    (h : r ∈ ByRef.filterIndexNe index start refs) : r ∈ refs := by
  induction refs generalizing start with
  | nil => simp [ByRef.filterIndexNe] at h
  | cons a rest ih =>
    simp only [ByRef.filterIndexNe] at h
    split at h
    · rcases List.mem_cons.mp h with rfl | h
      · exact List.mem_cons_self _ _
      · exact List.mem_cons_of_mem _ (ih _ h)
    · exact List.mem_cons_of_mem _ (ih _ h)

/-- The function `handleEraser` by reference shows the reader what `handleEraser`
by value computes. -/
theorem byRef_handleEraser_view (x y : JSNum) (s : ByRef.State) :
    (ByRef.handleEraser x y s).view = handleEraser x y s.view := by
  unfold ByRef.handleEraser handleEraser
  have hv : s.view.elements = ByRef.deref s.heap s.elements := rfl
  rw [hv]
  cases getElementAtPosition (ByRef.deref s.heap s.elements) x y with
  | none => rfl
  | some index =>
    simp only [byRef_finalizeAction_view]
    rw [ByRef.deref, ← byRef_filterIndexNe_map]
    rfl

theorem byRef_handleEraser_wellFormed (x y : JSNum) (s : ByRef.State)
    (hwf : s.wellFormed = true) : (ByRef.handleEraser x y s).wellFormed = true := by
  unfold ByRef.handleEraser
  cases getElementAtPosition (ByRef.deref s.heap s.elements) x y with
  | none => exact hwf
  | some index =>
    refine byRef_finalizeAction_wellFormed _ s hwf fun r hr => ?_
    exact ((wellFormed_iff s).mp hwf).1 r (byRef_filterIndexNe_mem _ _ _ _ hr)

/-- The function `handleCanvasMouseDown` by reference shows the reader what
`handleCanvasMouseDown` by value computes. -/
theorem byRef_handleCanvasMouseDown_view (x y : JSNum) (s : ByRef.State) :
    (ByRef.handleCanvasMouseDown x y s).view = handleCanvasMouseDown x y s.view := by
  unfold ByRef.handleCanvasMouseDown handleCanvasMouseDown
  have ht : s.view.tool = s.tool := rfl
  rw [ht]
  cases htool : s.tool
  case eraser => exact byRef_handleEraser_view x y s
  case select =>
    simp only
    cases checkForResizeHandle x y s.view with
    | found data => rfl
    | typeError => rfl
    | notFound =>
      simp only [ByRef.selectElement, selectElement]
      have hv : s.view.elements = ByRef.deref s.heap s.elements := rfl
      rw [hv]
      cases getElementAtPosition (ByRef.deref s.heap s.elements) x y <;> rfl
  case text => rfl
  all_goals
    simp only [ByRef.handleMouseDown, handleMouseDown]
    have ht2 : s.view.tool = s.tool := rfl
    have hc : s.view.color = s.color := rfl
    have hs : s.view.strokeWidth = s.strokeWidth := rfl
    rw [ht2, hc, hs]
    cases newElementFor s.tool x y s.color s.strokeWidth <;> rfl

theorem byRef_handleCanvasMouseDown_wellFormed (x y : JSNum) (s : ByRef.State)
    (hwf : s.wellFormed = true) : (ByRef.handleCanvasMouseDown x y s).wellFormed = true := by
  unfold ByRef.handleCanvasMouseDown
  cases htool : s.tool
  case eraser => exact byRef_handleEraser_wellFormed x y s hwf
  case select =>
    simp only
    cases checkForResizeHandle x y s.view with
    | found data => exact hwf
    | typeError => exact hwf
    | notFound =>
      simp only [ByRef.selectElement]
      cases getElementAtPosition (ByRef.deref s.heap s.elements) x y <;> exact hwf
  case text => exact hwf
  all_goals
    simp only [ByRef.handleMouseDown]
    cases newElementFor s.tool x y s.color s.strokeWidth <;> exact hwf

/-- Allocating objects changes nothing a reader sees in the history of a
well-formed state. -/
theorem byRef_view_alloc (s : ByRef.State) (hwf : s.wellFormed = true) (l : List Element)
    (refs : ByRef.RefScene) :
    ({ s with heap := s.heap ++ l, elements := refs } : ByRef.State).view =
      { s.view with elements := ByRef.deref (s.heap ++ l) refs } := by
  obtain ⟨_, h2, h3, h4⟩ := (wellFormed_iff s).mp hwf
  simp only [ByRef.State.view, derefs_append s.heap l _ h2, deref_append s.heap l _ h3,
    derefs_append s.heap l _ h4]

theorem byRef_wellFormed_alloc (s : ByRef.State) (hwf : s.wellFormed = true) (x : Element)
    (refs : ByRef.RefScene) (h : ∀ r ∈ refs, r < s.heap.length + 1) :
    ({ s with heap := s.heap ++ [x], elements := refs } : ByRef.State).wellFormed = true := by
  rw [wellFormed_iff] at hwf ⊢
  obtain ⟨h1, h2, h3, h4⟩ := hwf
  simp only [List.length_append, List.length_singleton]
  exact ⟨h, fun rs hrs r hr => Nat.lt_succ_of_lt (h2 rs hrs r hr),
    fun r hr => Nat.lt_succ_of_lt (h3 r hr),
    fun rs hrs r hr => Nat.lt_succ_of_lt (h4 rs hrs r hr)⟩

theorem byRef_assignAt_deref (heap : List Element) (refs : ByRef.RefScene)
    (selectedIndex : Option Nat) (x : Element) (h : ∀ r ∈ refs, r < heap.length) :
    ByRef.deref (heap ++ [x]) (ByRef.assignAt refs selectedIndex heap.length) =
      assignAt (ByRef.deref heap refs) selectedIndex x := by
  have hlen : (ByRef.deref heap refs).length = refs.length := by simp [ByRef.deref]
  cases selectedIndex with
  | none => exact deref_append heap [x] refs h
  | some i =>
    simp only [ByRef.assignAt, assignAt, hlen]
    split
    · rw [← deref_append heap [x] refs h]
      simp only [ByRef.deref, List.map_set, load_append_length]
    · split
      · exact deref_snoc heap refs x h
      · exact deref_append heap [x] refs h

theorem byRef_assignAt_mem (refs : ByRef.RefScene) (selectedIndex : Option Nat) (n r : Nat)
    (h : r ∈ ByRef.assignAt refs selectedIndex n) : r ∈ refs ∨ r = n := by
  cases selectedIndex with
  | none => exact Or.inl h
  | some i =>
    simp only [ByRef.assignAt] at h
    split at h
    · rcases List.mem_or_eq_of_mem_set h with h | h
      · exact Or.inl h
      · exact Or.inr h
    · split at h
      · rcases List.mem_append.mp h with h | h
        · exact Or.inl h
        · exact Or.inr (List.mem_singleton.mp h)
      · exact Or.inl h

/-- The function `handleMouseMove` by reference shows the reader of a well-formed
state what `handleMouseMove` by value computes. -/
theorem byRef_handleMouseMove_view (x y : JSNum) (s : ByRef.State)
    (hwf : s.wellFormed = true) :
    (ByRef.handleMouseMove x y s).view = handleMouseMove x y s.view ∧
      (ByRef.handleMouseMove x y s).wellFormed = true := by
  unfold ByRef.handleMouseMove handleMouseMove
  have hr : s.view.resizeData = s.resizeData := rfl
  have hd : s.view.isDrawing = s.isDrawing := rfl
  have ht : s.view.tool = s.tool := rfl
  have hc : s.view.currentElement = s.currentElement := rfl
  have hsel : s.view.selectedIndex = s.selectedIndex := rfl
  have he : s.view.elements = ByRef.deref s.heap s.elements := rfl
  rw [hr, hd, ht, hc, hsel, he]
  have h1 := ((wellFormed_iff s).mp hwf).1
  split
  · split
    · refine ⟨?_, ?_⟩
      · rw [byRef_view_alloc s hwf, byRef_assignAt_deref _ _ _ _ h1]
        rfl
      · refine byRef_wellFormed_alloc s hwf _ _ fun r hr => ?_
        rcases byRef_assignAt_mem _ _ _ _ hr with h | h
        · exact Nat.lt_succ_of_lt (h1 r h)
        · rw [h]; exact Nat.lt_succ_self _
    · exact ⟨rfl, hwf⟩
  · repeat' (first | exact ⟨rfl, hwf⟩ | split)

/-- Appending a new object to the scene and committing: what the reader of a
well-formed state sees, and that the state stays well-formed. -/
theorem byRef_commit_alloc (s : ByRef.State) (hwf : s.wellFormed = true) (x : Element) :
    ({ (ByRef.finalizeAction (s.elements ++ [s.heap.length]) s) with
        heap := s.heap ++ [x] } : ByRef.State).view =
      finalizeAction (s.view.elements ++ [x]) s.view ∧
    ({ (ByRef.finalizeAction (s.elements ++ [s.heap.length]) s) with
        heap := s.heap ++ [x] } : ByRef.State).wellFormed = true := by
  obtain ⟨h1, h2, h3, h4⟩ := (wellFormed_iff s).mp hwf
  constructor
  · simp only [ByRef.State.view, ByRef.finalizeAction, finalizeAction, List.map_append,
      List.map_cons, List.map_nil, derefs_append s.heap [x] _ h2, deref_append s.heap [x] _ h3,
      deref_snoc s.heap _ x h1]
  · rw [wellFormed_iff]
    simp only [ByRef.finalizeAction, List.length_append, List.length_singleton]
    have hs : ∀ r ∈ s.elements ++ [s.heap.length], r < s.heap.length + 1 := by
      intro r hr
      rcases List.mem_append.mp hr with h | h
      · exact Nat.lt_succ_of_lt (h1 r h)
      · rw [List.mem_singleton.mp h]; exact Nat.lt_succ_self _
    refine ⟨hs, ?_, hs, ?_⟩
    · intro rs hrs r hr
      rcases List.mem_append.mp hrs with h | h
      · exact Nat.lt_succ_of_lt (h2 rs h r hr)
      · rw [List.mem_singleton.mp h] at hr
        exact Nat.lt_succ_of_lt (h3 r hr)
    · intro rs hrs
      simp at hrs

/-- The function `handleMouseUp` by reference shows the reader of a well-formed
state what `handleMouseUp` by value computes. -/
theorem byRef_handleMouseUp_view (s : ByRef.State) (hwf : s.wellFormed = true) :
    (ByRef.handleMouseUp s).view = handleMouseUp s.view ∧
      (ByRef.handleMouseUp s).wellFormed = true := by
  unfold ByRef.handleMouseUp handleMouseUp
  have hr : s.view.resizeData = s.resizeData := rfl
  have hd : s.view.isDrawing = s.isDrawing := rfl
  have ht : s.view.tool = s.tool := rfl
  have hc : s.view.currentElement = s.currentElement := rfl
  rw [hr, hd, ht, hc]
  have h1 := ((wellFormed_iff s).mp hwf).1
  split
  · constructor
    · have h := byRef_finalizeAction_view s.elements s
      have e : ({ (ByRef.finalizeAction s.elements s) with
          resizeData := ResizeData.idle } : ByRef.State).view =
          { (ByRef.finalizeAction s.elements s).view with resizeData := ResizeData.idle } := rfl
      rw [e, h]
      rfl
    · exact byRef_finalizeAction_wellFormed _ s hwf h1
  · split
    · exact ⟨rfl, hwf⟩
    · split
      · cases hcur : s.currentElement with
        | none =>
          constructor
          · have h := byRef_finalizeAction_view s.elements s
            have e : ({ (ByRef.finalizeAction s.elements s) with
                currentElement := none, isDrawing := false } : ByRef.State).view =
                { (ByRef.finalizeAction s.elements s).view with
                  currentElement := none, isDrawing := false } := rfl
            simp only [Option.toList, List.append_nil]
            rw [e, h]
            rfl
          · exact byRef_finalizeAction_wellFormed _ s hwf h1
        | some el =>
          obtain ⟨hv, hw⟩ := byRef_commit_alloc s hwf el
          constructor
          · have e : ({ (ByRef.finalizeAction (s.elements ++ [s.heap.length]) s) with
                heap := s.heap ++ [el], currentElement := none,
                isDrawing := false } : ByRef.State).view =
                { ({ (ByRef.finalizeAction (s.elements ++ [s.heap.length]) s) with
                    heap := s.heap ++ [el] } : ByRef.State).view with
                  currentElement := none, isDrawing := false } := rfl
            simp only [Option.toList]
            rw [e, hv]
          · exact hw
      · exact ⟨rfl, hwf⟩

/-- The commit of a text by reference shows the reader of a well-formed state
what `commitText` by value computes. -/
theorem byRef_commitText_view (s : ByRef.State) (hwf : s.wellFormed = true) :
    (ByRef.commitText s).view = commitText s.view ∧
      (ByRef.commitText s).wellFormed = true := by
  obtain ⟨hv, hw⟩ := byRef_commit_alloc s hwf
    (.text s.editingText.x s.editingText.y s.editingText.text s.color s.editingText.fontSize)
  unfold ByRef.commitText commitText
  constructor
  · have e : ({ (ByRef.finalizeAction (s.elements ++ [s.heap.length]) s) with
        heap := s.heap ++ [.text s.editingText.x s.editingText.y s.editingText.text s.color
          s.editingText.fontSize],
        editingText := EditingText.hidden } : ByRef.State).view =
        { ({ (ByRef.finalizeAction (s.elements ++ [s.heap.length]) s) with
            heap := s.heap ++ [.text s.editingText.x s.editingText.y s.editingText.text s.color
              s.editingText.fontSize] } : ByRef.State).view with
          editingText := EditingText.hidden } := rfl
    simp only
    rw [e, hv]
    rfl
  · exact hw

/-- Every event that is not a move of a drag shows the reader of a well-formed
state what the controller by value computes, and leaves the state well-formed. -/
theorem byRef_step_view (s : ByRef.State) (e : Event) (hwf : s.wellFormed = true)
    (hmove : ByRef.isDragMove s e = false) :
    (ByRef.step s e).view = step s.view e ∧ (ByRef.step s e).wellFormed = true := by
  cases e with
  | setTool tool => exact ⟨rfl, hwf⟩
  | setColor color => exact ⟨rfl, hwf⟩
  | setStrokeWidth strokeWidth => exact ⟨rfl, hwf⟩
  | pointerDown x y =>
    exact ⟨byRef_handleCanvasMouseDown_view x y s, byRef_handleCanvasMouseDown_wellFormed x y s hwf⟩
  | pointerMove x y =>
    have hv : (s.view.tool == Tool.select && s.view.isDragging) = false := hmove
    simp only [ByRef.isDragMove] at hmove
    simp only [ByRef.step, step, ByRef.handleCanvasMouseMove, handleCanvasMouseMove, hmove, hv]
    exact byRef_handleMouseMove_view x y s hwf
  | pointerUp =>
    simp only [ByRef.step, step, ByRef.handleCanvasMouseUp, handleCanvasMouseUp]
    have ht : s.view.tool = s.tool := rfl
    rw [ht]
    split
    · exact ⟨rfl, hwf⟩
    · exact byRef_handleMouseUp_view s hwf
  | textChange value =>
    simp only [ByRef.step, step]
    have hvis : s.view.editingText = s.editingText := rfl
    rw [hvis]
    split
    · exact ⟨rfl, hwf⟩
    · exact ⟨rfl, hwf⟩
  | textKeyDown key =>
    simp only [ByRef.step, step, ByRef.handleTextKeyDown, handleTextKeyDown]
    have hvis : s.view.editingText = s.editingText := rfl
    rw [hvis]
    split
    · split
      · exact byRef_commitText_view s hwf
      · split
        · exact ⟨rfl, hwf⟩
        · exact ⟨rfl, hwf⟩
    · exact ⟨rfl, hwf⟩
  | textBlur =>
    simp only [ByRef.step, step]
    have hvis : s.view.editingText = s.editingText := rfl
    rw [hvis]
    split
    · exact byRef_commitText_view s hwf
    · exact ⟨rfl, hwf⟩
  | undo => exact ⟨byRef_undo_view s, byRef_undo_wellFormed s hwf⟩
  | redo => exact ⟨byRef_redo_view s, byRef_redo_wellFormed s hwf⟩
  | clearCanvas =>
    refine ⟨rfl, ?_⟩
    rw [wellFormed_iff]
    simp [ByRef.step, ByRef.clearCanvas]
  | zoomIn => exact ⟨rfl, hwf⟩
  | zoomOut => exact ⟨rfl, hwf⟩

/-- The move of a drag leaves a well-formed state well-formed. -/
theorem byRef_handleSelectMove_wellFormed (x y : JSNum) (s : ByRef.State)
    (hwf : s.wellFormed = true) : (ByRef.handleSelectMove x y s).wellFormed = true := by
  unfold ByRef.handleSelectMove
  split
  · exact hwf
  · cases hsel : s.selectedIndex with
    | none => exact hwf
    | some index =>
      simp only [ByRef.updateElementPosition]
      cases hel : s.elements[index]? with
      | none => exact hwf
      | some el =>
        obtain ⟨h1, h2, h3, h4⟩ := (wellFormed_iff s).mp hwf
        rw [wellFormed_iff]
        simp only [List.length_append, List.length_singleton, List.length_set]
        refine ⟨?_, fun rs hrs r hr => Nat.lt_succ_of_lt (h2 rs hrs r hr),
          fun r hr => Nat.lt_succ_of_lt (h3 r hr),
          fun rs hrs r hr => Nat.lt_succ_of_lt (h4 rs hrs r hr)⟩
        intro r hr
        rcases List.mem_or_eq_of_mem_set hr with h | h
        · exact Nat.lt_succ_of_lt (h1 r h)
        · rw [h]; exact Nat.lt_succ_self _

/-- Every event leaves a well-formed state well-formed. -/
theorem byRef_step_wellFormed (s : ByRef.State) (e : Event) (hwf : s.wellFormed = true) :
    (ByRef.step s e).wellFormed = true := by
  cases hmove : ByRef.isDragMove s e with
  | false => exact (byRef_step_view s e hwf hmove).2
  | true =>
    cases e with
    | pointerMove x y =>
      simp only [ByRef.isDragMove] at hmove
      simp only [ByRef.step, ByRef.handleCanvasMouseMove, hmove, if_true]
      exact byRef_handleSelectMove_wellFormed x y s hwf
    | _ => simp [ByRef.isDragMove] at hmove

/-- Every state the controller reaches from the initial state is well-formed. -/
theorem byRef_run_wellFormed (events : List Event) :
    (ByRef.run ByRef.State.initial events).wellFormed = true := by
  suffices h : ∀ s : ByRef.State, s.wellFormed = true → (ByRef.run s events).wellFormed = true
    from h _ rfl
  induction events with
  | nil => intro s hs; exact hs
  | cons e rest ih =>
    intro s hs
    exact ih _ (byRef_step_wellFormed s e hs)

/-- A pointer-move that is not the move of a drag leaves the history a reader
sees as it was, in every well-formed state. -/
theorem byRef_pointerMove_history (x y : JSNum) (s : ByRef.State) (hwf : s.wellFormed = true)
    (hmove : ByRef.isDragMove s (.pointerMove x y) = false) :
    (ByRef.step s (.pointerMove x y)).view.history = s.view.history := by
  rw [(byRef_step_view s _ hwf hmove).1]
  exact handleCanvasMouseMove_history x y s.view

end FlowDraw
